import Mathlib

/-!
# A shallow embedding of `scripts/export-markdown.js`

The exporter walks folders, journals, roll tables and other documents of the
host application and writes Markdown files and bundled assets into an archive.
The definitions below follow the JavaScript source function by function and
keep its names.

Conventions of the embedding.

* A JavaScript string is the list of its UTF-16 code units (`JsString`);
  `js "..."` is the string written by a literal.
* A value that may be `null` or `undefined` is an `Option`.
* The archive (`zip`) is the log of the writes made to it, in order; a path is
  *in* the archive when some write used it, and the entry found under a path is
  the last write made to it.
* A function that changes the archive or may throw takes the archive and
  returns the outcome (value or exception) together with the archive as it
  then stands: writes made before an exception are kept, as in JavaScript.
* A number that holds a non-negative integer is that natural number, and
  `Infinity` is `2^1024`; the result of an addition or multiplication is the
  double nearest to the exact result (`toDouble`).
-/

namespace ExportMarkdown

/-! ## Strings -/

/-- A JavaScript string: the list of its UTF-16 code units. -/
abbrev JsString := List Nat

/-- The UTF-16 code units of one Unicode code point. -/
def utf16EncodeCodePoint (cp : Nat) : JsString :=
  if cp < 0x10000 then [cp]
  else [0xD800 + (cp - 0x10000) / 0x400, 0xDC00 + (cp - 0x10000) % 0x400]

/-- The JavaScript string written by a string literal. -/
def js (s : String) : JsString :=
  s.toList.flatMap fun c => utf16EncodeCodePoint c.toNat

/-- Truthiness of a possibly absent string: present and not empty. -/
def truthy : Option JsString → Bool
  | some (_ :: _) => true
  | _ => false

/-- What string concatenation makes of a possibly `undefined` operand. -/
def toStr : Option JsString → JsString
  | some s => s
  | none => js "undefined"

/-- The method `s.replaceAll(a, b)` for a single code unit `a`. -/
def replaceAllUnit (a : Nat) (b : JsString) (s : JsString) : JsString :=
  s.flatMap fun c => if c = a then b else [c]

/-- The method `s.slice(start)`: a negative `start` counts from the end. -/
def slice (start : Int) (s : JsString) : JsString :=
  if start < 0 then s.drop (s.length - start.natAbs) else s.drop start.toNat

/-- The method `s.startsWith(p)`. -/
def startsWith (p s : JsString) : Bool := p.isPrefixOf s

/-- The method `s.padStart(n, c)` for a single code unit `c`. -/
def padStart (n : Nat) (c : Nat) (s : JsString) : JsString :=
  List.replicate (n - s.length) c ++ s

/-- Value of a hexadecimal digit. -/
def hexDigit (c : Nat) : Option Nat :=
  if 48 ≤ c ∧ c ≤ 57 then some (c - 48)
  else if 65 ≤ c ∧ c ≤ 70 then some (c - 55)
  else if 97 ≤ c ∧ c ≤ 102 then some (c - 87)
  else none

/-- One escape `%XY` at the head of a string: its octet and what follows. -/
def parseEscape : JsString → Option (Nat × JsString)
  | 37 :: x :: y :: rest =>
    match hexDigit x, hexDigit y with
    | some a, some b => some (16 * a + b, rest)
    | _, _ => none
  | _ => none

/-- A continuation octet `10xxxxxx` of UTF-8: its six payload bits. -/
def continuation (b : Nat) : Option Nat :=
  if 0x80 ≤ b ∧ b < 0xC0 then some (b - 0x80) else none

/-- The escape sequence at the head of a string (which starts with `%`): the
code units it stands for and the number of code units it takes, or `none`
where `decodeURIComponent` throws a `URIError`. -/
def decodeEscapes (s : JsString) : Option (JsString × Nat) :=
  match parseEscape s with
  | none => none
  | some (b, r1) =>
    if b < 0x80 then some ([b], 3)
    else if b < 0xC0 then none
    else if b < 0xE0 then
      match parseEscape r1 with
      | some (b1, _) =>
        match continuation b1 with
        | some c1 =>
          let cp := (b - 0xC0) * 0x40 + c1
          if 0x80 ≤ cp then some (utf16EncodeCodePoint cp, 6) else none
        | none => none
      | none => none
    else if b < 0xF0 then
      match parseEscape r1 with
      | some (b1, r2) =>
        match parseEscape r2 with
        | some (b2, _) =>
          match continuation b1, continuation b2 with
          | some c1, some c2 =>
            let cp := (b - 0xE0) * 0x1000 + c1 * 0x40 + c2
            if 0x800 ≤ cp ∧ ¬ (0xD800 ≤ cp ∧ cp < 0xE000) then
              some (utf16EncodeCodePoint cp, 9)
            else none
          | _, _ => none
        | none => none
      | none => none
    else if b < 0xF8 then
      match parseEscape r1 with
      | some (b1, r2) =>
        match parseEscape r2 with
        | some (b2, r3) =>
          match parseEscape r3 with
          | some (b3, _) =>
            match continuation b1, continuation b2, continuation b3 with
            | some c1, some c2, some c3 =>
              let cp := (b - 0xF0) * 0x40000 + c1 * 0x1000 + c2 * 0x40 + c3
              if 0x10000 ≤ cp ∧ cp < 0x110000 then
                some (utf16EncodeCodePoint cp, 12)
              else none
            | _, _, _ => none
          | none => none
        | none => none
      | none => none
    else none

/-- The loop of `decodeURIComponent`; `skip` counts the code units of an escape
sequence that has been decoded and is still to be passed over. -/
def decodeLoop : Nat → JsString → Option JsString
  | _, [] => some []
  | skip + 1, _ :: cs => decodeLoop skip cs
  | 0, c :: cs =>
    if c = 37 then
      match decodeEscapes (c :: cs) with
      | none => none
      | some (units, len) => (decodeLoop (len - 1) cs).map (units ++ ·)
    else (decodeLoop 0 cs).map (c :: ·)

/-- The built-in `decodeURIComponent` of JavaScript; `none` stands for the
`URIError` it throws on a malformed escape sequence. -/
def decodeURIComponent (s : JsString) : Option JsString := decodeLoop 0 s

/-! ## The archive -/

/-- What a write puts under a path: text, or the bytes fetched from a source
(fetched later; a failed fetch leaves an empty payload under the same path). -/
inductive FileData where
  | text (content : JsString)
  | asset (source : JsString)
  deriving DecidableEq, Repr

/-- Modelled from the spec: the archive writer (`lib/jszip.min.js`), a sink
`putFile(path, content)`. The archive is the list of writes made so far, oldest
first; directory entries are not recorded. -/
abbrev Zip := List (JsString × FileData)

/-- Exceptions of the embedding. -/
inductive JsError where
  | URIError
  | TypeError
  | RangeError
  | Error
  deriving DecidableEq, Repr

/-- How a call ends: it returns a value, throws, or never returns. -/
inductive Outcome (α : Type) where
  | ok (a : α)
  | throws (e : JsError)
  | hangs
  deriving DecidableEq, Repr

/-- A computation over the archive: from the archive as it stands to the
outcome and the archive as it stands then. -/
def Run (α : Type) : Type := Zip → Outcome α × Zip

instance : Monad Run where
  pure a := fun zip => (.ok a, zip)
  bind m f := fun zip =>
    match m zip with
    | (.ok a, zip1) => f a zip1
    | (.throws e, zip1) => (.throws e, zip1)
    | (.hangs, zip1) => (.hangs, zip1)

/-- The statement `throw e`. -/
def Run.throw {α : Type} (e : JsError) : Run α := fun zip => (.throws e, zip)

/-- The entry path that `zip.folder(dir).file(name, ...)` writes: `folder`
with an empty name is the archive itself, otherwise the folder name with a
trailing slash is the root of the names written through it. -/
def entryPath (dir name : JsString) : JsString :=
  if dir = [] then name
  else if slice (-1) dir = js "/" then dir ++ name
  else dir ++ js "/" ++ name

/-- The call `zip.folder(dir).file(name, data)`. -/
def Zip.file (zip : Zip) (dir name : JsString) (data : FileData) : Zip :=
  zip ++ [(entryPath dir name, data)]

/-- The test `path in zip.files`. -/
def Zip.has (zip : Zip) (path : JsString) : Bool :=
  zip.any fun e => e.1 == path

/-- The entry found under a path in the finished archive: the last write. -/
def Zip.get (zip : Zip) (path : JsString) : Option FileData :=
  (zip.reverse.find? fun e => e.1 == path).map (·.2)

/-- The entry paths of the finished archive, each once, in order of first
write: a later write under a path replaces the entry where it stands. -/
def Zip.paths (zip : Zip) : List JsString :=
  zip.foldl (fun seen e => if e.1 ∈ seen then seen else seen ++ [e.1]) []

/-! ## Names and links -/

/-- The constant `destForImages`. -/
def destForImages : JsString := js "zz_asset-files"

/-- The code units the pattern of `validFilename` matches: `<>:"/\|?*`. -/
def invalidFilenameUnit (c : Nat) : Bool :=
  c = 60 ∨ c = 62 ∨ c = 58 ∨ c = 34 ∨ c = 47 ∨ c = 92 ∨ c = 124 ∨ c = 63 ∨ c = 42

/-- The function `validFilename`. -/
def validFilename (name : JsString) : JsString :=
  name.map fun c => if invalidFilenameUnit c then 95 else c

/-- The function `formpath`. -/
def formpath (dir file : JsString) : JsString :=
  if dir ≠ [] then dir ++ js "/" ++ file else file

/-- The function `formatLink`. -/
def formatLink (link : JsString) (label : Option JsString) (inline : Bool) : JsString :=
  let body := if truthy label ∧ label ≠ some link then link ++ js "|" ++ toStr label else link
  let result := js "[[" ++ body ++ js "]]"
  if inline then js "!" ++ result else result

/-- The function `fileconvert`: the link returned (or the exception thrown)
and the archive with the asset scheduled under its flattened name. -/
def fileconvert (filename : JsString) (label_or_size : Option JsString) (inline : Bool)
    : Run JsString := fun zip =>
  match decodeURIComponent filename with
  | none => (.throws .URIError, zip)
  | some filename =>
    let basefilename :=
      slice (-250 + (destForImages.length : Int)) (replaceAllUnit 47 (js "-") filename)
    (.ok (formatLink basefilename label_or_size inline),
      zip.file destForImages basefilename (.asset filename))

/-! ## Documents, settings and the host application -/

/-- What the exporter reads of any document: its name, its global identifier,
the name of its document class, its place among its siblings (`sort`), and, for
a `CompendiumCollection`, its title. -/
structure Document where
  name : JsString
  uuid : JsString
  documentName : JsString
  sort : Int := 0
  collectionTitle : Option JsString := none

/-- The settings read at the start of an export. -/
structure Settings where
  use_uuid_for_journal_folder : Bool
  use_uuid_for_notename : Bool
  dumpoption : JsString

/-- A document found by `fromUuidSync`. For a `JournalEntryPage`, `page` holds
its parent journal with the number of pages of that journal, and `toc` the
heading text recorded under each slug. -/
structure LinkDoc where
  doc : Document
  page : Option (Document × Nat) := none
  toc : List (JsString × JsString) := []

/-- How the call `fromUuidSync(target, ...)` ends. -/
inductive Lookup where
  | throws
  | missing
  | found (linkdoc : LinkDoc)

/-- How the `try` block of `uuidFailSafe` ends: an exception, no parent
document, or the parent document, with its name and the title of the pack that
`game.packs.get(parentDoc.pack)` finds, if any. -/
inductive ParentLookup where
  | throws
  | missing
  | found (name : JsString) (packTitle : Option JsString)

/-- The host application and the libraries, as far as the exporter calls them. -/
structure Host where
  /-- The constant `CONST.DOCUMENT_LINK_TYPES`. -/
  DOCUMENT_LINK_TYPES : List JsString
  /-- The call `fromUuidSync(target, ...)` with `relativeTo` as the `relative` option. -/
  fromUuidSync : JsString → Document → Lookup
  /-- The lookups of `uuidFailSafe`: `parseUuid`, `getUuid`, `fromUuidSync` of the
  parent and `game.packs.get`. -/
  parentLookup : JsString → ParentLookup
  /-- The call `turndownService.turndown(html)`; `none` when it throws. -/
  turndown : JsString → Option JsString
  /-- The setting `OPTION_LEAFLET`, read by `oneDocument`. -/
  OPTION_LEAFLET : Bool := false

/-- The function `docfilename`. -/
def docfilename (s : Settings) (doc : Document) : JsString :=
  match doc.collectionTitle with
  | some title => if s.use_uuid_for_notename then doc.uuid else validFilename title
  | none => if s.use_uuid_for_notename then doc.uuid else validFilename doc.name

/-- The function `zipfilename`. -/
def zipfilename (s : Settings) (doc : Document) : JsString :=
  docfilename s doc ++ js ".md"

/-- The function `notefilename`; `page` is present when `doc` is a
`JournalEntryPage` and holds `doc.parent` and `doc.parent.pages.size`. -/
def notefilename (s : Settings) (doc : Document) (page : Option (Document × Nat)) : JsString :=
  docfilename s
    (match page with
     | some (parent, size) => if size = 1 then parent else doc
     | none => doc)

/-! ## Frontmatter -/

/-- Decimal digits of `n`, most significant first; `fuel` bounds their number. -/
def decimalDigits : Nat → Nat → JsString
  | 0, _ => []
  | fuel + 1, n => if n < 10 then [48 + n] else decimalDigits fuel (n / 10) ++ [48 + n % 10]

/-- The value that stands for `Infinity`: `2^1024`, the least power of two
above every finite double. -/
def INFINITY : Nat := 2 ^ 256 * 2 ^ 256 * 2 ^ 256 * 2 ^ 256

/-- The number of halvings that bring `x` below `2^53`: the exponent by which
the mantissa of the double for `x` is scaled; `fuel` bounds the halvings. -/
def binaryExponent : Nat → Nat → Nat
  | 0, _ => 0
  | fuel + 1, x => if x < 2 ^ 53 then 0 else binaryExponent fuel (x / 2) + 1

/-- The double nearest to the natural number `x`, a tie going to the even
mantissa (of 53 bits), and `INFINITY` from `2^1024 - 2^970` on: what an
arithmetic operation returns whose exact result is `x`. -/
def toDouble (x : Nat) : Nat :=
  if x < 2 ^ 53 then x
  else
    let e := binaryExponent x x
    let q := x / 2 ^ e
    let r := x % 2 ^ e
    let half := 2 ^ (e - 1)
    let m := if r > half ∨ (r = half ∧ q % 2 = 1) then q + 1 else q
    if INFINITY ≤ m * 2 ^ e then INFINITY else m * 2 ^ e

/-- The sum `a + b` of two numbers. -/
def numAdd (a b : Nat) : Nat := toDouble (a + b)

/-- The product `a * b` of two numbers, none of them zero when the other is
`Infinity`. -/
def numMul (a b : Nat) : Nat := toDouble (a * b)

/-- The decimal with the fewest significant digits that denotes the double
`v` (an integer from `2^53` on): for the exponents `t`, `t - 1`, ... the
multiples of `10^t` next below and next above `v` are tried, the one nearer to
`v` first, and of two equally near the one with the even multiplier. -/
def shortestDecimal (v : Nat) : Nat → Nat
  | 0 => v
  | t + 1 =>
    let p := 10 ^ (t + 1)
    let lo := v / p * p
    let hi := lo + p
    if toDouble lo = v ∧ toDouble hi = v then
      if v - lo < hi - v then lo
      else if hi - v < v - lo then hi
      else if (v / p) % 2 = 0 then lo else hi
    else if toDouble lo = v then lo
    else if toDouble hi = v then hi
    else shortestDecimal v t

/-- The digits of a decimal in exponent notation: `d.ddde+x`, and `de+x` for a
single significant digit. -/
def exponentNotation (digits : JsString) : JsString :=
  let significant := (digits.reverse.dropWhile (· = 48)).reverse
  (match significant with
   | [] => []
   | d :: [] => [d]
   | d :: rest => d :: 46 :: rest) ++
    js "e+" ++ decimalDigits digits.length (digits.length - 1)

/-- The method `n.toString()` of a number that holds a non-negative integer or
`Infinity`: the integer in decimal below `2^53`; from there on the shortest
decimal that denotes the same double, in exponent notation when it has more
than 21 digits. -/
def numberToString (n : Nat) : JsString :=
  if n < 2 ^ 53 then decimalDigits (n + 1) n
  else if toDouble n = INFINITY then js "Infinity"
  else
    let c := shortestDecimal (toDouble n) (decimalDigits (n + 1) n).length
    let digits := decimalDigits (c + 1) c
    if digits.length ≤ 21 then digits else exponentNotation digits

/-- The constant `SORT_DEFAULT`. -/
def SORT_DEFAULT : Nat := 100

/-- The constant `SORT_PADDING`. -/
def SORT_PADDING : Nat := 10

/-- The constant `FRONTMATTER`. -/
def FRONTMATTER : JsString := js "---\n"

/-- The constant `EOL`. -/
def EOL : JsString := js "\n"

/-- The constant `MARKER`. -/
def MARKER : JsString := js "\x60\x60\x60"

/-- The constant `IMG_SIZE`. -/
def IMG_SIZE : JsString := js "150"

/-- The constant `ITEM_BREAK`. -/
def ITEM_BREAK : JsString := js "ITEMS"

/-- The table `DOCUMENT_ICON.table`. -/
def DOCUMENT_ICON.table : List (JsString × JsString) :=
  [(js "Actor", js ":user:"), (js "Cards", js ":spade:"),
   (js "ChatMessage", js ":messages-square:"), (js "Combat", js ":swords:"),
   (js "Item", js ":luggage:"), (js "Folder", js ":folder:"),
   (js "JournalEntry", js ":book:"), (js "JournalEntryPage", js ":sticky-note:"),
   (js "Playlist", js ":music:"), (js "RollTable", js ":list:"), (js "Scene", js ":map:")]

/-- The names of the properties that a plain object inherits from
`Object.prototype`. -/
def objectPrototypeKeys : List JsString :=
  [js "constructor", js "__defineGetter__", js "__defineSetter__", js "hasOwnProperty",
   js "__lookupGetter__", js "__lookupSetter__", js "isPrototypeOf",
   js "propertyIsEnumerable", js "toString", js "valueOf", js "__proto__",
   js "toLocaleString"]

/-- The text that a template literal makes of an inherited property of a
plain object, as V8 prints it: the built-in function of that name (`Object`
for `constructor`), and `Object.prototype` itself for `__proto__`. -/
def inheritedText (key : JsString) : JsString :=
  if key = js "__proto__" then js "[object Object]"
  else js "function " ++ (if key = js "constructor" then js "Object" else key) ++
    js "() \x7b [native code] \x7d"

/-- The function `DOCUMENT_ICON.lookup`: a property read on the plain object
`DOCUMENT_ICON.table`, which finds the entries of the table and the properties
inherited from `Object.prototype`. -/
def DOCUMENT_ICON.lookup (document : Document) : JsString :=
  match DOCUMENT_ICON.table.lookup document.documentName with
  | some icon => icon
  | none =>
    if document.documentName ∈ objectPrototypeKeys then inheritedText document.documentName
    else js ":file-question:"

/-- The value `sortFormated` of `frontmatter` and `frontmatterFolder`:
`sort.toString().padStart(SORT_PADDING, '0')`. -/
def sortFormated (sort : Nat) : JsString :=
  padStart SORT_PADDING 48 (numberToString sort)

/-- The function `frontmatter`. -/
def frontmatter (doc : Document) (sort : Nat) (showheader : Bool) (index : Bool) : JsString :=
  let header := if showheader then js "\n# " ++ doc.name ++ js "\n" else []
  let title := if index then js "Index of " ++ doc.name else doc.name
  FRONTMATTER ++
    js "title: \"" ++ title ++ js "\"\n" ++
    js "icon: \"" ++ DOCUMENT_ICON.lookup doc ++ js "\"\n" ++
    js "aliases: \"" ++ title ++ js "\"\n" ++
    js "foundryId: " ++ doc.uuid ++ js "\n" ++
    js "sortOrder: \"" ++ sortFormated sort ++ js "\"\n" ++
    js "tags:\n  - " ++ doc.documentName ++ js "\n" ++
    FRONTMATTER ++
    header

/-- The function `frontmatterFolder`. -/
def frontmatterFolder (name : JsString) (sort : Nat) (showheader : Bool) (index : Bool) :
    JsString :=
  let header := if showheader then js "\n# " ++ name ++ js "\n" else []
  let title := if index then js "Index of " ++ name else name
  FRONTMATTER ++
    js "title: \"" ++ title ++ js "\"\n" ++
    js "icon: \":folder:\"\n" ++
    js "aliases: \"" ++ title ++ js "\"\n" ++
    js "sortOrder: \"" ++ sortFormated sort ++ js "\"\n" ++
    js "tags:\n  - \"toc\"\n" ++
    FRONTMATTER ++
    header

/-- The value of a string of decimal digits. -/
def decimalValue (s : JsString) : Nat :=
  s.foldl (fun acc c => 10 * acc + (c - 48)) 0

/-- The comparison `a < b` of two strings: by code units, a proper prefix first. -/
def strLt : JsString → JsString → Bool
  | _, [] => false
  | [], _ :: _ => true
  | a :: as, b :: bs => a < b || (a == b && strLt as bs)

/-! ## Links -/

/-- The function `dummyLink`. -/
def dummyLink (target : JsString) (label : Option JsString) : JsString :=
  formatLink target label false

/-- The function `uuidFailSafe`. -/
def uuidFailSafe (s : Settings) (host : Host) (target : JsString) (label : Option JsString) :
    JsString :=
  if ¬ s.use_uuid_for_notename then
    match host.parentLookup target with
    | .found parentName (some packTitle) =>
      let fixed_title := replaceAllUnit 47 (js "_") packTitle
      let result := fixed_title ++ js "/" ++ parentName ++ js "/" ++ toStr label
      formatLink result label false
    | _ => dummyLink target label
  else dummyLink target label

/-- One match of the link pattern: the matched text and the four groups. -/
structure LinkMatch where
  str : JsString
  type : JsString
  target : JsString
  hash : Option JsString
  label : Option JsString
  deriving DecidableEq, Repr

/-- The class `[A-Za-z]`. -/
def isLetter (c : Nat) : Bool := (65 ≤ c ∧ c ≤ 90) ∨ (97 ≤ c ∧ c ≤ 122)

/-- The class `[^#\]]`. -/
def isTargetUnit (c : Nat) : Bool := c ≠ 35 ∧ c ≠ 93

/-- The class `[^\]]`. -/
def isHashUnit (c : Nat) : Bool := c ≠ 93

/-- The class `[^}]`. -/
def isLabelUnit (c : Nat) : Bool := c ≠ 125

/-- The optional group `(?:#([^\]]+))?` at the head of `r`: the hash and what
follows it, when the group matches and a `]` follows; otherwise no hash and `r`. -/
def matchHash (r : JsString) : Option JsString × JsString :=
  match r with
  | 35 :: r1 =>
    match r1.takeWhile isHashUnit, r1.dropWhile isHashUnit with
    | _ :: _, 93 :: r2 => (some (r1.takeWhile isHashUnit), 93 :: r2)
    | _, _ => (none, r)
  | _ => (none, r)

/-- The optional group `(?:\x7b([^}]+)})?` at the head of `r`: the label and what
follows the group when it matches; otherwise no label and `r`. -/
def matchLabel (r : JsString) : Option JsString × JsString :=
  match r with
  | 123 :: r1 =>
    match r1.takeWhile isLabelUnit, r1.dropWhile isLabelUnit with
    | _ :: _, 125 :: r2 => (some (r1.takeWhile isLabelUnit), r2)
    | _, _ => (none, r)
  | _ => (none, r)

/-- A match of `@([A-Za-z]+)\[([^#\]]+)(?:#([^\]]+))?](?:\x7b([^}]+)})?` at the
head of `text`. Every repetition is followed by a code unit outside its class,
so the greedy choice is the only one that can succeed. -/
def matchLink (text : JsString) : Option LinkMatch :=
  match text with
  | 64 :: r0 =>
    match r0.takeWhile isLetter, r0.dropWhile isLetter with
    | t :: ts, 91 :: r1 =>
      match r1.takeWhile isTargetUnit with
      | [] => none
      | g :: gs =>
        match matchHash (r1.dropWhile isTargetUnit) with
        | (hash, 93 :: r2) =>
          let (label, r3) := matchLabel r2
          some ⟨text.take (text.length - r3.length), t :: ts, g :: gs, hash, label⟩
        | _ => none
    | _, _ => none
  | _ => none

/-- The property read `toc[hash]` on the table of contents of a page, a plain
object with one entry per slug: `some (some text)` for an entry, with its
field `text`; `some none` for a property inherited from `Object.prototype`,
which is truthy and has no field `text`; `none` for `undefined`. -/
def tocLookup (toc : List (JsString × JsString)) (hash : JsString) :
    Option (Option JsString) :=
  match toc.lookup hash with
  | some text => some (some text)
  | none => if hash ∈ objectPrototypeKeys then some none else none

/-- The function `replaceOneLink`, nested in `convertLinks`. -/
def replaceOneLink (s : Settings) (host : Host) (relativeTo : Document)
    (str type target : JsString) (hash label : Option JsString) : JsString :=
  let inline := startsWith (js "inline") type
  let type := if inline then slice (js "inline").length type else type
  if type ∉ host.DOCUMENT_LINK_TYPES ++ [js "Compendium", js "UUID"] then str
  else
    let target := if type ≠ js "UUID" then type ++ js "." ++ target else target
    match host.fromUuidSync target relativeTo with
    | .throws => uuidFailSafe s host target label
    | .missing =>
      -- `linkdoc.name` throws when no label and no hash came with the reference
      if ¬ truthy label ∧ ¬ truthy hash then uuidFailSafe s host target label
      else dummyLink target label
    | .found linkdoc =>
      let label := if ¬ truthy label ∧ ¬ truthy hash then some linkdoc.doc.name else label
      let filename := notefilename s linkdoc.doc linkdoc.page
      match (if truthy hash ∧ linkdoc.page.isSome then tocLookup linkdoc.toc (toStr hash)
             else none) with
      | some text =>
        formatLink (filename ++ js "#" ++ toStr text) (if ¬ truthy label then text else label)
          false
      | none => formatLink filename label false

/-- The call `markdown.replace(pattern, replaceOneLink)`; `skip` counts the code
units of a match that has been replaced and is still to be passed over. -/
def replaceLinks (s : Settings) (host : Host) (relativeTo : Document) :
    Nat → JsString → JsString
  | _, [] => []
  | skip + 1, _ :: cs => replaceLinks s host relativeTo skip cs
  | 0, c :: cs =>
    match matchLink (c :: cs) with
    | some m =>
      replaceOneLink s host relativeTo m.str m.type m.target m.hash m.label ++
        replaceLinks s host relativeTo (m.str.length - 1) cs
    | none => c :: replaceLinks s host relativeTo 0 cs

/-- A match of `!\[\]\(([^)]*)\)` at the head of `text`: the matched text and
the file name. -/
def matchFile (text : JsString) : Option (JsString × JsString) :=
  match text with
  | 33 :: 91 :: 93 :: 40 :: r =>
    match r.dropWhile (fun c => c ≠ 41) with
    | 41 :: _ =>
      some (js "![](" ++ r.takeWhile (fun c => c ≠ 41) ++ js ")", r.takeWhile (fun c => c ≠ 41))
    | _ => none
  | _ => none

/-- The function `replaceLinkedFile`. -/
def replaceLinkedFile (str filename : JsString) : Run JsString :=
  if startsWith (js "data:image") filename ∨ startsWith (js ":") filename then pure str
  else fileconvert filename none true

/-- The call `markdown.replaceAll(filepattern, replaceLinkedFile)`. -/
def replaceFiles : Nat → JsString → Run JsString
  | _, [] => pure []
  | skip + 1, _ :: cs => replaceFiles skip cs
  | 0, c :: cs =>
    match matchFile (c :: cs) with
    | some (str, filename) => do
      let link ← replaceLinkedFile str filename
      let rest ← replaceFiles (str.length - 1) cs
      pure (link ++ rest)
    | none => do
      let rest ← replaceFiles 0 cs
      pure (c :: rest)

/-- The function `convertLinks`; a `markdown` that is `undefined` has no
method `replace`. -/
def convertLinks (s : Settings) (host : Host) (markdown : Option JsString)
    (relativeTo : Document) : Run JsString :=
  match markdown with
  | none => Run.throw .TypeError
  | some markdown => replaceFiles 0 (replaceLinks s host relativeTo 0 markdown)

/-- The method `s.replaceAll(pattern, replacement)` for a non-empty string
pattern; `skip` counts the code units of an occurrence still to be passed over. -/
def replaceAllStr (pattern replacement : JsString) : Nat → JsString → JsString
  | _, [] => []
  | skip + 1, _ :: cs => replaceAllStr pattern replacement skip cs
  | 0, c :: cs =>
    if startsWith pattern (c :: cs) then
      replacement ++ replaceAllStr pattern replacement (pattern.length - 1) cs
    else c :: replaceAllStr pattern replacement 0 cs

/-- The function `convertHtml`. An exception thrown inside its `try` block is
caught: the result is then the value `markdown` had when it was thrown. -/
def convertHtml (s : Settings) (host : Host) (doc : Document) (html : Option JsString) :
    Run (Option JsString) := fun zip =>
  match convertLinks s host html doc zip with
  | (.ok linked, zip1) =>
    match host.turndown linked with
    | some turned =>
      let markdown :=
        replaceAllStr (js "\\]\\]") (js "]]") 0 (replaceAllStr (js "\\[\\[") (js "[[") 0 turned)
      match replaceFiles 0 markdown zip1 with
      | (.ok converted, zip2) => (.ok (some converted), zip2)
      | (.throws _, zip2) => (.ok (some markdown), zip2)
      | (.hangs, zip2) => (.hangs, zip2)
    | none => (.ok none, zip1)
  | (.throws _, zip1) => (.ok none, zip1)
  | (.hangs, zip1) => (.hangs, zip1)

/-- A page of a journal: `type`, `text.format`, `text.content`,
`text.markdown`, `src`, `image.caption`, `title.level` and `title.show`. -/
structure Page where
  doc : Document
  type : JsString
  format : Nat := 1
  content : Option JsString := none
  markdown : Option JsString := none
  src : Option JsString := none
  caption : Option JsString := none
  level : Nat := 1
  showTitle : Bool := true

/-- The function `convertPage`. -/
def convertPage (s : Settings) (host : Host) (page : Page) : Run (Option JsString) :=
  if page.type = js "text" then
    if page.format = 1 then convertHtml s host page.doc page.content
    else if page.format = 2 then pure page.markdown
    else pure none
  else if page.type = js "image" ∨ page.type = js "pdf" ∨ page.type = js "video" then do
    let markdown ←
      (if truthy page.src then do
        let link ← fileconvert (toStr page.src) none true
        pure (some (link ++ EOL))
      else pure none : Run (Option JsString))
    if truthy page.caption then pure (some (toStr markdown ++ EOL ++ toStr page.caption ++ EOL))
    else pure markdown
  else pure none

/-! ## Journals -/

/-- The call `zip.folder(dir).file(name, data)` as a step of a computation. -/
def putFile (dir name : JsString) (data : FileData) : Run Unit :=
  fun zip => (.ok (), zip.file dir name data)

/-- A computation that ends the way `o` does and leaves the archive alone. -/
def Run.ofOutcome {α : Type} (o : Outcome α) : Run α := fun zip => (o, zip)

/-- A journal: `journal.pages.contents` lists its pages. -/
structure Journal where
  doc : Document
  pages : List Page

/-- The call `pages.sort((a,b) => a.sort - b.sort)`: a stable sort by `sort`. -/
def sortPages (pages : List Page) : List Page :=
  pages.insertionSort fun a b => a.doc.sort ≤ b.doc.sort

/-- The method `' '.repeat(n)` for `n = 2*(level-1)`; a negative count throws. -/
def indent (level : Nat) : Outcome JsString :=
  if level = 0 then .throws .RangeError else .ok (List.replicate (2 * (level - 1)) 32)

/-- The first loop of `oneJournal`: one line of the page listing per page. -/
def journalToc (s : Settings) : List Page → JsString → Outcome JsString
  | [], markdown => .ok markdown
  | page :: rest, markdown =>
    match indent page.level with
    | .ok spaces =>
      journalToc s rest
        (markdown ++ js "\n" ++ spaces ++ js "- " ++
          formatLink (docfilename s page.doc) (some page.doc.name) false)
    | .throws e => .throws e
    | .hangs => .hangs

/-- The loop `while (path in zip.files) name = notefilename(page) + " " + i` of
`oneJournal`, run for at most `fuel` tests of its condition; `none` when the
fuel runs out. The body never changes `i`. -/
def renameLoop (zip : Zip) (subpath base : JsString) (i : Nat) : Nat → JsString → Option JsString
  | 0, _ => none
  | fuel + 1, name =>
    if zip.has (subpath ++ js "/" ++ name ++ js ".md") then
      renameLoop zip subpath base i fuel (base ++ js " " ++ numberToString i)
    else some name

/-- The name under which a page is written. Every pass through the body of the
loop assigns the same name, so a third test of the condition repeats the
second: the loop ends within two tests or never (`renameLoop_stable`). -/
def pageName (zip : Zip) (subpath base : JsString) : Option JsString :=
  renameLoop zip subpath base 1 2 base

/-- The second loop of `oneJournal`: one file per page, the page with the name
of the journal left out when the journal has several pages. -/
def journalPages (s : Settings) (host : Host) (subpath : JsString) (journal : Journal) :
    List Page → Nat → Run Unit
  | [], _ => pure ()
  | page :: rest, subsort =>
    if page.doc.name ≠ journal.doc.name ∨ journal.pages.length = 1 then fun zip =>
      match pageName zip subpath
        (notefilename s page.doc (some (journal.doc, journal.pages.length))) with
      | none => (.hangs, zip)
      | some name =>
        (do
          let markdown ← convertPage s host page
          if truthy markdown then
            putFile subpath (name ++ js ".md")
              (.text (frontmatter page.doc subsort page.showTitle false ++ toStr markdown))
          journalPages s host subpath journal rest (numAdd subsort 1)) zip
    else journalPages s host subpath journal rest subsort

/-- The function `oneJournal`. -/
def oneJournal (s : Settings) (host : Host) (path : JsString) (journal : Journal) (sort : Nat) :
    Run Unit := do
  let pages := journal.pages
  let subpath :=
    if pages.length > 1 then
      formpath path
        (if s.use_uuid_for_journal_folder then docfilename s journal.doc
         else validFilename journal.doc.name)
    else path
  if pages.length > 1 then do
    let markdown := frontmatter journal.doc sort true false
    let markdown ←
      (match pages.find? (fun page => page.doc.name = journal.doc.name) with
       | some page => do
         let converted ← convertPage s host page
         pure (markdown ++ js "\n" ++ toStr converted ++ js "\n\n---\n")
       | none => pure markdown : Run JsString)
    let markdown := markdown ++ js "\n## Table of Contents\n"
    let markdown ← Run.ofOutcome (journalToc s (sortPages pages) markdown)
    putFile subpath (zipfilename s journal.doc) (.text markdown)
  journalPages s host subpath journal (sortPages pages)
    (if pages.length > 1 then numMul sort 10 else sort)

/-! ## Roll tables and generic documents -/

/-- A result of a roll table: its range and the text of `getChatText()`. -/
structure TableResult where
  range : Nat × Nat
  chatText : JsString

/-- A roll table. -/
structure RollTable where
  doc : Document
  description : Option JsString := none
  formula : Option JsString := none
  results : List TableResult

/-- The loop of `oneRollTable`: one table row per result. -/
def rollTableRows (s : Settings) (host : Host) (table : RollTable) :
    List TableResult → JsString → Run JsString
  | [], markdown => pure markdown
  | tableresult :: rest, markdown => do
    let range :=
      if tableresult.range.1 = tableresult.range.2 then numberToString tableresult.range.1
      else numberToString tableresult.range.1 ++ js "-" ++ numberToString tableresult.range.2
    let text ← convertLinks s host (some tableresult.chatText) table.doc
    rollTableRows s host table rest
      (markdown ++ js "| " ++ range ++ js " | " ++ replaceAllUnit 124 (js "\\|") text ++ js " |\n")

/-- The function `oneRollTable`. -/
def oneRollTable (s : Settings) (host : Host) (path : JsString) (table : RollTable)
    (sort : Nat) : Run Unit := do
  let markdown := frontmatter table.doc sort true false
  let markdown :=
    if truthy table.description then markdown ++ toStr table.description ++ js "\n\n"
    else markdown
  let markdown := markdown ++
    js "| " ++ (if truthy table.formula then toStr table.formula else js "Roll") ++
    js " | result |\n" ++ js "|------|--------|\n"
  let markdown ← rollTableRows s host table table.results markdown
  putFile path (zipfilename s table.doc) (.text markdown)

/-- A document of any other kind, as `maybeTemplate` and `documentToJSON` read
it: its image, `foundry.utils.getProperty(doc, field)`, the two dumps of
`doc.toCompendium(null)` (`jsyaml.dump(data)` and `JSON.stringify(data, null, 2)`),
and, when `templateFile(doc)` names a template, what `myRenderTemplate` makes
of the document for a sort counter (`none` when it throws). -/
structure GenericDoc where
  doc : Document
  img : Option JsString := none
  getProperty : JsString → Option JsString
  yaml : JsString
  json : JsString
  template : Option (Nat → Option JsString) := none

/-- The constant `DESCRIPTIONS` of `documentToJSON`. -/
def DESCRIPTIONS : List JsString :=
  [js "system.details.biography.value", js "system.details.publicNotes",
   js "system.description.value"]

/-- The loop of `documentToJSON` over `DESCRIPTIONS`. -/
def descriptionFields (s : Settings) (host : Host) (g : GenericDoc) :
    List JsString → JsString → Run JsString
  | [], markdown => pure markdown
  | field :: rest, markdown => do
    let text := g.getProperty field
    if truthy text then do
      let converted ← convertHtml s host g.doc text
      descriptionFields s host g rest (markdown ++ toStr converted ++ EOL ++ EOL)
    else descriptionFields s host g rest markdown

/-- The function `documentToJSON`. -/
def documentToJSON (s : Settings) (host : Host) (path : JsString) (g : GenericDoc)
    (sort : Nat) : Run Unit := do
  let markdown := frontmatter g.doc sort true false
  let markdown ←
    (if truthy g.img then do
      let link ← fileconvert (toStr g.img) (some IMG_SIZE) true
      pure (markdown ++ link ++ EOL ++ EOL)
    else pure markdown : Run JsString)
  let markdown ← descriptionFields s host g DESCRIPTIONS markdown
  let datastring : Option JsString :=
    if s.dumpoption = js "YAML" then some g.yaml
    else if s.dumpoption = js "JSON" then some (g.json ++ EOL)
    else none
  let datastring ← convertLinks s host datastring g.doc
  let markdown := markdown ++ (MARKER ++ g.doc.documentName ++ EOL ++ datastring ++ MARKER ++ EOL)
  putFile path (zipfilename s g.doc) (.text markdown)

/-- The function `maybeTemplate`. -/
def maybeTemplate (s : Settings) (host : Host) (path : JsString) (g : GenericDoc)
    (sort : Nat) : Run Unit :=
  match g.template with
  | none => documentToJSON s host path g sort
  | some render => do
    if truthy g.img then do
      let _ ← fileconvert (toStr g.img) (some IMG_SIZE) true
    match render sort with
    | none => Run.throw .Error
    | some markdown => putFile path (zipfilename s g.doc) (.text markdown)

/-! ## Scenes and playlists -/

/-- The method `s.lastIndexOf(c)` for a single code unit; `none` stands for -1. -/
def lastIndexOf (c : Nat) (s : JsString) : Option Nat :=
  (s.reverse.findIdx? fun x => x == c).map fun i => s.length - 1 - i

/-- The name `oneScene` gives to a tile: what follows the last `/` of its
source, and the whole source when it holds no `/` or only a leading one (the
test `if (pos)` fails for 0 and succeeds for -1, where `slice(0)` changes
nothing). -/
def tileName (src : JsString) : JsString :=
  match lastIndexOf 47 src with
  | none => src
  | some 0 => src
  | some (pos + 1) => src.drop (pos + 2)

/-- A tile of a scene: `tile.texture.src` and the texts of its two corners,
`coord2(tile.y+tile.height-1, tile.x)` and `coord2(tile.y, tile.x+tile.width-1)`.
The numbers that `coord` and `coord2` compute in floating point are given with
the scene, as the texts that a template literal makes of them. -/
structure Tile where
  src : Option JsString
  corner1 : JsString
  corner2 : JsString

/-- A note of a scene: the text of `coord2(note.y, note.x)`, the document
`note.page || note.entry`, and `note.label`. -/
structure SceneNote where
  position : JsString
  linkdoc : Option LinkDoc := none
  label : JsString

/-- A scene: what `maybeTemplate` reads of it, `scene.foreground`, the tiles,
the texts of `coord(sceneRect.height)`, `coord(sceneRect.width)`,
`coord(sceneRect.height/2)` and `coord(sceneRect.width/2)`, the text of
`scene.grid.units`, `scene.background.src` (`none` for `null`) and the notes. -/
structure Scene where
  generic : GenericDoc
  foreground : Option JsString := none
  tiles : List Tile := []
  height : JsString
  width : JsString
  lat : JsString
  long : JsString
  units : JsString
  background : Option JsString := none
  notes : List SceneNote := []

/-- The loop of `oneScene` over the tiles: one overlay per tile. A tile without
a source has no method `lastIndexOf`. -/
def sceneTiles : List Tile → List JsString → Run (List JsString)
  | [], overlays => pure overlays
  | tile :: rest, overlays =>
    match tile.src with
    | none => Run.throw .TypeError
    | some src => do
      let link ← fileconvert src (some (tileName src)) false
      sceneTiles rest
        (overlays ++ [link ++ js ", [" ++ tile.corner1 ++ js "], [" ++ tile.corner2 ++ js "]"])

/-- The loop of `oneScene` over the notes: one marker per note. -/
def sceneNotes (s : Settings) : List SceneNote → JsString → JsString
  | [], markdown => markdown
  | note :: rest, markdown =>
    let linkfile :=
      match note.linkdoc with
      | some linkdoc => notefilename s linkdoc.doc linkdoc.page
      | none => js "Not Linked"
    let label := replaceAllUnit 58 (js "_") note.label
    sceneNotes s rest
      (markdown ++ js "marker: default, " ++ note.position ++ js ", " ++
        formatLink linkfile (some label) false ++ js "\n")

/-- The function `oneScene`. -/
def oneScene (s : Settings) (path : JsString) (scene : Scene) (sort : Nat) : Run Unit := do
  let markdown := frontmatter scene.generic.doc sort true false
  let overlays ←
    (if truthy scene.foreground then do
      let link ← fileconvert (toStr scene.foreground) (some (js "Foreground")) false
      pure [link]
    else pure [] : Run (List JsString))
  let overlays ← sceneTiles scene.tiles overlays
  let layers :=
    if overlays.length = 0 then []
    else js "imageOverlay:\n" ++ overlays.flatMap fun layer => js "    - [ " ++ layer ++ js " ]\n"
  let image ← fileconvert
    (match scene.background with
     | some src => src
     | none => js "null") none false
  let markdown := markdown ++
    (js "\n" ++ MARKER ++ js "leaflet\n" ++
    js "id: " ++ scene.generic.doc.uuid ++ js "\n" ++
    js "bounds:\n    - [0, 0]\n    - [" ++ scene.height ++ js ", " ++ scene.width ++ js "]\n" ++
    js "defaultZoom: 2\n" ++
    js "lat: " ++ scene.lat ++ js "\n" ++
    js "long: " ++ scene.long ++ js "\n" ++
    js "height: 100%\n" ++
    js "draw: false\n" ++
    js "unit: " ++ scene.units ++ js "\n" ++
    js "showAllMarkers: true\n" ++
    js "preserveAspect: true\n" ++
    js "image: " ++ image ++ js "\n" ++
    layers)
  let markdown := sceneNotes s scene.notes markdown
  let markdown := markdown ++ MARKER
  putFile path (zipfilename s scene.generic.doc) (.text markdown)

/-- A sound of a playlist: `name`, `description` and `path`. -/
structure Sound where
  name : JsString
  description : Option JsString := none
  path : JsString

/-- A playlist: `description` and, for every identifier of `_playbackOrder`,
what `playlist.sounds.get(id)` returns (`none` for `undefined`). -/
structure Playlist where
  doc : Document
  description : Option JsString := none
  sounds : List (Option Sound)

/-- The loop of `onePlaylist`: a heading, the description and the file of
every sound. A sound that is `undefined` has no field `name`. -/
def playlistSounds : List (Option Sound) → JsString → Run JsString
  | [], markdown => pure markdown
  | none :: _, _ => Run.throw .TypeError
  | some sound :: rest, markdown => do
    let markdown := markdown ++ (js "#### " ++ sound.name ++ EOL)
    let markdown :=
      if truthy sound.description then markdown ++ (toStr sound.description ++ EOL)
      else markdown
    let link ← fileconvert sound.path none true
    playlistSounds rest (markdown ++ (link ++ EOL))

/-- The function `onePlaylist`. -/
def onePlaylist (s : Settings) (path : JsString) (playlist : Playlist) (sort : Nat) :
    Run Unit := do
  let markdown := frontmatter playlist.doc sort true false
  let markdown :=
    if truthy playlist.description then markdown ++ (toStr playlist.description ++ EOL ++ EOL)
    else markdown
  let markdown ← playlistSounds playlist.sounds markdown
  putFile path (zipfilename s playlist.doc) (.text markdown)

/-! ## Folders -/

/-- A document of a folder: a journal, a roll table, a scene, a playlist, or a
document of any other kind. -/
inductive Doc where
  | journal (j : Journal)
  | rollTable (t : RollTable)
  | scene (sc : Scene)
  | playlist (pl : Playlist)
  | generic (g : GenericDoc)

/-- The name, identifier and place of a document of a folder. -/
def Doc.doc : Doc → Document
  | .journal j => j.doc
  | .rollTable t => t.doc
  | .scene sc => sc.generic.doc
  | .playlist pl => pl.doc
  | .generic g => g.doc

/-- The function `oneDocument`. A scene is exported by `oneScene` when the
setting `OPTION_LEAFLET` is on, and like any other document when it is off. -/
def oneDocument (s : Settings) (host : Host) (path : JsString) (doc : Doc) (sort : Nat) :
    Run Unit :=
  match doc with
  | .journal j => oneJournal s host path j sort
  | .rollTable t => oneRollTable s host path t sort
  | .scene sc =>
    if host.OPTION_LEAFLET then oneScene s path sc sort
    else maybeTemplate s host path sc.generic sort
  | .playlist pl => onePlaylist s path pl sort
  | .generic g => maybeTemplate s host path g sort

/-- The function `tocLink`. -/
def tocLink (s : Settings) (doc : Doc) : JsString :=
  let subpath :=
    match doc with
    | .journal j =>
      if j.pages.length > 1 then formpath (js ".") (validFilename j.doc.name) else js "."
    | _ => js "."
  let docPath := formpath subpath
    (if s.use_uuid_for_journal_folder then docfilename s doc.doc else validFilename doc.doc.name)
  formatLink docPath (some doc.doc.name) false

/-- The function `tocFolderLink`. -/
def tocFolderLink (s : Settings) (path : JsString) (folder : Document) : JsString :=
  let folderPath := formpath path
    (if s.use_uuid_for_journal_folder then docfilename s folder else validFilename folder.name)
  formatLink folderPath (some folder.name) false

/-- The loop of `tableOfContents`. -/
def tocLines : List JsString → JsString → JsString
  | [], markdown => markdown
  | link :: rest, markdown =>
    tocLines rest (markdown ++ (if link ≠ ITEM_BREAK then js "\n- " ++ link else js "\n---"))

/-- The function `tableOfContents`. -/
def tableOfContents (path name fileName : JsString) (toc : List JsString) (sort : Nat) :
    Run Unit :=
  putFile path fileName
    (.text (tocLines toc (frontmatterFolder name sort true false ++ js "\n## Table of Contents\n")))

/-- A folder: `getSubfolders(false)` lists its sub-folders and `contents` its
documents. -/
inductive Folder where
  | mk (doc : Document) (subfolders : List Folder) (contents : List Doc)

/-- The name and identifier of a folder. -/
def Folder.doc : Folder → Document
  | .mk doc _ _ => doc

/-- The call `documents.sort((a,b) => a.sort - b.sort)`: a stable sort by `sort`. -/
def sortDocs (documents : List Doc) : List Doc :=
  documents.insertionSort fun a b => a.doc.sort ≤ b.doc.sort

/-- The sort counters of an export, kept beside the run: the counter handed to
a container, a document or a page, the identifier of the one it was handed to,
and below it the counters handed to its children, in the order of the calls. -/
inductive SortTree where
  | node (sort : Nat) (owner : JsString) (children : List SortTree)
  deriving Repr

/-- The counter at the root. -/
def SortTree.sort : SortTree → Nat
  | .node sort _ _ => sort

/-- The identifier of the container, document or page at the root. -/
def SortTree.owner : SortTree → JsString
  | .node _ owner _ => owner

/-- The children of the root. -/
def SortTree.children : SortTree → List SortTree
  | .node _ _ children => children

/-- The counters of the second loop of `oneJournal`: every page that the loop
does not pass over is handed the value of `subsort`, which is then advanced. -/
def pageCounters (journal : Journal) : List Page → Nat → List SortTree
  | [], _ => []
  | page :: rest, subsort =>
    if page.doc.name ≠ journal.doc.name ∨ journal.pages.length = 1 then
      .node subsort page.doc.uuid [] :: pageCounters journal rest (numAdd subsort 1)
    else pageCounters journal rest subsort

/-- The counters of a call of `oneDocument`: the document is handed `sort`;
the pages of a journal of several pages are handed `sort * 10` and the numbers
that follow, while the only page of a journal is written with `sort` itself. -/
def documentCounters (doc : Doc) (sort : Nat) : SortTree :=
  match doc with
  | .journal j =>
    .node sort j.doc.uuid
      (if j.pages.length > 1 then pageCounters j (sortPages j.pages) (numMul sort 10) else [])
  | _ => .node sort doc.doc.uuid []

/-- The state of the loops of `oneFolder`: the counter `subsort`, the list
`toc`, and the counters handed out so far. -/
structure FolderLoop where
  subsort : Nat
  toc : List JsString
  handed : List SortTree

/-- The second loop of `oneFolder`, over the documents. -/
def folderDocuments (s : Settings) (host : Host) (subpath : JsString) :
    List Doc → FolderLoop → Run FolderLoop
  | [], st => pure st
  | doc :: rest, st => do
    let subsort := numAdd st.subsort 1
    oneDocument s host subpath doc subsort
    folderDocuments s host subpath rest
      ⟨subsort, st.toc ++ [tocLink s doc], st.handed ++ [documentCounters doc subsort]⟩

mutual
/-- The function `oneFolder`; the value returned is the tree of the sort
counters handed out. -/
def oneFolder (s : Settings) (host : Host) (path : JsString) : Folder → Nat → Run SortTree
  | .mk doc subfolders contents, sort => do
    let subpath := formpath path (validFilename doc.name)
    let st ← folderSubfolders s host subpath subfolders ⟨numMul sort 10, [], []⟩
    let st : FolderLoop :=
      if st.toc.length > 0 ∧ contents.length > 0 then ⟨st.subsort, st.toc ++ [ITEM_BREAK], st.handed⟩
      else st
    let st ← folderDocuments s host subpath (sortDocs contents) st
    if st.toc.length > 0 then
      tableOfContents subpath doc.name (zipfilename s doc) st.toc sort
    pure (.node sort doc.uuid st.handed)
/-- The first loop of `oneFolder`, over the sub-folders. -/
def folderSubfolders (s : Settings) (host : Host) (subpath : JsString) :
    List Folder → FolderLoop → Run FolderLoop
  | [], st => pure st
  | childfolder :: rest, st => do
    let subsort := numAdd st.subsort 1
    let handed ← oneFolder s host subpath childfolder subsort
    folderSubfolders s host subpath rest
      ⟨subsort,
       st.toc ++ [tocFolderLink s (formpath subpath (validFilename childfolder.doc.name))
         childfolder.doc],
       st.handed ++ [handed]⟩
end

/-! ## Compendium packs -/

/-- A folder of a compendium pack: its `depth`, its `children` (each child node
holding a folder) and its `contents` (index entries, read for `uuid` and `sort`). -/
inductive PackFolder where
  | mk (doc : Document) (depth : Nat) (children : List PackFolder) (contents : List Document)

/-- The name and identifier of a folder of a pack. -/
def PackFolder.doc : PackFolder → Document
  | .mk doc _ _ _ => doc

/-- The field `depth` of a folder of a pack. -/
def PackFolder.depth : PackFolder → Nat
  | .mk _ depth _ _ => depth

/-- A document of a pack; `inFolder` tells whether `doc.folder` is set. -/
structure PackDoc where
  doc : Doc
  inFolder : Bool

/-- A compendium pack: `pack.folders` lists every folder of the pack and
`pack.getDocuments()` every document. The title is `doc.collectionTitle`. -/
structure Pack where
  doc : Document
  folders : List PackFolder
  documents : List PackDoc

/-- The first loop of `onePack`: a link for each folder of depth `depth`. -/
def packFolderLinks (s : Settings) (subpath : JsString) (depth : Nat) :
    List PackFolder → Nat → List JsString → Nat × List JsString
  | [], subsort, toc => (subsort, toc)
  | folder :: rest, subsort, toc =>
    if folder.depth = depth then
      packFolderLinks s subpath depth rest (numAdd subsort 1)
        (toc ++ [tocFolderLink s (formpath subpath (validFilename folder.doc.name)) folder.doc])
    else packFolderLinks s subpath depth rest subsort toc

/-- The second loop of `onePack`: the documents that lie in no folder. -/
def packDocuments (s : Settings) (host : Host) (subpath : JsString) :
    List PackDoc → Nat → List JsString → Run (List JsString)
  | [], _, toc => pure toc
  | doc :: rest, subsort, toc =>
    if ¬ doc.inFolder then do
      oneDocument s host subpath doc.doc (numAdd subsort 1)
      packDocuments s host subpath rest (numAdd subsort 1) (toc ++ [tocLink s doc.doc])
    else packDocuments s host subpath rest subsort toc

/-- The call `documents.sort((a,b) => a.sort - b.sort)` on the documents of a pack. -/
def sortPackDocs (documents : List PackDoc) : List PackDoc :=
  documents.insertionSort fun a b => a.doc.doc.sort ≤ b.doc.doc.sort

/-- The call `contents.sort((a,b) => a.sort - b.sort)` on index entries. -/
def sortEntries (contents : List Document) : List Document :=
  contents.insertionSort fun a b => a.sort ≤ b.sort

/-- The loop of `compendiumFolders` over the contents of one folder. -/
def compendiumContents (s : Settings) (host : Host) (subpath : JsString) (docs : List PackDoc) :
    List Document → Nat → List JsString → Run (List JsString)
  | [], _, toc => pure toc
  | item :: rest, subsubsort, toc =>
    match docs.find? (fun d => d.doc.doc.uuid = item.uuid) with
    | some doc => do
      oneDocument s host subpath doc.doc (numAdd subsubsort 1)
      compendiumContents s host subpath docs rest (numAdd subsubsort 1)
        (toc ++ [tocLink s doc.doc])
    | none => compendiumContents s host subpath docs rest (numAdd subsubsort 1) toc

mutual
/-- The body of the loop of `compendiumFolders` for one folder; `subsort` is the
counter after `subsort += 1`, and the value returned is the counter at the end
of the pass. -/
def compendiumFolder (s : Settings) (host : Host) (path : JsString) (docs : List PackDoc)
    (depth : Nat) : PackFolder → Nat → Run Nat
  | .mk doc fdepth children contents, subsort =>
    if fdepth = depth then do
      let subpath := formpath path (validFilename doc.name)
      let toc : List JsString :=
        children.map fun child =>
          tocFolderLink s (formpath subpath (validFilename child.doc.name)) child.doc
      if children.length ≠ 0 then
        compendiumFolders s host subpath docs (depth + 1) children (numMul subsort 10)
      let subsort := if children.length ≠ 0 then numAdd subsort 1 else subsort
      let toc := if toc.length > 0 ∧ contents.length > 0 then toc ++ [ITEM_BREAK] else toc
      let toc ← compendiumContents s host subpath docs (sortEntries contents)
        (numMul subsort 10) toc
      if toc.length > 0 then
        tableOfContents subpath doc.name (zipfilename s doc) toc subsort
      pure subsort
    else pure subsort
/-- The function `compendiumFolders`: `subsort` is the counter of its loop,
`sort * 10` at the start. -/
def compendiumFolders (s : Settings) (host : Host) (path : JsString) (docs : List PackDoc)
    (depth : Nat) : List PackFolder → Nat → Run Unit
  | [], _ => pure ()
  | folder :: rest, subsort => do
    let subsort ← compendiumFolder s host path docs depth folder (numAdd subsort 1)
    compendiumFolders s host path docs depth rest subsort
end

/-- The function `onePack`. -/
def onePack (s : Settings) (host : Host) (path : JsString) (pack : Pack) (sort : Nat) :
    Run Unit := do
  let subpath := formpath path (validFilename (toStr pack.doc.collectionTitle))
  let documents := sortPackDocs pack.documents
  let (subsort, toc) := packFolderLinks s subpath 1 pack.folders (numMul sort 10) []
  let toc := if toc.length > 0 ∧ pack.documents.length > 0 then toc ++ [ITEM_BREAK] else toc
  let toc ← packDocuments s host subpath documents subsort toc
  if toc.length > 0 then
    tableOfContents subpath (toStr pack.doc.collectionTitle) (zipfilename s pack.doc) toc sort
  compendiumFolders s host subpath documents 1 pack.folders (numMul sort 10)

/-- The paths of the writes made between two states of the archive. -/
def writtenPaths (before after : Zip) : List JsString :=
  (after.drop before.length).map (·.1)

/-- The text of the optional hash of a reference. -/
def hashText : Option JsString → JsString
  | some h => js "#" ++ h
  | none => []

/-- The text of the optional label of a reference. -/
def labelText : Option JsString → JsString
  | some l => js "\x7b" ++ l ++ js "\x7d"
  | none => []

/-- The text of a reference `@type[target#hash]\x7blabel\x7d`, the hash and
the label being optional. -/
def referenceText (type target : JsString) (hash label : Option JsString) : JsString :=
  js "@" ++ type ++ js "[" ++ target ++ hashText hash ++ js "]" ++ labelText label

/-- The identity that `replaceOneLink` looks up: `type.target`, and the target
itself for the type `UUID`. -/
def canonicalTarget (type target : JsString) : JsString :=
  if type ≠ js "UUID" then type ++ js "." ++ target else target

/-- The groups of a reference are such as the pattern of `convertLinks` takes:
letters for the type, no `#` and no `]` in the target, no `]` in the hash, no
closing brace in the label, none of them empty. -/
def wellFormedReference (type target : JsString) (hash label : Option JsString) : Bool :=
  !type.isEmpty && type.all isLetter && !target.isEmpty && target.all isTargetUnit &&
  (match hash with
   | some h => !h.isEmpty && h.all isHashUnit
   | none => true) &&
  (match label with
   | some l => !l.isEmpty && l.all isLabelUnit
   | none => true)

/-- A text that holds neither `@` nor `!`: no reference and no file reference
starts in it. -/
def plainText (t : JsString) : Bool := !t.contains 64 && !t.contains 33

/-- A reference of a text, with the stretch of text that stands before it. -/
structure Reference where
  before : JsString
  type : JsString
  target : JsString
  hash : Option JsString := none
  label : Option JsString := none

/-- The text of a reference. -/
def Reference.text (r : Reference) : JsString :=
  referenceText r.type r.target r.hash r.label

/-- A text made of references, each after a stretch of text, and a last
stretch. -/
def referencesText (rs : List Reference) (last : JsString) : JsString :=
  rs.foldr (fun r rest => r.before ++ r.text ++ rest) last

/-- The text `referencesText rs last` with every reference replaced by what
`replaceOneLink` returns for it. -/
def referencesReplaced (s : Settings) (host : Host) (relativeTo : Document)
    (rs : List Reference) (last : JsString) : JsString :=
  rs.foldr (fun r rest =>
    r.before ++ replaceOneLink s host relativeTo r.text r.type r.target r.hash r.label ++ rest)
    last

/-- The stretches of the text hold no `@`, the groups of every reference are
such as the pattern takes, and a reference without a label is not followed by
an opening brace. -/
def wellFormedReferences : List Reference → JsString → Bool
  | [], last => !last.contains 64
  | r :: rs, last =>
    !r.before.contains 64 && wellFormedReference r.type r.target r.hash r.label &&
    (r.label.isSome || (referencesText rs last).head? != some 123) &&
    wellFormedReferences rs last

/-- A computation whose outcome does not depend on the archive it starts from
and which only adds writes to it. -/
def Run.Framed {α : Type} (m : Run α) : Prop :=
  ∀ zip, m zip = ((m []).1, zip ++ (m []).2)

/-- The text `convertLinks` returns for a text, read off a run on the empty
archive (the empty string when it throws). -/
def rewrittenText (s : Settings) (host : Host) (relativeTo : Document) (text : JsString) :
    JsString :=
  match (convertLinks s host (some text) relativeTo []).1 with
  | .ok t => t
  | _ => []

/-- The value `convertHtml` returns for a text, read off a run on the empty
archive. -/
def htmlText (s : Settings) (host : Host) (doc : Document) (html : Option JsString) :
    Option JsString :=
  match (convertHtml s host doc html []).1 with
  | .ok o => o
  | _ => none

/-- The line of a roll table for the range `[lo, hi]` and the rewritten result
text `r`. -/
def tableRow (lo hi : Nat) (r : JsString) : JsString :=
  js "| " ++ (if lo = hi then numberToString lo else numberToString lo ++ js "-" ++ numberToString hi) ++
    js " | " ++ replaceAllUnit 124 (js "\\|") r ++ js " |\n"

/-- The text of a roll table above its rows. -/
def tableHead (table : RollTable) (sort : Nat) : JsString :=
  (if truthy table.description then
      frontmatter table.doc sort true false ++ toStr table.description ++ js "\n\n"
    else frontmatter table.doc sort true false) ++
    js "| " ++ (if truthy table.formula then toStr table.formula else js "Roll") ++
    js " | result |\n" ++ js "|------|--------|\n"

/-- Some `|` of the text is not immediately preceded by a backslash; `prev` is
the code unit before the text. -/
def unescapedPipe (prev : Option Nat) : JsString → Bool
  | [] => false
  | c :: cs => (c = 124 && prev ≠ some 92) || unescapedPipe (some c) cs

/-- A computation that only adds writes to the archive, each of a content of
the kind `P`, however it ends. -/
def Run.Adds {α : Type} (m : Run α) (P : FileData → Prop) : Prop :=
  ∀ zip, ∃ written, (m zip).2 = zip ++ written ∧ ∀ e ∈ written, P e.2

/-- The content is an asset. -/
def FileData.isAsset (data : FileData) : Prop :=
  ∃ src, data = .asset src

/-- The content was written for the counter `sort`: a text that opens with the
front matter that `frontmatter` or `frontmatterFolder` makes for that counter. -/
def FileData.keyed (sort : Nat) (data : FileData) : Prop :=
  (∃ doc showheader index rest,
    data = .text (frontmatter doc sort showheader index ++ rest)) ∨
  (∃ name showheader index rest,
    data = .text (frontmatterFolder name sort showheader index ++ rest))

mutual
/-- The counters of a tree, the root first, then those of the children in order. -/
def SortTree.counters : SortTree → List Nat
  | .node sort _ children => sort :: SortTree.countersList children
/-- The counters of a list of trees. -/
def SortTree.countersList : List SortTree → List Nat
  | [] => []
  | t :: ts => t.counters ++ SortTree.countersList ts
end

mutual
/-- The counters of a tree as the loops hand them out, in the arithmetic of
numbers: below a node with counter `c` the children have `c * 10 + 1` and the
numbers that follow (a folder), or `c * 10` and the numbers that follow (the
pages of a journal, whose own counter is not 0). With `slim` set, a node has
moreover at most nine children in the first case and ten in the second. -/
def SortTree.laidOut (slim : Bool) : SortTree → Prop
  | .node sort _ children =>
    (SortTree.laidOutFrom slim (numAdd (numMul sort 10) 1) children ∧
      (slim = true → children.length ≤ 9)) ∨
    (0 < sort ∧ SortTree.laidOutFrom slim (numMul sort 10) children ∧
      (slim = true → children.length ≤ 10))
/-- The trees of a list have the counters `first`, `first + 1`, ..., in the
arithmetic of numbers, and are laid out in the same way below. -/
def SortTree.laidOutFrom (slim : Bool) : Nat → List SortTree → Prop
  | _, [] => True
  | first, t :: ts =>
    t.sort = first ∧ t.laidOut slim ∧ SortTree.laidOutFrom slim (numAdd first 1) ts
end

mutual
/-- Below every node with counter `c`, the children have the counters
`10 * c + 1`, `10 * c + 2`, ... in the order of the calls (a folder), or
`10 * c`, `10 * c + 1`, ... (the pages of a journal, whose own counter is not
0). -/
def SortTree.numbered : SortTree → Prop
  | .node sort _ children =>
    SortTree.numberedFrom (sort * 10 + 1) children ∨
    (0 < sort ∧ SortTree.numberedFrom (sort * 10) children)
/-- The trees of a list have the counters `first`, `first + 1`, ... and are
numbered in the same way below. -/
def SortTree.numberedFrom : Nat → List SortTree → Prop
  | _, [] => True
  | first, t :: ts => t.sort = first ∧ t.numbered ∧ SortTree.numberedFrom (first + 1) ts
end

mutual
/-- The counter of every child is one of the ten numbers `10 * c`, ...,
`10 * c + 9`, where `c` is the counter of its parent. -/
def SortTree.narrow : SortTree → Prop
  | .node sort _ children =>
    (∀ t ∈ children, t.sort ≤ sort * 10 + 9) ∧ SortTree.narrowList children
/-- Every tree of a list is narrow. -/
def SortTree.narrowList : List SortTree → Prop
  | [] => True
  | t :: ts => t.narrow ∧ SortTree.narrowList ts
end

/-- The pages of a document that are handed a counter of their own: the pages
of a journal of several pages, the one with the name of the journal left out. -/
def Doc.countedPages : Doc → Nat
  | .journal j =>
    if j.pages.length > 1 then (j.pages.filter fun p => p.doc.name ≠ j.doc.name).length else 0
  | _ => 0

/-- The counters handed out by a run that returned. -/
def handedCounters (o : Outcome SortTree) : List Nat :=
  match o with
  | .ok t => t.counters
  | _ => []

/-- The lines of a table of contents for a list of links. -/
def bullets (links : List JsString) : JsString :=
  links.flatMap fun link => js "\n- " ++ link

/-- The list `toc` that `oneFolder` hands to `tableOfContents`. -/
def folderToc (s : Settings) (subpath : JsString) (subfolders : List Folder)
    (contents : List Doc) : List JsString :=
  subfolders.map (fun f => tocFolderLink s (formpath subpath (validFilename f.doc.name)) f.doc) ++
    (if subfolders.length > 0 ∧ contents.length > 0 then [ITEM_BREAK] else []) ++
    (sortDocs contents).map (tocLink s)

/-- The sub-folders of a folder. -/
def Folder.subfolders : Folder → List Folder
  | .mk _ subfolders _ => subfolders

/-- The documents of a folder. -/
def Folder.contents : Folder → List Doc
  | .mk _ _ contents => contents

/-- The index file that `oneFolder` writes for a folder: its path in the
archive and its text. -/
def folderIndex (s : Settings) (path : JsString) (folder : Folder) (sort : Nat) :
    JsString × FileData :=
  (entryPath (formpath path (validFilename folder.doc.name)) (zipfilename s folder.doc),
   .text (tocLines
     (folderToc s (formpath path (validFilename folder.doc.name)) folder.subfolders
       folder.contents)
     (frontmatterFolder folder.doc.name sort true false ++ js "\n## Table of Contents\n")))

/-- The links to the sub-folders of a folder, in the order of enumeration. -/
def folderLinks (s : Settings) (subpath : JsString) (subfolders : List Folder) :
    List JsString :=
  subfolders.map fun f => tocFolderLink s (formpath subpath (validFilename f.doc.name)) f.doc

/-- The links to the folders of depth 1 of a pack, in the order of `pack.folders`. -/
def packFolderGroup (s : Settings) (subpath : JsString) (pack : Pack) : List JsString :=
  (pack.folders.filter fun f => f.depth = 1).map fun f =>
    tocFolderLink s (formpath subpath (validFilename f.doc.name)) f.doc

/-- The links to the documents of a pack that lie in no folder, ordered by `sort`. -/
def packLeafGroup (s : Settings) (pack : Pack) : List JsString :=
  ((sortPackDocs pack.documents).filter fun d => !d.inFolder).map fun d => tocLink s d.doc

/-- The heading of an index file. -/
def indexHead (name : JsString) (sort : Nat) : JsString :=
  frontmatterFolder name sort true false ++ js "\n## Table of Contents\n"

mutual
/-- No folder of the tree has more than nine children, sub-folders and
documents counted together, and no journal in it has more than ten pages that
are handed a counter. -/
def Folder.narrow : Folder → Prop
  | .mk _ subfolders contents =>
    subfolders.length + contents.length ≤ 9 ∧ (∀ d ∈ contents, d.countedPages ≤ 10) ∧
      Folder.narrowList subfolders
/-- Every folder of a list is narrow. -/
def Folder.narrowList : List Folder → Prop
  | [] => True
  | f :: fs => f.narrow ∧ Folder.narrowList fs
end

/-- The template that `maybeTemplate` applies to a document, if it has one. -/
def Doc.template : Doc → Option (Nat → Option JsString)
  | .generic g => g.template
  | .scene sc => sc.generic.template
  | _ => none

mutual
/-- The documents of a folder and of the folders below it. -/
def Folder.documents : Folder → List Doc
  | .mk _ subfolders contents => Folder.documentsList subfolders ++ contents
/-- The documents of the folders of a list and of the folders below them. -/
def Folder.documentsList : List Folder → List Doc
  | [] => []
  | f :: fs => f.documents ++ Folder.documentsList fs
end

/-- What an export that hands the counters `counters` to the documents `docs`
and to their folders may add to the archive: an asset, a text written for one
of the counters, or what the template of one of the documents makes of one of
the counters. -/
def FileData.admitted (docs : List Doc) (counters : List Nat) (data : FileData) : Prop :=
  data.isAsset ∨ (∃ c ∈ counters, data.keyed c) ∨
  ∃ d ∈ docs, ∃ render, d.template = some render ∧
    ∃ c ∈ counters, ∃ markdown, render c = some markdown ∧ data = .text markdown

/-- The UTF-8 octets of a Unicode scalar value. -/
def utf8Encode (cp : Nat) : List Nat :=
  if cp < 0x80 then [cp]
  else if cp < 0x800 then [0xC0 + cp / 0x40, 0x80 + cp % 0x40]
  else if cp < 0x10000 then [0xE0 + cp / 0x1000, 0x80 + cp / 0x40 % 0x40, 0x80 + cp % 0x40]
  else [0xF0 + cp / 0x40000, 0x80 + cp / 0x1000 % 0x40, 0x80 + cp / 0x40 % 0x40,
    0x80 + cp % 0x40]

/-- The upper-case hexadecimal digit of a value below 16. -/
def hexUnit (v : Nat) : Nat := if v < 10 then 48 + v else 55 + v

/-- The escape `%XY` of an octet. -/
def escapeOctet (b : Nat) : JsString := [37, hexUnit (b / 16), hexUnit (b % 16)]

/-- A piece of an encoded path: a code unit that stands for itself (any but
`%`), or a Unicode scalar value written as the escapes of its UTF-8 octets. -/
inductive PathPiece where
  | plain (unit : Nat)
  | escaped (scalar : Nat)
  deriving DecidableEq, Repr

/-- A piece is well formed: a plain code unit is not `%`, an escaped value is a
Unicode scalar value (below `0x110000` and no surrogate). -/
def PathPiece.wellFormed : PathPiece → Bool
  | .plain unit => unit != 37
  | .escaped scalar => scalar < 0x110000 && !(0xD800 ≤ scalar && scalar < 0xE000)

/-- The text of a piece in the encoded path. -/
def PathPiece.encoded : PathPiece → JsString
  | .plain unit => [unit]
  | .escaped scalar => (utf8Encode scalar).flatMap escapeOctet

/-- The code units a piece stands for. -/
def PathPiece.decoded : PathPiece → JsString
  | .plain unit => [unit]
  | .escaped scalar => utf16EncodeCodePoint scalar

/-- The encoded path made of a list of pieces. -/
def encodePath (pieces : List PathPiece) : JsString := pieces.flatMap PathPiece.encoded

/-- The path that a list of pieces stands for: its percent-decoding. -/
def decodePath (pieces : List PathPiece) : JsString := pieces.flatMap PathPiece.decoded

/-! ## Sample data -/

/-- Name-based naming of files and of journal folders. -/
def nameSettings : Settings := ⟨false, false, js "YAML"⟩

/-- Naming of files and of journal folders by identifier. -/
def uuidSettings : Settings := ⟨true, true, js "YAML"⟩

/-- A journal named `World`. -/
def worldDoc : Document := ⟨js "World", js "JournalEntry.abc123", js "JournalEntry", 0, none⟩

/-- A page named `Intro` of a journal of two pages, with one heading. -/
def introPage : LinkDoc :=
  ⟨⟨js "Intro", js "JournalEntry.j1.JournalEntryPage.p1", js "JournalEntryPage", 0, none⟩,
   some (⟨js "Guide", js "JournalEntry.j1", js "JournalEntry", 0, none⟩, 2),
   [(js "the-start", js "The Start")]⟩

/-- An actor whose name holds code units that are not kept in a file name. -/
def slashDoc : Document := ⟨js "A/B: \"C\"?", js "Actor.x1", js "Actor", 0, none⟩

/-- A host in which `JournalEntry.abc123`, `Actor.x1` and one page resolve and
nothing else does; its converter of HTML returns the text as it is. -/
def sampleHost : Host where
  DOCUMENT_LINK_TYPES :=
    [js "Actor", js "Cards", js "Item", js "Scene", js "JournalEntry", js "Macro",
     js "RollTable", js "PlaylistSound"]
  fromUuidSync := fun target _ =>
    if target = js "JournalEntry.abc123" then .found ⟨worldDoc, none, []⟩
    else if target = js "Actor.x1" then .found ⟨slashDoc, none, []⟩
    else if target = js "JournalEntry.j1.JournalEntryPage.p1" then .found introPage
    else .throws
  parentLookup := fun _ => .throws
  turndown := fun html => some html

/-- The host `sampleHost` with the setting `OPTION_LEAFLET` on. -/
def leafletHost : Host := { sampleHost with OPTION_LEAFLET := true }

/-- A scene with a foreground, three tiles (the source of the second starts
with its only `/`, that of the third holds none), a background and two notes,
the second linked to the document `World`. -/
def sampleScene : Scene where
  generic :=
    { doc := ⟨js "Map", js "Scene.m", js "Scene", 0, none⟩
      getProperty := fun _ => none
      yaml := js "name: Map\n"
      json := js "\x7b\x7d" }
  foreground := some (js "maps/fog%20layer.png")
  tiles :=
    [⟨some (js "tiles/doors/door.png"), js "10, 0", js "0, 10"⟩,
     ⟨some (js "/rug.png"), js "4, 2", js "2, 4"⟩,
     ⟨some (js "lamp.png"), js "1, 1", js "0, 2"⟩]
  height := js "100"
  width := js "200"
  lat := js "50"
  long := js "100"
  units := js "ft"
  background := some (js "maps/cave.webp")
  notes := [⟨js "5, 5", none, js "Exit: north"⟩, ⟨js "7, 8", some ⟨worldDoc, none, []⟩, js "World"⟩]

/-- A playlist of two sounds, the first with a description. -/
def samplePlaylist : Playlist where
  doc := ⟨js "Tavern", js "Playlist.t", js "Playlist", 0, none⟩
  description := some (js "Evening music")
  sounds :=
    [some ⟨js "Lute", some (js "slow"), js "music/lute.ogg"⟩,
     some ⟨js "Drum", none, js "music/drum.ogg"⟩]

/-- An actor with a biography and a description, and no template. -/
def sampleActor : GenericDoc where
  doc := ⟨js "Bob", js "Actor.b", js "Actor", 0, none⟩
  getProperty := fun field =>
    if field = js "system.details.biography.value" then some (js "Bio")
    else if field = js "system.description.value" then some (js "Desc")
    else none
  yaml := js "name: Bob\n"
  json := js "\x7b\x7d"

/-- A roll table of two results, the second with a `|` in its text. -/
def sampleTable : RollTable where
  doc := ⟨js "Loot", js "RollTable.l", js "RollTable", 0, none⟩
  results := [⟨(3, 3), js "gold"⟩, ⟨(1, 5), js "a|b"⟩]

/-- A text page in Markdown format. -/
def markdownPage (name uuid : String) (sort : Int) (text : String) : Page where
  doc := ⟨js name, js uuid, js "JournalEntryPage", sort, none⟩
  type := js "text"
  format := 2
  markdown := some (js text)

/-- A journal whose only page is empty. -/
def emptyJournal : Journal :=
  ⟨⟨js "Diary", js "JournalEntry.d", js "JournalEntry", 0, none⟩,
   [markdownPage "Day 1" "JournalEntry.d.JournalEntryPage.p" 0 ""]⟩

/-- A journal with one page of text. -/
def diaryJournal : Journal :=
  ⟨⟨js "Diary", js "JournalEntry.d", js "JournalEntry", 0, none⟩,
   [markdownPage "Day 1" "JournalEntry.d.JournalEntryPage.p" 0 "Dear diary"]⟩

/-- A journal `J` of two pages, the second of which (in page order the first)
has the name of the journal. -/
def landingJournal : Journal :=
  ⟨⟨js "J", js "JournalEntry.j", js "JournalEntry", 0, none⟩,
   [markdownPage "A" "JournalEntry.j.JournalEntryPage.a" 2 "about A",
    markdownPage "J" "JournalEntry.j.JournalEntryPage.l" 1 "landing"]⟩

/-- A journal `J` of three pages, all named `A`. -/
def tripleJournal : Journal :=
  ⟨⟨js "J", js "JournalEntry.j", js "JournalEntry", 0, none⟩,
   [markdownPage "A" "JournalEntry.j.JournalEntryPage.a" 1 "first",
    markdownPage "A" "JournalEntry.j.JournalEntryPage.b" 2 "second",
    markdownPage "A" "JournalEntry.j.JournalEntryPage.c" 3 "third"]⟩

/-- The text of the index file of a journal of several pages, given the
converted text of the page that has the name of the journal, if there is one:
the listing holds a line for every page, in page order. -/
def journalIndex (s : Settings) (journal : Journal) (sort : Nat)
    (landing : Option (Option JsString)) : JsString :=
  frontmatter journal.doc sort true false ++
    (match landing with
     | some converted => js "\n" ++ toStr converted ++ js "\n\n---\n"
     | none => []) ++
    js "\n## Table of Contents\n" ++
    (sortPages journal.pages).flatMap fun page =>
      js "\n" ++ List.replicate (2 * (page.level - 1)) 32 ++ js "- " ++
        formatLink (docfilename s page.doc) (some page.doc.name) false

/-- The directory in which `oneJournal` writes a journal of several pages. -/
def journalDirectory (s : Settings) (path : JsString) (journal : Journal) : JsString :=
  formpath path
    (if s.use_uuid_for_journal_folder then docfilename s journal.doc
     else validFilename journal.doc.name)

/-- A roll table without results. -/
def tableNamed (name uuid : String) : Doc :=
  .rollTable ⟨⟨js name, js uuid, js "RollTable", 0, none⟩, none, none, []⟩

/-- A folder `F` with two roll tables of the same name `T`. -/
def twinFolder : Folder :=
  .mk ⟨js "F", js "Folder.f", js "Folder", 0, none⟩ []
    [tableNamed "T" "RollTable.a", tableNamed "T" "RollTable.b"]

/-- A folder `F` with the sub-folders `A`, of eleven roll tables, and `B`, of one. -/
def wideFolder : Folder :=
  .mk ⟨js "F", js "Folder.f", js "Folder", 0, none⟩
    [.mk ⟨js "A", js "Folder.a", js "Folder", 0, none⟩ []
      [tableNamed "T1" "RollTable.a1", tableNamed "T2" "RollTable.a2",
       tableNamed "T3" "RollTable.a3", tableNamed "T4" "RollTable.a4",
       tableNamed "T5" "RollTable.a5", tableNamed "T6" "RollTable.a6",
       tableNamed "T7" "RollTable.a7", tableNamed "T8" "RollTable.a8",
       tableNamed "T9" "RollTable.a9", tableNamed "T10" "RollTable.a10",
       tableNamed "T11" "RollTable.a11"],
     .mk ⟨js "B", js "Folder.b", js "Folder", 0, none⟩ [] [tableNamed "U1" "RollTable.b1"]]
    []

/-- A folder named `name` with the given sub-folders and documents. -/
def folderNamed (name : String) (subfolders : List Folder) (contents : List Doc) : Folder :=
  .mk ⟨js name, js ("Folder." ++ name), js "Folder", 0, none⟩ subfolders contents

/-- Nine folders `F0`, ..., `F8`, each the only sub-folder of the one before;
`F6` holds the roll table `U` beside `F7`, and `F8` holds the roll table `T`. -/
def deepFolder : Folder :=
  folderNamed "F0" [folderNamed "F1" [folderNamed "F2" [folderNamed "F3" [folderNamed "F4"
    [folderNamed "F5" [folderNamed "F6"
      [folderNamed "F7" [folderNamed "F8" [] [tableNamed "T" "RollTable.t"]] []]
      [tableNamed "U" "RollTable.u"]] []] []] []] []] []] []

/-- A folder `F` with a sub-folder `A`, of one roll table, and a roll table of its own. -/
def mixedFolder : Folder :=
  .mk ⟨js "F", js "Folder.f", js "Folder", 0, none⟩
    [.mk ⟨js "A", js "Folder.a", js "Folder", 0, none⟩ [] [tableNamed "T1" "RollTable.a1"]]
    [tableNamed "U1" "RollTable.b1"]

/-- A pack `P` whose only document lies in its only folder `A`. -/
def samplePack : Pack where
  doc := ⟨js "P", js "Compendium.p", js "Adventure", 0, some (js "P")⟩
  folders := [.mk ⟨js "A", js "Folder.a", js "Folder", 0, none⟩ 1 []
    [⟨js "T1", js "RollTable.a1", js "RollTable", 0, none⟩]]
  documents := [⟨tableNamed "T1" "RollTable.a1", true⟩]

/-- The two references of the text
`see @JournalEntry[abc123]\x7bHello\x7d and @Actor[x1]\x7bBob\x7d.` -/
def helloBob : List Reference :=
  [⟨js "see ", js "JournalEntry", js "abc123", none, some (js "Hello")⟩,
   ⟨js " and ", js "Actor", js "x1", none, some (js "Bob")⟩]

/-- Three references to the page `Intro`, with the anchors `the-start`,
`no-such-heading` and `constructor`. -/
def introAnchors : List Reference :=
  [⟨js "a ", js "UUID", js "JournalEntry.j1.JournalEntryPage.p1", some (js "the-start"), none⟩,
   ⟨js " b ", js "UUID", js "JournalEntry.j1.JournalEntryPage.p1", some (js "no-such-heading"),
     some (js "N")⟩,
   ⟨js " c ", js "UUID", js "JournalEntry.j1.JournalEntryPage.p1", some (js "constructor"),
     none⟩]

/-- A text page in Markdown format, named by a JavaScript string. -/
def textPage (name uuid : JsString) (sort : Int) (text : JsString) : Page where
  doc := ⟨name, uuid, js "JournalEntryPage", sort, none⟩
  type := js "text"
  format := 2
  markdown := some text

/-- A journal named `name` with `n` pages `P0`, `P1`, ... -/
def journalOfPages (name : String) (n : Nat) : Doc :=
  .journal ⟨⟨js name, js ("JournalEntry." ++ name), js "JournalEntry", 0, none⟩,
    (List.range n).map fun i =>
      textPage (js "P" ++ numberToString i)
        (js ("JournalEntry." ++ name ++ ".JournalEntryPage.") ++ numberToString i) i (js "x")⟩

/-- A folder `F` with the journals `K`, of eleven pages, and `L`, of two. -/
def pagesFolder : Folder :=
  .mk ⟨js "F", js "Folder.f", js "Folder", 0, none⟩ []
    [journalOfPages "K" 11, journalOfPages "L" 2]

/-- A folder `F` with a sub-folder `A`, of one roll table, the journal `J` of
two pages, one of which has its name, and a roll table. -/
def pagedFolder : Folder :=
  .mk ⟨js "F", js "Folder.f", js "Folder", 0, none⟩
    [.mk ⟨js "A", js "Folder.a", js "Folder", 0, none⟩ [] [tableNamed "T1" "RollTable.a1"]]
    [.journal landingJournal, tableNamed "U1" "RollTable.b1"]

/-- The counters handed out in the export of `pagedFolder` from the seed 101. -/
def pagedTree : SortTree :=
  .node 101 (js "Folder.f")
    [.node 1011 (js "Folder.a") [.node 10111 (js "RollTable.a1") []],
     .node 1012 (js "JournalEntry.j") [.node 10120 (js "JournalEntry.j.JournalEntryPage.a") []],
     .node 1013 (js "RollTable.b1") []]

/-- The pieces of the encoded path `a/b c/é€😀.png`, with the space and the three
letters outside ASCII escaped. -/
def samplePieces : List PathPiece :=
  [.plain 97, .plain 47, .plain 98, .escaped 32, .plain 99, .plain 47, .escaped 0xE9,
   .escaped 0x20AC, .escaped 0x1F600, .plain 46, .plain 112, .plain 110, .plain 103]

/-! ## Theorems -/

theorem js_slash : js "/" = [47] := by decide

theorem js_dash : js "-" = [45] := by decide

theorem destForImages_length : destForImages.length = 14 := by decide

theorem replaceAllUnit_single (a b : Nat) (s : JsString) :
    replaceAllUnit a [b] s = s.map fun c => if c = a then b else c := by
  induction s with
  | nil => rfl
  | cons c cs ih =>
    simp only [replaceAllUnit, List.flatMap_cons, List.map_cons] at ih ⊢
    rw [ih]
    by_cases h : c = a <;> simp [h]

theorem slice_neg_suffix (k : Nat) (s : JsString) : slice (-(k : Int)) s <:+ s := by
  unfold slice
  split <;> exact List.drop_suffix _ _

theorem slice_neg_length (k : Nat) (s : JsString) (hk : 0 < k) :
    (slice (-(k : Int)) s).length ≤ k := by
  unfold slice
  have : (-(k : Int)) < 0 := by omega
  simp only [this, if_true, List.length_drop, Int.natAbs_neg, Int.natAbs_ofNat]
  omega

theorem slice_neg_short (k : Nat) (s : JsString) (hk : 0 < k) (h : s.length ≤ k) :
    slice (-(k : Int)) s = s := by
  unfold slice
  have : (-(k : Int)) < 0 := by omega
  simp only [this, if_true, Int.natAbs_neg, Int.natAbs_ofNat]
  have : s.length - k = 0 := by omega
  rw [this, List.drop_zero]

theorem flatten_no_slash (d : JsString) : 47 ∉ replaceAllUnit 47 (js "-") d := by
  rw [js_dash, replaceAllUnit_single]
  intro h
  obtain ⟨c, -, hc⟩ := List.mem_map.1 h
  by_cases h47 : c = 47
  · simp [h47] at hc
  · simp [h47] at hc

theorem flatten_injective (d e : JsString) (hd : 45 ∉ d) (he : 45 ∉ e)
    (h : replaceAllUnit 47 (js "-") d = replaceAllUnit 47 (js "-") e) : d = e := by
  rw [js_dash, replaceAllUnit_single, replaceAllUnit_single] at h
  induction d generalizing e with
  | nil => cases e with
    | nil => rfl
    | cons _ _ => simp at h
  | cons c cs ih =>
    cases e with
    | nil => simp at h
    | cons x xs =>
      simp only [List.map_cons, List.cons.injEq] at h
      simp only [List.mem_cons, not_or] at hd he
      have hcx : c = x := by
        have h1 := h.1
        by_cases hc : c = 47 <;> by_cases hx : x = 47
        · rw [hc, hx]
        · simp [hc, hx] at h1; exact absurd h1 he.1
        · simp [hc, hx] at h1; exact absurd h1.symm hd.1
        · simpa [hc, hx] using h1
      rw [hcx, ih xs hd.2 he.2 h.2]

theorem flatten_length (d : JsString) : (replaceAllUnit 47 (js "-") d).length = d.length := by
  rw [js_dash, replaceAllUnit_single, List.length_map]

theorem hexDigit_hexUnit (v : Nat) (h : v < 16) : hexDigit (hexUnit v) = some v := by
  interval_cases v <;> decide

theorem parseEscape_escapeOctet (b : Nat) (h : b < 256) (rest : JsString) :
    parseEscape (escapeOctet b ++ rest) = some (b, rest) := by
  have h1 : b / 16 < 16 := by omega
  have h2 : b % 16 < 16 := by omega
  simp only [escapeOctet, List.cons_append, List.nil_append, parseEscape,
    hexDigit_hexUnit _ h1, hexDigit_hexUnit _ h2]
  congr 2
  omega

theorem decodeLoop_skip : ∀ (a rest : JsString),
    decodeLoop a.length (a ++ rest) = decodeLoop 0 rest := by
  intro a
  induction a with
  | nil => intro rest; rfl
  | cons c cs ih =>
    intro rest
    cases rest with
    | nil => simpa [decodeLoop] using ih []
    | cons r rs => simpa [decodeLoop] using ih (r :: rs)


theorem continuation_low (c : Nat) (h : c < 0x40) : continuation (0x80 + c) = some c := by
  unfold continuation
  rw [if_pos (by omega)]
  exact congrArg some (Nat.add_sub_cancel_left 128 c)

theorem decodeEscapes_one (cp : Nat) (h : cp < 0x80) (rest : JsString) :
    decodeEscapes (escapeOctet cp ++ rest) = some ([cp], 3) := by
  unfold decodeEscapes
  rw [parseEscape_escapeOctet cp (by omega)]
  simp only [h, if_true]

theorem decodeEscapes_two (cp : Nat) (h1 : 0x80 ≤ cp) (h2 : cp < 0x800) (rest : JsString) :
    decodeEscapes (escapeOctet (0xC0 + cp / 0x40) ++ (escapeOctet (0x80 + cp % 0x40) ++ rest)) =
      some ([cp], 6) := by
  unfold decodeEscapes
  rw [parseEscape_escapeOctet _ (by omega)]
  simp only
  rw [if_neg (by omega), if_neg (by omega), if_pos (by omega),
    parseEscape_escapeOctet _ (by omega)]
  simp only
  rw [continuation_low _ (by omega)]
  simp only
  have e : (0xC0 + cp / 0x40 - 0xC0) * 0x40 + cp % 0x40 = cp := by omega
  rw [e, if_pos h1]
  simp only [utf16EncodeCodePoint]
  rw [if_pos (by omega)]

theorem decodeEscapes_three (cp : Nat) (h1 : 0x800 ≤ cp) (h2 : cp < 0x10000)
    (h3 : ¬ (0xD800 ≤ cp ∧ cp < 0xE000)) (rest : JsString) :
    decodeEscapes (escapeOctet (0xE0 + cp / 0x1000) ++ (escapeOctet (0x80 + cp / 0x40 % 0x40) ++
        (escapeOctet (0x80 + cp % 0x40) ++ rest))) =
      some ([cp], 9) := by
  unfold decodeEscapes
  rw [parseEscape_escapeOctet _ (by omega)]
  simp only
  rw [if_neg (by omega), if_neg (by omega), if_neg (by omega), if_pos (by omega),
    parseEscape_escapeOctet _ (by omega)]
  simp only
  rw [parseEscape_escapeOctet _ (by omega)]
  simp only
  rw [continuation_low _ (by omega), continuation_low _ (by omega)]
  simp only
  have e : (0xE0 + cp / 0x1000 - 0xE0) * 0x1000 + cp / 0x40 % 0x40 * 0x40 + cp % 0x40 = cp := by
    omega
  rw [e, if_pos ⟨h1, h3⟩]
  simp only [utf16EncodeCodePoint]
  rw [if_pos (by omega)]

theorem decodeEscapes_four (cp : Nat) (h1 : 0x10000 ≤ cp) (h2 : cp < 0x110000)
    (rest : JsString) :
    decodeEscapes (escapeOctet (0xF0 + cp / 0x40000) ++
        (escapeOctet (0x80 + cp / 0x1000 % 0x40) ++
        (escapeOctet (0x80 + cp / 0x40 % 0x40) ++ (escapeOctet (0x80 + cp % 0x40) ++ rest)))) =
      some (utf16EncodeCodePoint cp, 12) := by
  unfold decodeEscapes
  rw [parseEscape_escapeOctet _ (by omega)]
  simp only
  rw [if_neg (by omega), if_neg (by omega), if_neg (by omega), if_neg (by omega),
    if_pos (by omega), parseEscape_escapeOctet _ (by omega)]
  simp only
  rw [parseEscape_escapeOctet _ (by omega)]
  simp only
  rw [parseEscape_escapeOctet _ (by omega)]
  simp only
  rw [continuation_low _ (by omega), continuation_low _ (by omega),
    continuation_low _ (by omega)]
  simp only
  have e : (0xF0 + cp / 0x40000 - 0xF0) * 0x40000 + cp / 0x1000 % 0x40 * 0x1000 +
      cp / 0x40 % 0x40 * 0x40 + cp % 0x40 = cp := by
    omega
  rw [e, if_pos ⟨h1, h2⟩]

theorem decodeEscapes_encoded (cp : Nat) (h : (PathPiece.escaped cp).wellFormed = true)
    (rest : JsString) :
    decodeEscapes ((PathPiece.escaped cp).encoded ++ rest) =
      some ((PathPiece.escaped cp).decoded, (PathPiece.escaped cp).encoded.length) := by
  simp only [PathPiece.wellFormed, Bool.and_eq_true, decide_eq_true_eq, Bool.not_eq_true',
    Bool.and_eq_false_iff, decide_eq_false_iff_not] at h
  obtain ⟨hlt, hs⟩ := h
  have hs' : ¬ (0xD800 ≤ cp ∧ cp < 0xE000) := by
    rintro ⟨a, b⟩
    rcases hs with hs | hs
    · exact hs a
    · exact hs b
  simp only [PathPiece.encoded, PathPiece.decoded, utf8Encode]
  by_cases c1 : cp < 0x80
  · simp only [c1, if_true, List.flatMap_cons, List.flatMap_nil, List.append_nil]
    rw [decodeEscapes_one cp c1]
    simp only [utf16EncodeCodePoint, escapeOctet]
    rw [if_pos (by omega)]
    rfl
  · by_cases c2 : cp < 0x800
    · simp only [c1, c2, if_true, if_false, List.flatMap_cons, List.flatMap_nil,
        List.append_nil, List.append_assoc]
      rw [decodeEscapes_two cp (by omega) c2]
      simp only [utf16EncodeCodePoint, escapeOctet]
      rw [if_pos (by omega)]
      rfl
    · by_cases c3 : cp < 0x10000
      · simp only [c1, c2, c3, if_true, if_false, List.flatMap_cons, List.flatMap_nil,
          List.append_nil, List.append_assoc]
        rw [decodeEscapes_three cp (by omega) c3 hs']
        simp only [utf16EncodeCodePoint, escapeOctet]
        rw [if_pos (by omega)]
        rfl
      · simp only [c1, c2, c3, if_false, List.flatMap_cons, List.flatMap_nil,
          List.append_nil, List.append_assoc]
        rw [decodeEscapes_four cp (by omega) hlt]
        simp [escapeOctet]


theorem encoded_escaped (cp : Nat) :
    ∃ tail, (PathPiece.escaped cp).encoded = 37 :: tail := by
  simp only [PathPiece.encoded, utf8Encode]
  split_ifs <;> exact ⟨_, rfl⟩

theorem decodeLoop_piece (piece : PathPiece) (h : piece.wellFormed = true) (rest : JsString) :
    decodeLoop 0 (piece.encoded ++ rest) = (decodeLoop 0 rest).map (piece.decoded ++ ·) := by
  cases piece with
  | plain unit =>
    have hu : unit ≠ 37 := by simpa [PathPiece.wellFormed] using h
    simp only [PathPiece.encoded, PathPiece.decoded, List.cons_append, List.nil_append,
      decodeLoop, hu, if_false]
    rfl
  | escaped cp =>
    have hd := decodeEscapes_encoded cp h rest
    obtain ⟨tail, ht⟩ := encoded_escaped cp
    rw [ht] at hd ⊢
    rw [List.cons_append] at hd ⊢
    rw [decodeLoop, if_pos rfl, hd]
    simp only [List.length_cons, Nat.add_sub_cancel]
    rw [decodeLoop_skip]

/-- The percent-decoding of an encoded path: every plain code unit stands for
itself and every run of escapes for the scalar value whose UTF-8 octets it
holds. -/
theorem decodeURIComponent_encodePath (pieces : List PathPiece)
    (h : ∀ piece ∈ pieces, piece.wellFormed = true) :
    decodeURIComponent (encodePath pieces) = some (decodePath pieces) := by
  unfold decodeURIComponent
  induction pieces with
  | nil => rfl
  | cons piece rest ih =>
    simp only [encodePath, decodePath, List.flatMap_cons] at ih ⊢
    rw [decodeLoop_piece piece (h piece (List.mem_cons_self _ _)),
      ih (fun q hq => h q (List.mem_cons_of_mem _ hq))]
    rfl

set_option maxRecDepth 100000 in
/-- C1 (as stated, refuted). The source path `maps/100%.png` has no
percent-decoding: `decodeURIComponent` throws a `URIError`, so does
`fileconvert`, and no asset is stored. The same holds of every path with a
malformed escape: a `%` without two hexadecimal digits, a lone or missing
continuation octet, an overlong form, a surrogate, a value above `0x10FFFF`. -/
theorem fileconvert_malformed_escape :
    fileconvert (js "maps/100%.png") none true [] = (.throws .URIError, []) ∧
    decodeURIComponent (js "a%zzb") = none ∧
    decodeURIComponent (js "%4") = none ∧
    decodeURIComponent (js "%80") = none ∧
    decodeURIComponent (js "%C3%28") = none ∧
    decodeURIComponent (js "%C3%7F") = none ∧
    decodeURIComponent (js "%C3%C0") = none ∧
    decodeURIComponent (js "%C3") = none ∧
    decodeURIComponent (js "%C3x%A9") = none ∧
    decodeURIComponent (js "%C0%80") = none ∧
    decodeURIComponent (js "%C1%BF") = none ∧
    decodeURIComponent (js "%E0%9F%BF") = none ∧
    decodeURIComponent (js "%E2%82") = none ∧
    decodeURIComponent (js "%ED%A0%80") = none ∧
    decodeURIComponent (js "%ED%BF%BF") = none ∧
    decodeURIComponent (js "%F0%8F%BF%BF") = none ∧
    decodeURIComponent (js "%F4%90%80%80") = none ∧
    decodeURIComponent (js "%F8%88%80%80%80") = none ∧
    decodeURIComponent (js "%FF") = none := by
  decide

/-- C1 (amended). For a source path `p` whose percent-decoding is `d`,
`fileconvert` schedules exactly one asset, under `zz_asset-files/n`, where `n`
is the flattened path (every `/` of `d` replaced by `-`) cut to its trailing
236 code units: `n` is a suffix of the flattened path, is the whole flattened
path when that has at most 236 code units, holds no `/`, and satisfies
`length n + length "zz_asset-files" ≤ 250`; the link returned is
`formatLink n label inline`. For a source path that has no percent-decoding
(a malformed escape) `fileconvert` throws a `URIError` and stores nothing. The
percent-decoding of a path made of plain code units and of escaped scalar
values is made of the same code units and of the UTF-16 code units of those
values. -/
theorem fileconvert_archive_name (p : JsString) (label : Option JsString) (inline : Bool)
    (zip : Zip) :
    (decodeURIComponent p = none →
      fileconvert p label inline zip = (.throws .URIError, zip)) ∧
    (∀ d, decodeURIComponent p = some d →
      ∃ n : JsString,
        n = (replaceAllUnit 47 (js "-") d).drop ((replaceAllUnit 47 (js "-") d).length - 236) ∧
        fileconvert p label inline zip =
          (.ok (formatLink n label inline), zip ++ [(js "zz_asset-files/" ++ n, .asset d)]) ∧
        n <:+ replaceAllUnit 47 (js "-") d ∧
        ((replaceAllUnit 47 (js "-") d).length ≤ 236 → n = replaceAllUnit 47 (js "-") d) ∧
        47 ∉ n ∧
        n.length + (js "zz_asset-files").length ≤ 250) ∧
    (∀ pieces : List PathPiece, (∀ piece ∈ pieces, piece.wellFormed = true) →
      decodeURIComponent (encodePath pieces) = some (decodePath pieces)) := by
  refine ⟨?_, ?_, decodeURIComponent_encodePath⟩
  · intro hn
    simp only [fileconvert, hn]
  · intro d hd
    have hk : (-250 + (destForImages.length : Int)) = -((236 : Nat) : Int) := by
      rw [destForImages_length]; rfl
    refine ⟨slice (-250 + (destForImages.length : Int)) (replaceAllUnit 47 (js "-") d),
      ?_, ?_, ?_, ?_, ?_, ?_⟩
    · rw [hk]; unfold slice; simp
    · simp only [fileconvert, hd, Zip.file, entryPath]
      have h1 : destForImages ≠ [] := by decide
      have h2 : slice (-1) destForImages ≠ js "/" := by decide
      have h3 : destForImages ++ js "/" = js "zz_asset-files/" := by decide
      simp only [h1, h2, if_false, h3]
    · rw [hk]; exact slice_neg_suffix _ _
    · intro h; rw [hk]; exact slice_neg_short _ _ (by decide) h
    · intro h
      rw [hk] at h
      exact flatten_no_slash d ((slice_neg_suffix _ _).subset h)
    · rw [hk]
      have := slice_neg_length 236 (replaceAllUnit 47 (js "-") d) (by decide)
      have h14 : (js "zz_asset-files").length = 14 := by decide
      omega

set_option maxRecDepth 100000 in
/-- C1 (amended), at an encoded path with escapes of one, two, three and four
octets, and at escapes written in lower case and at the ends of the ranges of
UTF-8. -/
theorem fileconvert_archive_name_witness :
    encodePath samplePieces = js "a/b%20c/%C3%A9%E2%82%AC%F0%9F%98%80.png" ∧
    decodePath samplePieces = js "a/b c/é€😀.png" ∧
    fileconvert (js "a/b%20c/%C3%A9%E2%82%AC%F0%9F%98%80.png") none true [] =
      (.ok (js "![[a-b c-é€😀.png]]"),
        [(js "zz_asset-files/a-b c-é€😀.png", .asset (js "a/b c/é€😀.png"))]) ∧
    decodeURIComponent (js "%c3%a9%e2%82%ac") = some [0xE9, 0x20AC] ∧
    decodeURIComponent (js "%00%7F") = some [0, 0x7F] ∧
    decodeURIComponent (js "%C2%80%DF%BF") = some [0x80, 0x7FF] ∧
    decodeURIComponent (js "%E0%A0%80%ED%9F%BF%EE%80%80%EF%BF%BF") =
      some [0x800, 0xD7FF, 0xE000, 0xFFFF] ∧
    decodeURIComponent (js "%F0%90%80%80%F4%8F%BF%BF") =
      some [0xD800, 0xDC00, 0xDBFF, 0xDFFF] :=
  have hw := fileconvert_archive_name (encodePath samplePieces) none true []
  have hd : decodeURIComponent (encodePath samplePieces) = some (decodePath samplePieces) :=
    hw.2.2 samplePieces (by decide)
  ⟨by decide, by decide,
    by
      obtain ⟨n, hn, hf, -⟩ := hw.2.1 _ hd
      have e : encodePath samplePieces = js "a/b%20c/%C3%A9%E2%82%AC%F0%9F%98%80.png" := by
        decide
      rw [e] at hf
      rw [hf, hn]
      decide,
    by decide, by decide, by decide, by decide, by decide⟩

theorem fileconvert_written (p d : JsString) (label : Option JsString) (inline : Bool)
    (zip : Zip) (hd : decodeURIComponent p = some d) :
    writtenPaths zip (fileconvert p label inline zip).2 =
      [js "zz_asset-files/" ++ (replaceAllUnit 47 (js "-") d).drop
        ((replaceAllUnit 47 (js "-") d).length - 236)] := by
  have hk : (-250 + (destForImages.length : Int)) = -((236 : Nat) : Int) := by
    rw [destForImages_length]; rfl
  have h1 : destForImages ≠ [] := by decide
  have h2 : slice (-1) destForImages ≠ js "/" := by decide
  have h3 : destForImages ++ js "/" = js "zz_asset-files/" := by decide
  have h4 : ∀ t : JsString, slice (-((236 : Nat) : Int)) t = t.drop (t.length - 236) := by
    intro t
    unfold slice
    simp
  simp only [fileconvert, hd, Zip.file, entryPath, h1, h2, if_false, h3, hk, h4, writtenPaths]
  simp

/-- C2 (the code at the failing input). The distinct source paths `a/b/x.png`
and `a-b/x.png` (the same base filename under two different directories) are
given the same archive name, and after both calls the asset directory holds a
single entry, that of the second path. -/
theorem fileconvert_names_collide :
    js "a/b/x.png" ≠ js "a-b/x.png" ∧
    writtenPaths [] (fileconvert (js "a/b/x.png") none true []).2 =
      writtenPaths [] (fileconvert (js "a-b/x.png") none true []).2 ∧
    Zip.paths (fileconvert (js "a-b/x.png") none true
      (fileconvert (js "a/b/x.png") none true []).2).2 = [js "zz_asset-files/a-b-x.png"] ∧
    Zip.get (fileconvert (js "a-b/x.png") none true
      (fileconvert (js "a/b/x.png") none true []).2).2 (js "zz_asset-files/a-b-x.png") =
        some (.asset (js "a-b/x.png")) := by
  decide

/-- C2 (what the code does). Two source paths with percent-decodings `d` and
`e` are given the same archive name exactly when the trailing 236 code units
of their flattened forms coincide; in particular, when `d` and `e` are
distinct, hold no `-` and have at most 236 code units, the archive names
differ. -/
theorem fileconvert_names_distinct (p q d e : JsString) (label : Option JsString)
    (inline : Bool) (zip : Zip)
    (hd : decodeURIComponent p = some d) (he : decodeURIComponent q = some e) :
    (writtenPaths zip (fileconvert p label inline zip).2 =
        writtenPaths zip (fileconvert q label inline zip).2 ↔
      (replaceAllUnit 47 (js "-") d).drop ((replaceAllUnit 47 (js "-") d).length - 236) =
        (replaceAllUnit 47 (js "-") e).drop ((replaceAllUnit 47 (js "-") e).length - 236)) ∧
    (d ≠ e → 45 ∉ d → 45 ∉ e → d.length ≤ 236 → e.length ≤ 236 →
      writtenPaths zip (fileconvert p label inline zip).2 ≠
        writtenPaths zip (fileconvert q label inline zip).2) := by
  rw [fileconvert_written p d label inline zip hd, fileconvert_written q e label inline zip he]
  have key : ([js "zz_asset-files/" ++ (replaceAllUnit 47 (js "-") d).drop
        ((replaceAllUnit 47 (js "-") d).length - 236)] =
      [js "zz_asset-files/" ++ (replaceAllUnit 47 (js "-") e).drop
        ((replaceAllUnit 47 (js "-") e).length - 236)]) ↔
      (replaceAllUnit 47 (js "-") d).drop ((replaceAllUnit 47 (js "-") d).length - 236) =
        (replaceAllUnit 47 (js "-") e).drop ((replaceAllUnit 47 (js "-") e).length - 236) := by
    constructor
    · intro h
      exact List.append_cancel_left (List.cons.inj h).1
    · intro h; rw [h]
  refine ⟨key, ?_⟩
  intro hne hd45 he45 hdl hel h
  have h1 := key.1 h
  have hd0 : (replaceAllUnit 47 (js "-") d).length - 236 = 0 := by
    rw [flatten_length]; omega
  have he0 : (replaceAllUnit 47 (js "-") e).length - 236 = 0 := by
    rw [flatten_length]; omega
  rw [hd0, he0, List.drop_zero, List.drop_zero] at h1
  exact hne (flatten_injective d e hd45 he45 h1)

theorem fileconvert_names_distinct_witness :
    (writtenPaths [] (fileconvert (js "x/a%20b.png") none true []).2 =
        writtenPaths [] (fileconvert (js "y/a%20b.png") none true []).2 ↔
      (replaceAllUnit 47 (js "-") (js "x/a b.png")).drop
          ((replaceAllUnit 47 (js "-") (js "x/a b.png")).length - 236) =
        (replaceAllUnit 47 (js "-") (js "y/a b.png")).drop
          ((replaceAllUnit 47 (js "-") (js "y/a b.png")).length - 236)) ∧
    (js "x/a b.png" ≠ js "y/a b.png" → 45 ∉ js "x/a b.png" → 45 ∉ js "y/a b.png" →
      (js "x/a b.png").length ≤ 236 → (js "y/a b.png").length ≤ 236 →
      writtenPaths [] (fileconvert (js "x/a%20b.png") none true []).2 ≠
        writtenPaths [] (fileconvert (js "y/a%20b.png") none true []).2) :=
  fileconvert_names_distinct (js "x/a%20b.png") (js "y/a%20b.png") (js "x/a b.png")
    (js "y/a b.png") none true [] (by decide) (by decide)

theorem decimalValue_append (l : JsString) (c : Nat) :
    decimalValue (l ++ [c]) = 10 * decimalValue l + (c - 48) := by
  simp [decimalValue, List.foldl_append]

theorem decimalDigits_spec : ∀ (fuel n : Nat), n < fuel →
    (∀ c ∈ decimalDigits fuel n, 48 ≤ c ∧ c ≤ 57) ∧
    decimalValue (decimalDigits fuel n) = n ∧
    0 < (decimalDigits fuel n).length ∧
    n < 10 ^ (decimalDigits fuel n).length ∧
    (0 < n → 10 ^ ((decimalDigits fuel n).length - 1) ≤ n) := by
  intro fuel
  induction fuel with
  | zero => intro n h; omega
  | succ fuel ih =>
    intro n h
    unfold decimalDigits
    by_cases h10 : n < 10
    · simp only [h10, if_true]
      refine ⟨?_, ?_, ?_, ?_, ?_⟩
      · intro c hc; simp at hc; omega
      · simp [decimalValue]
      · simp
      · simpa using h10
      · intro; simp; omega
    · simp only [h10, if_false]
      have hq : n / 10 < fuel := by omega
      obtain ⟨h1, h2, h3, h4, h5⟩ := ih (n / 10) hq
      refine ⟨?_, ?_, ?_, ?_, ?_⟩
      · intro c hc
        rcases List.mem_append.1 hc with hc | hc
        · exact h1 c hc
        · simp at hc; omega
      · rw [decimalValue_append, h2]; omega
      · simp
      · rw [List.length_append, List.length_singleton, pow_succ]; omega
      · intro _
        rw [List.length_append, List.length_singleton, Nat.add_sub_cancel]
        have hpos : 0 < n / 10 := by omega
        have := h5 hpos
        obtain ⟨k, hk⟩ : ∃ k, (decimalDigits fuel (n / 10)).length = k + 1 := ⟨_, (Nat.succ_pred_eq_of_pos h3).symm⟩
        rw [hk] at this ⊢
        simp only [Nat.add_sub_cancel] at this
        rw [pow_succ]; omega

theorem decimalValue_foldl (l : JsString) (acc : Nat) :
    l.foldl (fun acc c => 10 * acc + (c - 48)) acc =
      acc * 10 ^ l.length + decimalValue l := by
  induction l generalizing acc with
  | nil => simp [decimalValue]
  | cons c cs ih =>
    simp only [List.foldl_cons, List.length_cons, decimalValue]
    rw [ih, ih (10 * 0 + (c - 48))]
    ring

theorem decimalValue_cons (c : Nat) (l : JsString) :
    decimalValue (c :: l) = (c - 48) * 10 ^ l.length + decimalValue l := by
  simp only [decimalValue, List.foldl_cons]
  rw [decimalValue_foldl]
  simp [decimalValue]

theorem decimalValue_lt (l : JsString) (h : ∀ c ∈ l, 48 ≤ c ∧ c ≤ 57) :
    decimalValue l < 10 ^ l.length := by
  induction l with
  | nil => simp [decimalValue]
  | cons c cs ih =>
    rw [decimalValue_cons, List.length_cons, pow_succ]
    have h1 := ih (fun x hx => h x (List.mem_cons_of_mem _ hx))
    have h2 := h c (List.mem_cons_self _ _)
    have h3 : c - 48 ≤ 9 := by omega
    have : (c - 48) * 10 ^ cs.length ≤ 9 * 10 ^ cs.length := Nat.mul_le_mul_right _ h3
    omega

theorem decimalValue_replicate_zero (m : Nat) (l : JsString) :
    decimalValue (List.replicate m 48 ++ l) = decimalValue l := by
  induction m with
  | zero => simp
  | succ m ih =>
    rw [List.replicate_succ, List.cons_append, decimalValue_cons, ih]
    simp

theorem strLt_iff_value_lt : ∀ (a b : JsString), a.length = b.length →
    (∀ c ∈ a, 48 ≤ c ∧ c ≤ 57) → (∀ c ∈ b, 48 ≤ c ∧ c ≤ 57) →
    (strLt a b = true ↔ decimalValue a < decimalValue b) := by
  intro a
  induction a with
  | nil =>
    intro b hl _ _
    cases b with
    | nil => simp [strLt, decimalValue]
    | cons _ _ => simp at hl
  | cons x xs ih =>
    intro b hl ha hb
    cases b with
    | nil => simp at hl
    | cons y ys =>
      simp only [List.length_cons, Nat.add_right_cancel_iff] at hl
      have hx := ha x (List.mem_cons_self _ _)
      have hy := hb y (List.mem_cons_self _ _)
      have hxs : ∀ c ∈ xs, 48 ≤ c ∧ c ≤ 57 := fun c hc => ha c (List.mem_cons_of_mem _ hc)
      have hys : ∀ c ∈ ys, 48 ≤ c ∧ c ≤ 57 := fun c hc => hb c (List.mem_cons_of_mem _ hc)
      have hvx := decimalValue_lt xs hxs
      have hvy := decimalValue_lt ys hys
      have IH := ih ys hl hxs hys
      rw [decimalValue_cons, decimalValue_cons, hl]
      rw [hl] at hvx
      simp only [strLt, Bool.or_eq_true, Bool.and_eq_true, decide_eq_true_eq, beq_iff_eq, IH]
      generalize 10 ^ ys.length = P at *
      constructor
      · rintro (h | ⟨h, h'⟩)
        · have : (x - 48) + 1 ≤ y - 48 := by omega
          have := Nat.mul_le_mul_right P this
          rw [Nat.add_mul] at this
          omega
        · subst h; omega
      · intro h
        by_cases hxy : x < y
        · exact Or.inl hxy
        · right
          by_cases he : x = y
          · subst he; exact ⟨rfl, by omega⟩
          · exfalso
            have : (y - 48) + 1 ≤ x - 48 := by omega
            have := Nat.mul_le_mul_right P this
            rw [Nat.add_mul] at this
            omega

theorem toDouble_small (x : Nat) (h : x < 2 ^ 53) : toDouble x = x := by
  unfold toDouble
  rw [if_pos h]

theorem binaryExponent_spec : ∀ (fuel x : Nat), x ≤ fuel → 2 ^ 53 ≤ x →
    1 ≤ binaryExponent fuel x ∧ 2 ^ 52 ≤ x / 2 ^ binaryExponent fuel x := by
  intro fuel
  induction fuel with
  | zero =>
    intro x h1 h2
    have : (0 : Nat) < 2 ^ 53 := by norm_num
    omega
  | succ fuel ih =>
    intro x h1 h2
    have hx : ¬ x < 2 ^ 53 := by omega
    rw [binaryExponent, if_neg hx]
    refine ⟨by omega, ?_⟩
    by_cases hh : x / 2 < 2 ^ 53
    · have e0 : binaryExponent fuel (x / 2) = 0 := by
        cases fuel with
        | zero => rfl
        | succ f => rw [binaryExponent, if_pos hh]
      rw [e0, Nat.zero_add, pow_one]
      omega
    · have hle : x / 2 ≤ fuel := by omega
      obtain ⟨-, h4⟩ := ih (x / 2) hle (by omega)
      have e : x / 2 ^ (binaryExponent fuel (x / 2) + 1) =
          x / 2 / 2 ^ binaryExponent fuel (x / 2) := by
        rw [pow_succ', Nat.div_div_eq_div_mul]
      rw [e]
      exact h4

theorem toDouble_large (x : Nat) (h : 2 ^ 53 ≤ x) : 2 ^ 53 ≤ toDouble x := by
  obtain ⟨he1, hq⟩ := binaryExponent_spec x x (le_refl _) h
  have he : 2 ≤ 2 ^ binaryExponent x x := by
    calc 2 = 2 ^ 1 := by norm_num
      _ ≤ 2 ^ binaryExponent x x := Nat.pow_le_pow_right (by norm_num) he1
  have hprod : 2 ^ 53 ≤ x / 2 ^ binaryExponent x x * 2 ^ binaryExponent x x := by
    calc 2 ^ 53 = 2 ^ 52 * 2 := by norm_num
      _ ≤ x / 2 ^ binaryExponent x x * 2 ^ binaryExponent x x := Nat.mul_le_mul hq he
  have hinf : 2 ^ 53 ≤ INFINITY := by
    unfold INFINITY
    norm_num
  unfold toDouble
  rw [if_neg (by omega)]
  simp only
  split_ifs with h1 h2 h2
  · exact hinf
  · calc 2 ^ 53 ≤ x / 2 ^ binaryExponent x x * 2 ^ binaryExponent x x := hprod
      _ ≤ (x / 2 ^ binaryExponent x x + 1) * 2 ^ binaryExponent x x :=
        Nat.mul_le_mul_right _ (Nat.le_succ _)
  · exact hinf
  · exact hprod

theorem toDouble_lt (x : Nat) (h : toDouble x < 2 ^ 53) : x < 2 ^ 53 := by
  by_contra hc
  have := toDouble_large x (by omega)
  omega

theorem numAdd_exact (a b : Nat) (h : numAdd a b < 2 ^ 53) : numAdd a b = a + b := by
  unfold numAdd at h ⊢
  exact toDouble_small _ (toDouble_lt _ h)

theorem numMul_exact (a b : Nat) (h : numMul a b < 2 ^ 53) : numMul a b = a * b := by
  unfold numMul at h ⊢
  exact toDouble_small _ (toDouble_lt _ h)

theorem numAdd_pos (a : Nat) : 0 < numAdd a 1 := by
  by_cases h : numAdd a 1 < 2 ^ 53
  · rw [numAdd_exact a 1 h]
    omega
  · have : (0 : Nat) < 2 ^ 53 := by norm_num
    omega

theorem numberToString_small (n : Nat) (h : n < 2 ^ 53) :
    numberToString n = decimalDigits (n + 1) n := by
  unfold numberToString
  rw [if_pos h]

theorem numberToString_spec (n : Nat) (hn : n < 2 ^ 53) :
    (∀ c ∈ numberToString n, 48 ≤ c ∧ c ≤ 57) ∧
    decimalValue (numberToString n) = n ∧
    0 < (numberToString n).length ∧
    n < 10 ^ (numberToString n).length ∧
    (0 < n → 10 ^ ((numberToString n).length - 1) ≤ n) := by
  rw [numberToString_small n hn]
  exact decimalDigits_spec (n + 1) n (Nat.lt_succ_self n)

theorem numberToString_length_le (n k : Nat) (hk : 0 < k) (h : n < 10 ^ k) (hn : n < 2 ^ 53) :
    (numberToString n).length ≤ k := by
  obtain ⟨-, -, h3, -, h5⟩ := numberToString_spec n hn
  by_cases hn : n = 0
  · subst hn
    have : numberToString 0 = [48] := by decide
    rw [this]; simpa using hk
  · have h6 := h5 (Nat.pos_of_ne_zero hn)
    by_contra hc
    have : k ≤ (numberToString n).length - 1 := by omega
    have := Nat.pow_le_pow_right (by decide : 0 < 10) this
    omega

theorem numberToString_length_gt (n k : Nat) (h : 10 ^ k ≤ n) (hn : n < 2 ^ 53) :
    k < (numberToString n).length := by
  obtain ⟨-, -, -, h4, -⟩ := numberToString_spec n hn
  by_contra hc
  have : (numberToString n).length ≤ k := by omega
  have := Nat.pow_le_pow_right (by decide : 0 < 10) this
  omega

theorem sortFormated_digits (s : Nat) (hs : s < 2 ^ 53) :
    ∀ c ∈ sortFormated s, 48 ≤ c ∧ c ≤ 57 := by
  intro c hc
  unfold sortFormated padStart SORT_PADDING at hc
  rcases List.mem_append.1 hc with h | h
  · have := List.eq_of_mem_replicate h
    omega
  · exact (numberToString_spec s hs).1 c h

theorem sortFormated_value (s : Nat) (hs : s < 2 ^ 53) : decimalValue (sortFormated s) = s := by
  unfold sortFormated padStart SORT_PADDING
  rw [decimalValue_replicate_zero]
  exact (numberToString_spec s hs).2.1

theorem lt_safe_of_lt (s : Nat) (h : s < 10 ^ 10) : s < 2 ^ 53 :=
  lt_trans h (by norm_num)

theorem sortFormated_length (s : Nat) (h : s < 10 ^ 10) : (sortFormated s).length = 10 := by
  have := numberToString_length_le s 10 (by decide) h (lt_safe_of_lt s h)
  unfold sortFormated padStart SORT_PADDING
  rw [List.length_append, List.length_replicate]
  omega

set_option maxRecDepth 100000 in
/-- The arithmetic of numbers above `2^53` and the texts of large numbers. -/
theorem number_samples :
    numMul 1011111111111111 10 = 10111111111111110 ∧
    numAdd 10111111111111110 1 = 10111111111111112 ∧
    numAdd 10111111111111112 1 = 10111111111111112 ∧
    numberToString 10111111111111112 = js "10111111111111112" ∧
    sortFormated (101 * 10 ^ 19) = js "001.01e+21" ∧
    numberToString (2 ^ 53) = js "9007199254740992" ∧
    numberToString (2 ^ 60) = js "1152921504606847000" ∧
    numberToString (10 ^ 21) = js "1e+21" ∧
    numberToString INFINITY = js "Infinity" ∧
    numMul INFINITY 10 = INFINITY := by
  decide!

set_option maxRecDepth 100000 in
/-- C5 (as stated, refuted). In the export of the folder `F0` from the seed
101, the folder `F8`, eight levels down, is handed the counter 10111111111,
and its index file carries a `sortOrder` of eleven digits; the roll table `U`
of the folder `F6` is handed 1011111112, and the two keys compare as strings
in the order opposite to that of the counters. -/
theorem sortOrder_eleven_digits :
    Zip.get (oneFolder nameSettings sampleHost [] deepFolder 101 []).2
        (js "F0/F1/F2/F3/F4/F5/F6/F7/F8/F8.md") =
      some (.text (js "---\ntitle: \"F8\"\nicon: \":folder:\"\naliases: \"F8\"\nsortOrder: \"10111111111\"\ntags:\n  - \"toc\"\n---\n\n# F8\n\n## Table of Contents\n\n- [[./T|T]]")) ∧
    Zip.get (oneFolder nameSettings sampleHost [] deepFolder 101 []).2
        (js "F0/F1/F2/F3/F4/F5/F6/U.md") =
      some (.text (js "---\ntitle: \"U\"\nicon: \":list:\"\naliases: \"U\"\nfoundryId: RollTable.u\nsortOrder: \"1011111112\"\ntags:\n  - RollTable\n---\n\n# U\n| Roll | result |\n|------|--------|\n")) ∧
    sortFormated 10111111111 = js "10111111111" ∧
    (sortFormated 10111111111).length = 11 ∧
    sortFormated 1011111112 = js "1011111112" ∧
    strLt (sortFormated 10111111111) (sortFormated 1011111112) = true ∧
    ¬ (10111111111 < 1011111112) := by
  decide!

/-- C5 (amended). For sort counters `s` and `t` below `10^10`, the `sortOrder`
value that `frontmatter` and `frontmatterFolder` emit for `s` is a string of
exactly 10 decimal digits whose numeric value is `s`, and the keys of `s` and
`t` compare as strings the way `s` and `t` compare as numbers. For a counter
`u` from `10^10` on and below `2^53` the key is made of decimal digits, has
the value `u` and has more than 10 digits. -/
theorem sortOrder_ten_digits (doc : Document) (name : JsString) (showheader index : Bool)
    (s t : Nat) (hs : s < 10 ^ 10) (ht : t < 10 ^ 10) :
    (∃ pre post, frontmatter doc s showheader index =
      pre ++ js "sortOrder: \"" ++ sortFormated s ++ js "\"\n" ++ post) ∧
    (∃ pre post, frontmatterFolder name s showheader index =
      pre ++ js "sortOrder: \"" ++ sortFormated s ++ js "\"\n" ++ post) ∧
    (sortFormated s).length = 10 ∧
    (∀ c ∈ sortFormated s, 48 ≤ c ∧ c ≤ 57) ∧
    decimalValue (sortFormated s) = s ∧
    (strLt (sortFormated s) (sortFormated t) = true ↔ s < t) ∧
    (∀ u, 10 ^ 10 ≤ u → u < 2 ^ 53 →
      (∀ c ∈ sortFormated u, 48 ≤ c ∧ c ≤ 57) ∧ decimalValue (sortFormated u) = u ∧
      10 < (sortFormated u).length) := by
  have hs2 := lt_safe_of_lt s hs
  have ht2 := lt_safe_of_lt t ht
  refine ⟨?_, ?_, sortFormated_length s hs, sortFormated_digits s hs2, sortFormated_value s hs2,
    ?_, ?_⟩
  · refine ⟨FRONTMATTER ++ js "title: \"" ++ (if index then js "Index of " ++ doc.name else doc.name)
      ++ js "\"\n" ++ js "icon: \"" ++ DOCUMENT_ICON.lookup doc ++ js "\"\n" ++ js "aliases: \"" ++
      (if index then js "Index of " ++ doc.name else doc.name) ++ js "\"\n" ++ js "foundryId: " ++
      doc.uuid ++ js "\n", js "tags:\n  - " ++ doc.documentName ++ js "\n" ++ FRONTMATTER ++
      (if showheader then js "\n# " ++ doc.name ++ js "\n" else []), ?_⟩
    simp only [frontmatter, List.append_assoc]
  · refine ⟨FRONTMATTER ++ js "title: \"" ++ (if index then js "Index of " ++ name else name)
      ++ js "\"\n" ++ js "icon: \":folder:\"\n" ++ js "aliases: \"" ++
      (if index then js "Index of " ++ name else name) ++ js "\"\n",
      js "tags:\n  - \"toc\"\n" ++ FRONTMATTER ++
      (if showheader then js "\n# " ++ name ++ js "\n" else []), ?_⟩
    simp only [frontmatterFolder, List.append_assoc]
  · rw [strLt_iff_value_lt _ _ (by rw [sortFormated_length s hs, sortFormated_length t ht])
      (sortFormated_digits s hs2) (sortFormated_digits t ht2), sortFormated_value s hs2,
      sortFormated_value t ht2]
  · intro u hu hu2
    refine ⟨sortFormated_digits u hu2, sortFormated_value u hu2, ?_⟩
    have := numberToString_length_gt u 10 hu hu2
    unfold sortFormated padStart
    rw [List.length_append]
    omega

theorem sortOrder_ten_digits_witness :
    ((∃ pre post, frontmatter ⟨js "T", js "RollTable.t", js "RollTable", 0, none⟩ 1011 true false =
      pre ++ js "sortOrder: \"" ++ sortFormated 1011 ++ js "\"\n" ++ post) ∧
    (∃ pre post, frontmatterFolder (js "F") 1011 true false =
      pre ++ js "sortOrder: \"" ++ sortFormated 1011 ++ js "\"\n" ++ post) ∧
    (sortFormated 1011).length = 10 ∧
    (∀ c ∈ sortFormated 1011, 48 ≤ c ∧ c ≤ 57) ∧
    decimalValue (sortFormated 1011) = 1011 ∧
    (strLt (sortFormated 1011) (sortFormated 10111) = true ↔ 1011 < 10111) ∧
    (∀ u, 10 ^ 10 ≤ u → u < 2 ^ 53 →
      (∀ c ∈ sortFormated u, 48 ≤ c ∧ c ≤ 57) ∧ decimalValue (sortFormated u) = u ∧
      10 < (sortFormated u).length)) ∧
    sortFormated 1011 = js "0000001011" ∧ sortFormated 10111 = js "0000010111" :=
  ⟨sortOrder_ten_digits ⟨js "T", js "RollTable.t", js "RollTable", 0, none⟩ (js "F") true false
    1011 10111 (by decide) (by decide), by decide, by decide⟩

/-! ### Links -/

theorem matchLabel_some (l post : JsString) (hl : l ≠ []) (hu : ∀ c ∈ l, isLabelUnit c = true) :
    matchLabel (123 :: (l ++ 125 :: post)) = (some l, post) := by
  have hn : ¬ (isLabelUnit 125 = true) := by decide
  have e1 : (l ++ 125 :: post).takeWhile isLabelUnit = l := by
    rw [List.takeWhile_append_of_pos hu]; simp [hn]
  have e2 : (l ++ 125 :: post).dropWhile isLabelUnit = 125 :: post := by
    rw [List.dropWhile_append_of_pos hu]; simp [hn]
  obtain ⟨x, xs, hx⟩ := List.exists_cons_of_ne_nil hl
  simp only [matchLabel, e1, e2]
  rw [hx]

theorem matchHash_some (h post : JsString) (hh : h ≠ []) (hu : ∀ c ∈ h, isHashUnit c = true) :
    matchHash (35 :: (h ++ 93 :: post)) = (some h, 93 :: post) := by
  have hn : ¬ (isHashUnit 93 = true) := by decide
  have e1 : (h ++ 93 :: post).takeWhile isHashUnit = h := by
    rw [List.takeWhile_append_of_pos hu]; simp [hn]
  have e2 : (h ++ 93 :: post).dropWhile isHashUnit = 93 :: post := by
    rw [List.dropWhile_append_of_pos hu]; simp [hn]
  obtain ⟨x, xs, hx⟩ := List.exists_cons_of_ne_nil hh
  simp only [matchHash, e1, e2]
  rw [hx]

theorem matchHash_none (post : JsString) : matchHash (93 :: post) = (none, 93 :: post) := by
  simp [matchHash]

theorem hashText_eq (hash : Option JsString) (tail : JsString) :
    (∃ c r, hashText hash ++ 93 :: tail = c :: r ∧ ¬ (isTargetUnit c = true)) := by
  have h3 : js "#" = [35] := by decide
  cases hash with
  | none => exact ⟨93, tail, rfl, by decide⟩
  | some h => exact ⟨35, h ++ 93 :: tail, by simp [hashText, h3], by decide⟩

theorem matchHash_hashText (hash : Option JsString) (tail : JsString)
    (hh : ∀ h, hash = some h → h ≠ [] ∧ ∀ c ∈ h, isHashUnit c = true) :
    matchHash (hashText hash ++ 93 :: tail) = (hash, 93 :: tail) := by
  have h3 : js "#" = [35] := by decide
  cases hash with
  | none => simpa [hashText] using matchHash_none tail
  | some h =>
    obtain ⟨hh1, hh2⟩ := hh h rfl
    simpa [hashText, h3] using matchHash_some h tail hh1 hh2

theorem matchLabel_labelText (label : Option JsString) (post : JsString)
    (hl : ∀ l, label = some l → l ≠ [] ∧ ∀ c ∈ l, isLabelUnit c = true)
    (hp : label = none → matchLabel post = (none, post)) :
    matchLabel (labelText label ++ post) = (label, post) := by
  have h5 : js "\x7b" = [123] := by decide
  have h6 : js "\x7d" = [125] := by decide
  cases label with
  | none => simpa [labelText] using hp rfl
  | some l =>
    obtain ⟨hl1, hl2⟩ := hl l rfl
    simpa [labelText, h5, h6] using matchLabel_some l post hl1 hl2

/-- The text of a reference, unit by unit. -/
theorem referenceText_eq (type target : JsString) (hash label : Option JsString) :
    referenceText type target hash label =
      64 :: (type ++ 91 :: (target ++ (hashText hash ++ 93 :: labelText label))) := by
  have h1 : js "@" = [64] := by decide
  have h2 : js "[" = [91] := by decide
  have h4 : js "]" = [93] := by decide
  unfold referenceText
  rw [h1, h2, h4]
  simp

theorem matchLink_reference (type target : JsString) (hash label : Option JsString)
    (post : JsString)
    (hT : type ≠ []) (hTu : ∀ c ∈ type, isLetter c = true)
    (ht : target ≠ []) (htu : ∀ c ∈ target, isTargetUnit c = true)
    (hh : ∀ h, hash = some h → h ≠ [] ∧ ∀ c ∈ h, isHashUnit c = true)
    (hl : ∀ l, label = some l → l ≠ [] ∧ ∀ c ∈ l, isLabelUnit c = true)
    (hp : label = none → matchLabel post = (none, post)) :
    matchLink (referenceText type target hash label ++ post) =
      some ⟨referenceText type target hash label, type, target, hash, label⟩ := by
  have hn1 : ¬ (isLetter 91 = true) := by decide
  have hlab2 := matchLabel_labelText label post hl hp
  have hhash2 := matchHash_hashText hash (labelText label ++ post) hh
  obtain ⟨c, r, hcr, hc⟩ := hashText_eq hash (labelText label ++ post)
  rw [referenceText_eq]
  generalize labelText label = L at *
  generalize hashText hash = H at *
  have e0 : (64 :: (type ++ 91 :: (target ++ (H ++ 93 :: L)))) ++ post =
      64 :: (type ++ 91 :: (target ++ (H ++ 93 :: (L ++ post)))) := by simp
  have e1 : (type ++ 91 :: (target ++ (H ++ 93 :: (L ++ post)))).takeWhile isLetter = type := by
    rw [List.takeWhile_append_of_pos hTu]; simp [hn1]
  have e2 : (type ++ 91 :: (target ++ (H ++ 93 :: (L ++ post)))).dropWhile isLetter =
      91 :: (target ++ (H ++ 93 :: (L ++ post))) := by
    rw [List.dropWhile_append_of_pos hTu]; simp [hn1]
  have e3 : (target ++ (H ++ 93 :: (L ++ post))).takeWhile isTargetUnit = target := by
    rw [List.takeWhile_append_of_pos htu, hcr]; simp [hc]
  have e4 : (target ++ (H ++ 93 :: (L ++ post))).dropWhile isTargetUnit =
      H ++ 93 :: (L ++ post) := by
    rw [List.dropWhile_append_of_pos htu, hcr]; simp [hc]
  obtain ⟨x, xs, hx⟩ := List.exists_cons_of_ne_nil hT
  obtain ⟨y, ys, hy⟩ := List.exists_cons_of_ne_nil ht
  subst hx hy
  rw [e0]
  simp only [matchLink, e1, e2]
  simp only [e3, e4, hhash2, hlab2]
  simp only [List.cons_append, List.length_cons, List.length_append, Option.some.injEq,
    LinkMatch.mk.injEq, and_true]
  have hA : (64 :: x :: (xs ++ 91 :: y :: (ys ++ (H ++ 93 :: (L ++ post))))) =
      (64 :: x :: (xs ++ 91 :: y :: (ys ++ (H ++ 93 :: L)))) ++ post := by simp
  rw [hA]
  apply List.take_left'
  simp only [List.length_cons, List.length_append]
  omega

theorem Run.bind_apply {α β : Type} (m : Run α) (f : α → Run β) (zip : Zip) :
    (m >>= f) zip =
      match m zip with
      | (.ok a, zip1) => f a zip1
      | (.throws e, zip1) => (.throws e, zip1)
      | (.hangs, zip1) => (.hangs, zip1) := rfl

theorem Run.pure_apply {α : Type} (a : α) (zip : Zip) : (pure a : Run α) zip = (.ok a, zip) := rfl

theorem matchLink_of_ne (c : Nat) (cs : JsString) (h : c ≠ 64) : matchLink (c :: cs) = none := by
  unfold matchLink
  split
  · rename_i r0 heq
    simp only [List.cons.injEq] at heq
    exact absurd heq.1 h
  · rfl

theorem replaceLinks_plain (s : Settings) (host : Host) (rel : Document) (pre rest : JsString)
    (h : 64 ∉ pre) :
    replaceLinks s host rel 0 (pre ++ rest) = pre ++ replaceLinks s host rel 0 rest := by
  induction pre with
  | nil => rfl
  | cons c cs ih =>
    simp only [List.mem_cons, not_or] at h
    simp only [List.cons_append, replaceLinks, matchLink_of_ne c _ (Ne.symm h.1), List.append_eq,
      ih h.2]

theorem replaceLinks_nil (s : Settings) (host : Host) (rel : Document) (k : Nat) :
    replaceLinks s host rel k [] = [] := by
  cases k <;> rfl

theorem replaceLinks_skip (s : Settings) (host : Host) (rel : Document) (a rest : JsString) :
    replaceLinks s host rel a.length (a ++ rest) = replaceLinks s host rel 0 rest := by
  induction a with
  | nil => rfl
  | cons c cs ih => simpa [replaceLinks] using ih

theorem replaceLinks_plain_all (s : Settings) (host : Host) (rel : Document) (t : JsString)
    (h : 64 ∉ t) : replaceLinks s host rel 0 t = t := by
  have := replaceLinks_plain s host rel t [] h
  simpa [replaceLinks_nil] using this

theorem matchFile_of_ne (c : Nat) (cs : JsString) (h : c ≠ 33) : matchFile (c :: cs) = none := by
  unfold matchFile
  split
  · rename_i r heq
    simp only [List.cons.injEq] at heq
    exact absurd heq.1 h
  · rfl

theorem replaceFiles_plain (t : JsString) (zip : Zip) (h : 33 ∉ t) :
    replaceFiles 0 t zip = (.ok t, zip) := by
  induction t with
  | nil => rfl
  | cons c cs ih =>
    simp only [List.mem_cons, not_or] at h
    simp only [replaceFiles, matchFile_of_ne c _ (Ne.symm h.1), Run.bind_apply, ih h.2,
      Run.pure_apply]

/-- On a text made of a reference between two stretches without `@`, the first
pass of `convertLinks` replaces the reference by what `replaceOneLink` returns
for its groups and leaves the rest as it is. -/
theorem replaceLinks_reference (s : Settings) (host : Host) (rel : Document)
    (type target : JsString) (hash label : Option JsString) (pre post : JsString)
    (hT : type ≠ []) (hTu : ∀ c ∈ type, isLetter c = true)
    (ht : target ≠ []) (htu : ∀ c ∈ target, isTargetUnit c = true)
    (hh : ∀ h, hash = some h → h ≠ [] ∧ ∀ c ∈ h, isHashUnit c = true)
    (hl : ∀ l, label = some l → l ≠ [] ∧ ∀ c ∈ l, isLabelUnit c = true)
    (hp : label = none → matchLabel post = (none, post))
    (hpre : 64 ∉ pre) (hpost : 64 ∉ post) :
    replaceLinks s host rel 0 (pre ++ referenceText type target hash label ++ post) =
      pre ++ replaceOneLink s host rel (referenceText type target hash label) type target
        hash label ++ post := by
  have hm := matchLink_reference type target hash label post hT hTu ht htu hh hl hp
  rw [List.append_assoc, replaceLinks_plain s host rel pre _ hpre]
  have hr := referenceText_eq type target hash label
  generalize referenceText type target hash label = R at hm hr ⊢
  generalize (type ++ 91 :: (target ++ (hashText hash ++ 93 :: labelText label))) = tl at hr
  subst hr
  rw [List.cons_append] at hm
  simp only [List.cons_append, replaceLinks, List.append_eq, hm, List.length_cons,
    Nat.add_sub_cancel]
  rw [replaceLinks_skip, replaceLinks_plain_all s host rel post hpost, List.append_assoc]

theorem formatLink_no_bang (link : JsString) (label : Option JsString)
    (h1 : 33 ∉ link) (h2 : ∀ l, label = some l → 33 ∉ l) : 33 ∉ formatLink link label false := by
  have e1 : js "[[" = [91, 91] := by decide
  have e2 : js "]]" = [93, 93] := by decide
  have e3 : js "|" = [124] := by decide
  unfold formatLink
  rw [e1, e2, e3]
  simp only [Bool.false_eq_true, if_false]
  split_ifs with hc
  · obtain ⟨l, hl⟩ : ∃ l, label = some l := by
      cases label with
      | none => simp [truthy] at hc
      | some l => exact ⟨l, rfl⟩
    have := h2 l hl
    subst hl
    simp [toStr, h1, this]
  · simp [h1]

theorem notefilename_of_not_sole (s : Settings) (linkdoc : LinkDoc)
    (hP : ∀ parent size, linkdoc.page = some (parent, size) → size ≠ 1) :
    notefilename s linkdoc.doc linkdoc.page = docfilename s linkdoc.doc := by
  unfold notefilename
  cases hp : linkdoc.page with
  | none => rfl
  | some ps =>
    obtain ⟨parent, size⟩ := ps
    simp [hP parent size hp]

theorem formatLink_label (link label : JsString) (hl : label ≠ []) :
    formatLink link (some label) false =
      if label = link then js "[[" ++ link ++ js "]]"
      else js "[[" ++ link ++ js "|" ++ label ++ js "]]" := by
  obtain ⟨x, xs, rfl⟩ := List.exists_cons_of_ne_nil hl
  unfold formatLink
  by_cases h : x :: xs = link
  · simp [h, truthy]
  · simp [h, truthy, toStr]

theorem formatLink_none (link : JsString) :
    formatLink link none false = js "[[" ++ link ++ js "]]" := by
  simp [formatLink, truthy]

/-- What `replaceOneLink` does for a type that is known and carries no
`inline` modifier. -/
theorem replaceOneLink_known (s : Settings) (host : Host) (rel : Document)
    (str type target : JsString) (hash label : Option JsString)
    (hK : type ∈ host.DOCUMENT_LINK_TYPES ++ [js "Compendium", js "UUID"])
    (hI : startsWith (js "inline") type = false) :
    replaceOneLink s host rel str type target hash label =
      match host.fromUuidSync (if type ≠ js "UUID" then type ++ js "." ++ target else target)
        rel with
      | .throws =>
        uuidFailSafe s host (if type ≠ js "UUID" then type ++ js "." ++ target else target) label
      | .missing =>
        if ¬ truthy label ∧ ¬ truthy hash then
          uuidFailSafe s host (if type ≠ js "UUID" then type ++ js "." ++ target else target)
            label
        else dummyLink (if type ≠ js "UUID" then type ++ js "." ++ target else target) label
      | .found linkdoc =>
        match (if truthy hash ∧ linkdoc.page.isSome then tocLookup linkdoc.toc (toStr hash)
               else none) with
        | some text =>
          formatLink (notefilename s linkdoc.doc linkdoc.page ++ js "#" ++ toStr text)
            (if ¬ truthy (if ¬ truthy label ∧ ¬ truthy hash then some linkdoc.doc.name
              else label) then text
             else (if ¬ truthy label ∧ ¬ truthy hash then some linkdoc.doc.name else label))
            false
        | none =>
          formatLink (notefilename s linkdoc.doc linkdoc.page)
            (if ¬ truthy label ∧ ¬ truthy hash then some linkdoc.doc.name else label) false := by
  unfold replaceOneLink
  simp only [hI, Bool.false_eq_true, if_false, hK, not_true_eq_false]
  try rfl

theorem wellFormedReference_iff (type target : JsString) (hash label : Option JsString)
    (h : wellFormedReference type target hash label = true) :
    type ≠ [] ∧ (∀ c ∈ type, isLetter c = true) ∧ target ≠ [] ∧
    (∀ c ∈ target, isTargetUnit c = true) ∧
    (∀ x, hash = some x → x ≠ [] ∧ ∀ c ∈ x, isHashUnit c = true) ∧
    (∀ l, label = some l → l ≠ [] ∧ ∀ c ∈ l, isLabelUnit c = true) := by
  unfold wellFormedReference at h
  simp only [Bool.and_eq_true, Bool.not_eq_true', List.isEmpty_eq_false, List.all_eq_true] at h
  obtain ⟨⟨⟨⟨⟨h1, h2⟩, h3⟩, h4⟩, h5⟩, h6⟩ := h
  refine ⟨h1, h2, h3, h4, ?_, ?_⟩
  · intro x hx
    subst hx
    simpa using h5
  · intro l hl
    subst hl
    simpa using h6

theorem plainText_iff (t : JsString) (h : plainText t = true) : 64 ∉ t ∧ 33 ∉ t := by
  unfold plainText at h
  simpa using h

/-- The link `formatLink` makes when it is not an embed: brackets around a body. -/
theorem formatLink_brackets (link : JsString) (label : Option JsString) :
    ∃ body, formatLink link label false = js "[[" ++ body ++ js "]]" := by
  exact ⟨if truthy label ∧ label ≠ some link then link ++ js "|" ++ toStr label else link,
    by simp [formatLink]⟩

theorem uuidFailSafe_brackets (s : Settings) (host : Host) (target : JsString)
    (label : Option JsString) :
    ∃ body, uuidFailSafe s host target label = js "[[" ++ body ++ js "]]" := by
  unfold uuidFailSafe dummyLink
  split
  · split
    · exact formatLink_brackets _ _
    · exact formatLink_brackets _ _
  · exact formatLink_brackets _ _

theorem replaceOneLink_brackets (s : Settings) (host : Host) (rel : Document)
    (str type target : JsString) (hash label : Option JsString)
    (hK : type ∈ host.DOCUMENT_LINK_TYPES ++ [js "Compendium", js "UUID"])
    (hI : startsWith (js "inline") type = false) :
    ∃ body, replaceOneLink s host rel str type target hash label = js "[[" ++ body ++ js "]]" := by
  rw [replaceOneLink_known s host rel str type target hash label hK hI]
  split
  · exact uuidFailSafe_brackets _ _ _ _
  · split
    · exact uuidFailSafe_brackets _ _ _ _
    · exact formatLink_brackets _ _
  · split
    · exact formatLink_brackets _ _
    · exact formatLink_brackets _ _

theorem uuidFailSafe_dummy (s : Settings) (host : Host) (target : JsString)
    (label : Option JsString)
    (hF : s.use_uuid_for_notename = true ∨
      ∀ name title, host.parentLookup target ≠ .found name (some title)) :
    uuidFailSafe s host target label = formatLink target label false := by
  unfold uuidFailSafe dummyLink
  rcases hF with hF | hF
  · simp [hF]
  · split
    · split
      · rename_i name title heq
        exact absurd heq (hF name title)
      · rfl
    · rfl

/-- What `convertLinks` returns on a text that holds one well-formed reference
between two plain stretches, when the replacement holds no `!`. -/
theorem convertLinks_reference (s : Settings) (host : Host) (rel : Document)
    (type target : JsString) (hash label : Option JsString) (pre post : JsString) (zip : Zip)
    (hw : wellFormedReference type target hash label = true)
    (hpre : plainText pre = true) (hpost : plainText post = true)
    (hp : label = none → matchLabel post = (none, post))
    (hb : 33 ∉ replaceOneLink s host rel (referenceText type target hash label) type target
      hash label) :
    convertLinks s host (some (pre ++ referenceText type target hash label ++ post)) rel zip =
      (.ok (pre ++ replaceOneLink s host rel (referenceText type target hash label) type target
        hash label ++ post), zip) := by
  obtain ⟨h1, h2, h3, h4, h5, h6⟩ := wellFormedReference_iff type target hash label hw
  obtain ⟨p1, p2⟩ := plainText_iff pre hpre
  obtain ⟨q1, q2⟩ := plainText_iff post hpost
  unfold convertLinks
  simp only
  rw [replaceLinks_reference s host rel type target hash label pre post h1 h2 h3 h4 h5 h6 hp
    p1 q1]
  apply replaceFiles_plain
  simp only [List.mem_append, not_or]
  exact ⟨⟨p2, hb⟩, q2⟩

/-- C9 (as stated, refuted). The reference
`@JournalEntry[zzz]\x7bJournalEntry.zzz\x7d`, whose target does not resolve
and whose label is the target identity, is replaced by `[[JournalEntry.zzz]]`:
the label is left out, not kept. -/
theorem convertLinks_unresolved_label_dropped :
    sampleHost.parentLookup (js "JournalEntry.zzz") = .throws ∧
    convertLinks nameSettings sampleHost
        (some (js "@JournalEntry[zzz]\x7bJournalEntry.zzz\x7d")) worldDoc [] =
      (.ok (js "[[JournalEntry.zzz]]"), []) ∧
    js "[[JournalEntry.zzz]]" ≠ js "[[JournalEntry.zzz|JournalEntry.zzz]]" := by
  refine ⟨rfl, ?_, by decide⟩
  decide

/-- C9 (amended). For a reference of a known type whose target cannot be
resolved (the lookup throws or finds nothing, and the fallback through the
parent is not taken or finds no pack), the replacement computed by
`replaceOneLink` is the dummy link `formatLink(target, label)` on the identity
looked up (`T.t`, and `t` itself for the type `UUID`): `[[T.t|L]]` when the
label `L` differs from that identity, `[[T.t]]` when there is no label or the
label equals it. `convertLinks`, applied to a text that holds the reference
between two plain stretches, returns normally with the reference so replaced
and leaves the archive as it is, provided identity and label hold no `!`. -/
theorem convertLinks_unresolved_reference (s : Settings) (host : Host) (rel : Document)
    (str type target : JsString) (hash label : Option JsString)
    (hK : type ∈ host.DOCUMENT_LINK_TYPES ++ [js "Compendium", js "UUID"])
    (hI : startsWith (js "inline") type = false)
    (hR : host.fromUuidSync (canonicalTarget type target) rel = .throws ∨
      host.fromUuidSync (canonicalTarget type target) rel = .missing)
    (hF : s.use_uuid_for_notename = true ∨
      ∀ name title, host.parentLookup (canonicalTarget type target) ≠ .found name (some title)) :
    replaceOneLink s host rel str type target hash label =
      formatLink (canonicalTarget type target) label false ∧
    (∀ l, label = some l → l ≠ [] → l ≠ canonicalTarget type target →
      replaceOneLink s host rel str type target hash label =
        js "[[" ++ canonicalTarget type target ++ js "|" ++ l ++ js "]]") ∧
    (label = none ∨ label = some (canonicalTarget type target) →
      replaceOneLink s host rel str type target hash label =
        js "[[" ++ canonicalTarget type target ++ js "]]") ∧
    (∀ pre post zip, wellFormedReference type target hash label = true →
      plainText pre = true → plainText post = true →
      (label = none → matchLabel post = (none, post)) →
      33 ∉ canonicalTarget type target → (∀ l, label = some l → 33 ∉ l) →
      convertLinks s host (some (pre ++ referenceText type target hash label ++ post)) rel zip =
        (.ok (pre ++ formatLink (canonicalTarget type target) label false ++ post), zip)) := by
  have hone : ∀ str, replaceOneLink s host rel str type target hash label =
      formatLink (canonicalTarget type target) label false := by
    intro str
    rw [replaceOneLink_known s host rel str type target hash label hK hI]
    have hc : (if type ≠ js "UUID" then type ++ js "." ++ target else target) =
        canonicalTarget type target := rfl
    rw [hc]
    rcases hR with hR | hR
    · rw [hR]
      exact uuidFailSafe_dummy s host _ label hF
    · rw [hR]
      simp only
      split
      · exact uuidFailSafe_dummy s host _ label hF
      · rfl
  refine ⟨hone str, ?_, ?_, ?_⟩
  · intro l hl hne hd
    rw [hone, hl, formatLink_label _ _ hne, if_neg hd]
  · rintro (h | h)
    · rw [hone, h, formatLink_none]
    · rw [hone, h]
      by_cases hn : canonicalTarget type target = []
      · rw [hn]; decide
      · rw [formatLink_label _ _ hn, if_pos rfl]
  · intro pre post zip hw hpre hpost hp hb1 hb2
    have := convertLinks_reference s host rel type target hash label pre post zip hw hpre hpost
      hp (by rw [hone]; exact formatLink_no_bang _ _ hb1 hb2)
    rw [this, hone]

theorem convertLinks_unresolved_reference_witness :
    replaceOneLink nameSettings sampleHost worldDoc (js "@JournalEntry[zzz]")
        (js "JournalEntry") (js "zzz") none none =
      js "[[JournalEntry.zzz]]" ∧
    convertLinks nameSettings sampleHost
        (some (js "see " ++ referenceText (js "JournalEntry") (js "zzz") none none ++ js "."))
        worldDoc [] =
      (.ok (js "see [[JournalEntry.zzz]]."), []) :=
  have h := convertLinks_unresolved_reference nameSettings sampleHost worldDoc
    (js "@JournalEntry[zzz]") (js "JournalEntry") (js "zzz") none none (by decide) (by decide)
    (Or.inl rfl) (Or.inr (by intro n t h; cases h))
  ⟨(h.2.2.1 (Or.inl rfl)).trans (by decide),
   (h.2.2.2 (js "see ") (js ".") [] (by decide) (by decide) (by decide) (by intro _; rfl)
      (by decide) (by intro l hl; cases hl)).trans (by decide)⟩

theorem startsWith_inline (type : JsString) : startsWith (js "inline") (js "inline" ++ type) = true := by
  have h : js "inline" = [105, 110, 108, 105, 110, 101] := by decide
  rw [h]
  simp [startsWith, List.isPrefixOf]

theorem slice_inline (type : JsString) :
    slice ((js "inline").length : Nat) (js "inline" ++ type) = type := by
  have h : js "inline" = [105, 110, 108, 105, 110, 101] := by decide
  rw [h]
  simp [slice]

/-- With the `inline` modifier in front of a known type, `replaceOneLink`
returns what it returns for the type alone. -/
theorem replaceOneLink_inline (s : Settings) (host : Host) (rel : Document)
    (str str1 type target : JsString) (hash label : Option JsString)
    (hK : type ∈ host.DOCUMENT_LINK_TYPES ++ [js "Compendium", js "UUID"])
    (hI : startsWith (js "inline") type = false) :
    replaceOneLink s host rel str1 (js "inline" ++ type) target hash label =
      replaceOneLink s host rel str type target hash label := by
  rw [replaceOneLink_known s host rel str type target hash label hK hI]
  unfold replaceOneLink
  simp only [startsWith_inline, if_true, slice_inline, hK, not_true_eq_false, if_false]
  try rfl

/-- C10 (as stated, refuted). The embed `@inlineJournalEntry[abc123]\x7bHello\x7d`
of a resolvable document is rewritten to `[[World|Hello]]`, the link emitted
for the same reference without the modifier, and not to `![[World|Hello]]`. -/
theorem convertLinks_inline_no_bang :
    convertLinks nameSettings sampleHost
        (some (js "@inlineJournalEntry[abc123]\x7bHello\x7d")) worldDoc [] =
      (.ok (js "[[World|Hello]]"), []) ∧
    convertLinks nameSettings sampleHost
        (some (js "@JournalEntry[abc123]\x7bHello\x7d")) worldDoc [] =
      (.ok (js "[[World|Hello]]"), []) ∧
    js "[[World|Hello]]" ≠ js "![[World|Hello]]" := by
  decide

/-- C10 (amended). For a reference whose type tag carries the leading `inline`
modifier and whose remaining type is known, the modifier is stripped before
the type is matched and has no other effect: the replacement computed by
`replaceOneLink` is the one computed for the reference without the modifier,
a link `[[...]]` without the prefix `!`, and `convertLinks` returns the same
outcome for a text with the embed as for the text with the plain reference. -/
theorem convertLinks_inline_same (s : Settings) (host : Host) (rel : Document)
    (type target : JsString) (hash label : Option JsString) (pre post : JsString) (zip : Zip)
    (hK : type ∈ host.DOCUMENT_LINK_TYPES ++ [js "Compendium", js "UUID"])
    (hI : startsWith (js "inline") type = false)
    (hw : wellFormedReference type target hash label = true)
    (hpre : 64 ∉ pre) (hpost : 64 ∉ post)
    (hp : label = none → matchLabel post = (none, post)) :
    replaceOneLink s host rel (referenceText (js "inline" ++ type) target hash label)
        (js "inline" ++ type) target hash label =
      replaceOneLink s host rel (referenceText type target hash label) type target hash label ∧
    (∃ body, replaceOneLink s host rel (referenceText (js "inline" ++ type) target hash label)
        (js "inline" ++ type) target hash label = js "[[" ++ body ++ js "]]") ∧
    convertLinks s host
        (some (pre ++ referenceText (js "inline" ++ type) target hash label ++ post)) rel zip =
      convertLinks s host (some (pre ++ referenceText type target hash label ++ post)) rel zip := by
  obtain ⟨h1, h2, h3, h4, h5, h6⟩ := wellFormedReference_iff type target hash label hw
  have hin : ∀ c ∈ js "inline" ++ type, isLetter c = true := by
    intro c hc
    rcases List.mem_append.1 hc with hc | hc
    · have hall : ∀ x ∈ js "inline", isLetter x = true := by decide
      exact hall c hc
    · exact h2 c hc
  have hne : js "inline" ++ type ≠ [] := by
    intro h
    exact h1 (List.append_eq_nil.1 h).2
  have e := replaceOneLink_inline s host rel (referenceText type target hash label)
    (referenceText (js "inline" ++ type) target hash label) type target hash label hK hI
  refine ⟨e, ?_, ?_⟩
  · rw [e]
    exact replaceOneLink_brackets s host rel _ type target hash label hK hI
  · unfold convertLinks
    simp only
    rw [replaceLinks_reference s host rel (js "inline" ++ type) target hash label pre post hne
      hin h3 h4 h5 h6 hp hpre hpost,
      replaceLinks_reference s host rel type target hash label pre post h1 h2 h3 h4 h5 h6 hp
      hpre hpost, e]

theorem convertLinks_inline_same_witness :
    replaceOneLink nameSettings sampleHost worldDoc
        (referenceText (js "inline" ++ js "JournalEntry") (js "abc123") none (some (js "Hello")))
        (js "inline" ++ js "JournalEntry") (js "abc123") none (some (js "Hello")) =
      js "[[World|Hello]]" :=
  ((convertLinks_inline_same nameSettings sampleHost worldDoc (js "JournalEntry") (js "abc123")
    none (some (js "Hello")) [] [] [] (by decide) (by decide) (by decide) (by decide)
    (by decide) (by intro h; cases h)).1).trans (by decide)

theorem matchLabel_of_head (rest : JsString) (h : rest.head? ≠ some 123) :
    matchLabel rest = (none, rest) := by
  cases rest with
  | nil => rfl
  | cons c cs =>
    have hc : c ≠ 123 := by
      intro e
      exact h (by rw [e]; rfl)
    unfold matchLabel
    split
    · rename_i r1 heq
      exact absurd (List.cons.inj heq).1 hc
    · rfl

/-- The first pass of `convertLinks` on a text that starts with a stretch
without `@` and a reference: the reference is replaced by what
`replaceOneLink` returns for its groups, and the pass goes on behind it. -/
theorem replaceLinks_reference_head (s : Settings) (host : Host) (rel : Document)
    (type target : JsString) (hash label : Option JsString) (pre rest : JsString)
    (hw : wellFormedReference type target hash label = true)
    (hp : label = none → matchLabel rest = (none, rest))
    (hpre : 64 ∉ pre) :
    replaceLinks s host rel 0 (pre ++ referenceText type target hash label ++ rest) =
      pre ++ replaceOneLink s host rel (referenceText type target hash label) type target
        hash label ++ replaceLinks s host rel 0 rest := by
  obtain ⟨hT, hTu, ht, htu, hh, hl⟩ := wellFormedReference_iff type target hash label hw
  have hm := matchLink_reference type target hash label rest hT hTu ht htu hh hl hp
  rw [List.append_assoc, replaceLinks_plain s host rel pre _ hpre]
  have hr := referenceText_eq type target hash label
  generalize referenceText type target hash label = R at hm hr ⊢
  generalize (type ++ 91 :: (target ++ (hashText hash ++ 93 :: labelText label))) = tl at hr
  subst hr
  rw [List.cons_append] at hm
  simp only [List.cons_append, replaceLinks, List.append_eq, hm, List.length_cons,
    Nat.add_sub_cancel]
  rw [replaceLinks_skip, List.append_assoc]

/-- The first pass of `convertLinks` replaces every reference of a text. -/
theorem replaceLinks_references (s : Settings) (host : Host) (rel : Document) :
    ∀ (rs : List Reference) (last : JsString), wellFormedReferences rs last = true →
      replaceLinks s host rel 0 (referencesText rs last) =
        referencesReplaced s host rel rs last := by
  intro rs
  induction rs with
  | nil =>
    intro last h
    simp only [wellFormedReferences, Bool.not_eq_true'] at h
    have h64 : 64 ∉ last := by
      intro hm
      have : last.contains 64 = true := by simpa using hm
      rw [h] at this
      cases this
    exact replaceLinks_plain_all s host rel last h64
  | cons r rs ih =>
    intro last h
    simp only [wellFormedReferences, Bool.and_eq_true, Bool.not_eq_true', Bool.or_eq_true,
      bne_iff_ne, ne_eq] at h
    obtain ⟨⟨⟨h1, h2⟩, h3⟩, h4⟩ := h
    have h64 : 64 ∉ r.before := by
      intro hm
      have : r.before.contains 64 = true := by simpa using hm
      rw [h1] at this
      cases this
    have hp : r.label = none → matchLabel (referencesText rs last) = (none, referencesText rs last) := by
      intro hn
      apply matchLabel_of_head
      rcases h3 with h3 | h3
      · rw [hn] at h3; cases h3
      · exact h3
    show replaceLinks s host rel 0 (r.before ++ r.text ++ referencesText rs last) = _
    unfold Reference.text
    rw [replaceLinks_reference_head s host rel r.type r.target r.hash r.label r.before _ h2 hp h64,
      ih last h4]
    rfl

/-- What `convertLinks` returns on a text made of well-formed references, when
the text with the references replaced holds no `!`: every reference is
replaced, and the archive is left as it is. -/
theorem convertLinks_references (s : Settings) (host : Host) (rel : Document)
    (rs : List Reference) (last : JsString) (zip : Zip)
    (hw : wellFormedReferences rs last = true)
    (hb : 33 ∉ referencesReplaced s host rel rs last) :
    convertLinks s host (some (referencesText rs last)) rel zip =
      (.ok (referencesReplaced s host rel rs last), zip) := by
  unfold convertLinks
  simp only
  rw [replaceLinks_references s host rel rs last hw]
  exact replaceFiles_plain _ zip hb

theorem referencesReplaced_eq (s : Settings) (host : Host) (rel : Document)
    (f : Reference → JsString) (last : JsString) :
    ∀ rs : List Reference,
      (∀ r ∈ rs, replaceOneLink s host rel r.text r.type r.target r.hash r.label = f r) →
      referencesReplaced s host rel rs last =
        rs.foldr (fun r rest => r.before ++ f r ++ rest) last := by
  intro rs
  induction rs with
  | nil => intro _; rfl
  | cons r rs ih =>
    intro h
    show r.before ++ replaceOneLink s host rel r.text r.type r.target r.hash r.label ++
      referencesReplaced s host rel rs last = _
    rw [h r (List.mem_cons_self _ _), ih (fun q hq => h q (List.mem_cons_of_mem _ hq))]
    rfl

theorem foldr_no_bang (f : Reference → JsString) (last : JsString) (h : 33 ∉ last) :
    ∀ rs : List Reference, (∀ r ∈ rs, 33 ∉ r.before ∧ 33 ∉ f r) →
      33 ∉ rs.foldr (fun r rest => r.before ++ f r ++ rest) last := by
  intro rs
  induction rs with
  | nil => intro _; exact h
  | cons r rs ih =>
    intro hr
    have h1 := hr r (List.mem_cons_self _ _)
    have h2 := ih (fun q hq => hr q (List.mem_cons_of_mem _ hq))
    simp only [List.foldr_cons, List.mem_append, not_or]
    exact ⟨⟨h1.1, h1.2⟩, h2⟩

theorem formatLink_not_truthy (link : JsString) (label : Option JsString)
    (h : truthy label = false) : formatLink link label false = formatLink link none false := by
  unfold formatLink
  rw [h]
  simp [truthy]


set_option maxRecDepth 100000 in
/-- C8 (as stated, refuted). The reference `@JournalEntry[abc123]\x7b![](a.png)\x7d`
resolves to the document named `World`, and its label is `![](a.png)`; the
second pass of `convertLinks`, over the file references, rewrites the label
inside the link: the result is `[[World|![[a.png]]]]`, not
`[[World|![](a.png)]]`, and the asset `a.png` is scheduled. -/
theorem convertLinks_label_rewritten :
    replaceOneLink nameSettings sampleHost worldDoc (js "@JournalEntry[abc123]\x7b![](a.png)\x7d")
        (js "JournalEntry") (js "abc123") none (some (js "![](a.png)")) =
      js "[[World|![](a.png)]]" ∧
    convertLinks nameSettings sampleHost (some (js "@JournalEntry[abc123]\x7b![](a.png)\x7d"))
        worldDoc [] =
      (.ok (js "[[World|![[a.png]]]]"), [(js "zz_asset-files/a.png", .asset (js "a.png"))]) := by
  decide

/-- C8 (amended). In a text made of references `@T[t]\x7bL\x7d` and of
stretches without `@`, where every type `T` is a known document-link type and
every identity `T.t` resolves synchronously to a document that is not the sole
page of a journal, and where no `!` occurs in the stretches, the labels and
the note filenames, `convertLinks` replaces every reference by `[[f|L]]` (by
`[[f]]` when `L` equals `f`), leaves the stretches as they are and leaves the
archive as it is. Here `f` is the note filename of the document: in name-based
naming its sanitized name, the name with every one of the code units
`<>:"/\|?*` replaced by `_`. -/
theorem convertLinks_resolved_references (s : Settings) (host : Host) (rel : Document)
    (found : Reference → LinkDoc) (rs : List Reference) (last : JsString) (zip : Zip)
    (hw : wellFormedReferences rs last = true)
    (hr : ∀ r ∈ rs, r.type ∈ host.DOCUMENT_LINK_TYPES ∧ r.type ≠ js "UUID" ∧
      startsWith (js "inline") r.type = false ∧ r.hash = none ∧ truthy r.label = true ∧
      host.fromUuidSync (r.type ++ js "." ++ r.target) rel = .found (found r) ∧
      ∀ parent size, (found r).page = some (parent, size) → size ≠ 1)
    (hb : 33 ∉ last ∧ ∀ r ∈ rs, 33 ∉ r.before ∧ 33 ∉ docfilename s (found r).doc ∧
      33 ∉ toStr r.label) :
    (∀ r ∈ rs,
      notefilename s (found r).doc (found r).page = docfilename s (found r).doc ∧
      (s.use_uuid_for_notename = false → (found r).doc.collectionTitle = none →
        docfilename s (found r).doc = validFilename (found r).doc.name) ∧
      replaceOneLink s host rel r.text r.type r.target r.hash r.label =
        (if toStr r.label = docfilename s (found r).doc then
          js "[[" ++ docfilename s (found r).doc ++ js "]]"
         else js "[[" ++ docfilename s (found r).doc ++ js "|" ++ toStr r.label ++ js "]]")) ∧
    (∀ name : JsString, validFilename name =
      name.map fun c => if c ∈ js "<>:\"/\\|?*" then 95 else c) ∧
    convertLinks s host (some (referencesText rs last)) rel zip =
      (.ok (rs.foldr (fun r rest => r.before ++
        (if toStr r.label = docfilename s (found r).doc then
          js "[[" ++ docfilename s (found r).doc ++ js "]]"
         else js "[[" ++ docfilename s (found r).doc ++ js "|" ++ toStr r.label ++ js "]]") ++
        rest) last), zip) := by
  have hone : ∀ r ∈ rs, replaceOneLink s host rel r.text r.type r.target r.hash r.label =
      (if toStr r.label = docfilename s (found r).doc then
        js "[[" ++ docfilename s (found r).doc ++ js "]]"
       else js "[[" ++ docfilename s (found r).doc ++ js "|" ++ toStr r.label ++ js "]]") ∧
      replaceOneLink s host rel r.text r.type r.target r.hash r.label =
        formatLink (docfilename s (found r).doc) r.label false := by
    intro r hm
    obtain ⟨hK, hU, hI, hH, hL, hR, hP⟩ := hr r hm
    have hnf := notefilename_of_not_sole s (found r) hP
    have hKK : r.type ∈ host.DOCUMENT_LINK_TYPES ++ [js "Compendium", js "UUID"] :=
      List.mem_append_left _ hK
    obtain ⟨l, hl⟩ : ∃ l, r.label = some l := by
      cases hlab : r.label with
      | none => rw [hlab] at hL; cases hL
      | some l => exact ⟨l, rfl⟩
    have hl0 : l ≠ [] := by
      intro h0
      rw [hl, h0] at hL
      cases hL
    have e : replaceOneLink s host rel r.text r.type r.target r.hash r.label =
        formatLink (docfilename s (found r).doc) r.label false := by
      rw [replaceOneLink_known s host rel r.text r.type r.target r.hash r.label hKK hI]
      simp only [hU, ne_eq, not_false_eq_true, if_true, hR, hL, hnf, hH]
      simp [truthy]
    refine ⟨?_, e⟩
    rw [e, hl, formatLink_label _ _ hl0]
    rfl
  refine ⟨?_, ?_, ?_⟩
  · intro r hm
    obtain ⟨hK, hU, hI, hH, hL, hR, hP⟩ := hr r hm
    refine ⟨notefilename_of_not_sole s (found r) hP, ?_, (hone r hm).1⟩
    intro hn hc
    simp [docfilename, hn, hc]
  · intro name
    unfold validFilename
    apply List.map_congr_left
    intro c _
    have e : js "<>:\"/\\|?*" = [60, 62, 58, 34, 47, 92, 124, 63, 42] := by decide
    rw [e]
    by_cases hc : invalidFilenameUnit c = true
    · have : c ∈ [60, 62, 58, 34, 47, 92, 124, 63, 42] := by
        simp only [invalidFilenameUnit, Bool.or_eq_true, decide_eq_true_eq] at hc
        simp only [List.mem_cons, List.mem_singleton, List.not_mem_nil, or_false]
        tauto
      simp [hc, this]
    · have : c ∉ [60, 62, 58, 34, 47, 92, 124, 63, 42] := by
        simp only [invalidFilenameUnit, Bool.or_eq_true, decide_eq_true_eq] at hc
        simp only [List.mem_cons, List.mem_singleton, List.not_mem_nil, or_false]
        tauto
      simp [hc, this]
  · have heq := referencesReplaced_eq s host rel
      (fun r => if toStr r.label = docfilename s (found r).doc then
        js "[[" ++ docfilename s (found r).doc ++ js "]]"
       else js "[[" ++ docfilename s (found r).doc ++ js "|" ++ toStr r.label ++ js "]]")
      last rs (fun r hm => (hone r hm).1)
    rw [← heq]
    apply convertLinks_references s host rel rs last zip hw
    rw [heq]
    apply foldr_no_bang _ last hb.1
    intro r hm
    obtain ⟨b1, b2, b3⟩ := hb.2 r hm
    refine ⟨b1, ?_⟩
    show 33 ∉ (if toStr r.label = docfilename s (found r).doc then
        js "[[" ++ docfilename s (found r).doc ++ js "]]"
       else js "[[" ++ docfilename s (found r).doc ++ js "|" ++ toStr r.label ++ js "]]")
    rw [← (hone r hm).1, (hone r hm).2]
    apply formatLink_no_bang _ _ b2
    intro l hl
    rw [hl] at b3
    exact b3

set_option maxRecDepth 100000 in
/-- C8 (amended), at a text with two references, the second to a document
whose name holds code units that are replaced in its file name. -/
theorem convertLinks_resolved_references_witness :
    referencesText helloBob (js ".") =
      js "see @JournalEntry[abc123]\x7bHello\x7d and @Actor[x1]\x7bBob\x7d." ∧
    validFilename (js "A/B: \"C\"?<>\\|*") = js "A_B_ _C_______" ∧
    convertLinks nameSettings sampleHost (some (referencesText helloBob (js "."))) worldDoc [] =
      (.ok (js "see [[World|Hello]] and [[A_B_ _C__|Bob]]."), []) :=
  ⟨by decide, by decide,
    ((convertLinks_resolved_references nameSettings sampleHost worldDoc
      (fun r => if r.type = js "Actor" then ⟨slashDoc, none, []⟩ else ⟨worldDoc, none, []⟩)
      helloBob (js ".") [] (by decide)
      (by
        intro r hm
        simp only [helloBob, List.mem_cons, List.mem_singleton, List.not_mem_nil, or_false] at hm
        rcases hm with rfl | rfl
        · exact ⟨by decide, by decide, by decide, rfl, by decide, rfl, by intro p n h; cases h⟩
        · exact ⟨by decide, by decide, by decide, rfl, by decide, rfl, by intro p n h; cases h⟩)
      (by
        refine ⟨by decide, ?_⟩
        intro r hm
        simp only [helloBob, List.mem_cons, List.mem_singleton, List.not_mem_nil, or_false] at hm
        rcases hm with rfl | rfl
        · exact ⟨by decide, by decide, by decide⟩
        · exact ⟨by decide, by decide, by decide⟩)).2.2).trans (by decide)⟩


set_option maxRecDepth 100000 in
/-- C11 (as stated, refuted). The page `Intro` has one heading, with the slug
`the-start`. A reference with the anchor `no-such-heading` is replaced by the
link to the page alone: no `#` suffix is appended, and the raw anchor does not
appear. A reference with the anchor `constructor`, a property that the table
of contents inherits, gets the suffix `#undefined`. -/
theorem convertLinks_anchor_dropped :
    introPage.toc.lookup (js "no-such-heading") = none ∧
    convertLinks nameSettings sampleHost
        (some (js "@UUID[JournalEntry.j1.JournalEntryPage.p1#no-such-heading]")) worldDoc [] =
      (.ok (js "[[Intro]]"), []) ∧
    convertLinks nameSettings sampleHost
        (some (js "@UUID[JournalEntry.j1.JournalEntryPage.p1#constructor]")) worldDoc [] =
      (.ok (js "[[Intro#undefined]]"), []) ∧
    convertLinks nameSettings sampleHost
        (some (js "@UUID[JournalEntry.j1.JournalEntryPage.p1#the-start]")) worldDoc [] =
      (.ok (js "[[Intro#The Start|The Start]]"), []) := by
  decide

/-- C11 (amended). In a text made of references with a section anchor `h` and
of stretches without `@`, where every reference is of a known type and
resolves to a journal page, `convertLinks` replaces every reference by the
link that `replaceOneLink` returns for it and leaves the archive as it is,
provided the result holds no `!`. That link is: when the table of contents of
the page has an entry for `h`, the note filename followed by `#` and the
heading text of the entry (which is also the label when the reference has
none); when it has none and `h` is the name of a property that a plain object
inherits (such as `constructor`), the note filename followed by `#undefined`;
otherwise the note filename alone: the raw anchor is never appended. -/
theorem convertLinks_anchors (s : Settings) (host : Host) (rel : Document)
    (found : Reference → LinkDoc) (rs : List Reference) (last : JsString) (zip : Zip)
    (hw : wellFormedReferences rs last = true)
    (hr : ∀ r ∈ rs, r.type ∈ host.DOCUMENT_LINK_TYPES ++ [js "Compendium", js "UUID"] ∧
      startsWith (js "inline") r.type = false ∧ truthy r.hash = true ∧
      host.fromUuidSync (canonicalTarget r.type r.target) rel = .found (found r) ∧
      (found r).page.isSome = true)
    (hb : 33 ∉ referencesReplaced s host rel rs last) :
    (∀ r ∈ rs,
      (∀ text, (found r).toc.lookup (toStr r.hash) = some text →
        replaceOneLink s host rel r.text r.type r.target r.hash r.label =
          formatLink (notefilename s (found r).doc (found r).page ++ js "#" ++ text)
            (if truthy r.label then r.label else some text) false) ∧
      ((found r).toc.lookup (toStr r.hash) = none → toStr r.hash ∈ objectPrototypeKeys →
        replaceOneLink s host rel r.text r.type r.target r.hash r.label =
          formatLink (notefilename s (found r).doc (found r).page ++ js "#undefined")
            r.label false) ∧
      ((found r).toc.lookup (toStr r.hash) = none → toStr r.hash ∉ objectPrototypeKeys →
        replaceOneLink s host rel r.text r.type r.target r.hash r.label =
          formatLink (notefilename s (found r).doc (found r).page) r.label false)) ∧
    convertLinks s host (some (referencesText rs last)) rel zip =
      (.ok (referencesReplaced s host rel rs last), zip) := by
  refine ⟨?_, convertLinks_references s host rel rs last zip hw hb⟩
  intro r hm
  obtain ⟨hK, hI, hH, hR, hP⟩ := hr r hm
  have hc : (if r.type ≠ js "UUID" then r.type ++ js "." ++ r.target else r.target) =
      canonicalTarget r.type r.target := rfl
  have hund : toStr (none : Option JsString) = js "undefined" := rfl
  refine ⟨?_, ?_, ?_⟩
  · intro text htoc
    rw [replaceOneLink_known s host rel r.text r.type r.target r.hash r.label hK hI, hc, hR]
    simp only [hH, hP, and_self, if_true, tocLookup, htoc, not_true_eq_false, and_false,
      if_false]
    by_cases hl : truthy r.label = true <;> simp [hl, toStr]
  · intro htoc hk
    rw [replaceOneLink_known s host rel r.text r.type r.target r.hash r.label hK hI, hc, hR]
    simp only [hH, hP, and_self, if_true, tocLookup, htoc, hk, not_true_eq_false, and_false,
      if_false, hund]
    have e : ∀ x : JsString, x ++ js "#" ++ js "undefined" = x ++ js "#undefined" := by
      intro x
      rw [List.append_assoc]
      rfl
    rw [e]
    by_cases hl : truthy r.label = true
    · simp [hl]
    · have hl2 : truthy r.label = false := by simpa using hl
      simp only [hl2, Bool.false_eq_true, not_false_eq_true, if_true]
      rw [formatLink_not_truthy _ r.label hl2]
  · intro htoc hk
    rw [replaceOneLink_known s host rel r.text r.type r.target r.hash r.label hK hI, hc, hR]
    simp only [hH, hP, and_self, if_true, tocLookup, htoc, hk, not_true_eq_false, and_false,
      if_false]

set_option maxRecDepth 100000 in
/-- C11 (amended), at a text with three references to the page `Intro`. -/
theorem convertLinks_anchors_witness :
    referencesText introAnchors (js ".") =
      js "a @UUID[JournalEntry.j1.JournalEntryPage.p1#the-start] b @UUID[JournalEntry.j1.JournalEntryPage.p1#no-such-heading]\x7bN\x7d c @UUID[JournalEntry.j1.JournalEntryPage.p1#constructor]." ∧
    convertLinks nameSettings sampleHost (some (referencesText introAnchors (js "."))) worldDoc
        [] =
      (.ok (js "a [[Intro#The Start|The Start]] b [[Intro|N]] c [[Intro#undefined]]."), []) :=
  ⟨by decide,
    ((convertLinks_anchors nameSettings sampleHost worldDoc (fun _ => introPage) introAnchors
      (js ".") [] (by decide)
      (by
        intro r hm
        simp only [introAnchors, List.mem_cons, List.mem_singleton, List.not_mem_nil,
          or_false] at hm
        rcases hm with rfl | rfl | rfl
        · exact ⟨by decide, by decide, by decide, rfl, rfl⟩
        · exact ⟨by decide, by decide, by decide, rfl, rfl⟩
        · exact ⟨by decide, by decide, by decide, rfl, rfl⟩)
      (by decide)).2).trans (by decide)⟩

/-! ### Runs that only add writes -/

theorem Run.framed_pure {α : Type} (a : α) : Run.Framed (pure a : Run α) := by
  intro zip
  simp [Run.pure_apply]

theorem Run.framed_throw {α : Type} (e : JsError) : Run.Framed (Run.throw e : Run α) := by
  intro zip
  simp [Run.throw]

theorem Run.framed_bind {α β : Type} (m : Run α) (f : α → Run β) (hm : Run.Framed m)
    (hf : ∀ a, Run.Framed (f a)) : Run.Framed (m >>= f) := by
  intro zip
  rw [Run.bind_apply, Run.bind_apply, hm zip]
  cases h : (m []).1 with
  | ok a =>
    have e : m [] = (.ok a, (m []).2) := by rw [← h]
    rw [e]
    simp only
    rw [hf a (zip ++ (m []).2), hf a (m []).2, List.append_assoc]
  | throws e =>
    have e' : m [] = (.throws e, (m []).2) := by rw [← h]
    rw [e']
  | hangs =>
    have e' : m [] = (.hangs, (m []).2) := by rw [← h]
    rw [e']

theorem fileconvert_framed (filename : JsString) (label : Option JsString) (inline : Bool) :
    Run.Framed (fileconvert filename label inline) := by
  intro zip
  unfold fileconvert
  cases decodeURIComponent filename with
  | none => simp
  | some d => simp [Zip.file]

theorem putFile_framed (dir name : JsString) (data : FileData) :
    Run.Framed (putFile dir name data) := by
  intro zip
  simp [putFile, Zip.file]

theorem replaceLinkedFile_framed (str filename : JsString) :
    Run.Framed (replaceLinkedFile str filename) := by
  unfold replaceLinkedFile
  split
  · exact Run.framed_pure _
  · exact fileconvert_framed _ _ _

theorem replaceFiles_framed : ∀ (t : JsString) (skip : Nat), Run.Framed (replaceFiles skip t) := by
  intro t
  induction t with
  | nil =>
    intro skip
    cases skip <;> exact Run.framed_pure _
  | cons c cs ih =>
    intro skip
    cases skip with
    | succ k => exact ih k
    | zero =>
      unfold replaceFiles
      split
      · exact Run.framed_bind _ _ (replaceLinkedFile_framed _ _)
          (fun link => Run.framed_bind _ _ (ih _) (fun rest => Run.framed_pure _))
      · exact Run.framed_bind _ _ (ih _) (fun rest => Run.framed_pure _)

theorem convertLinks_framed (s : Settings) (host : Host) (markdown : Option JsString)
    (rel : Document) : Run.Framed (convertLinks s host markdown rel) := by
  unfold convertLinks
  cases markdown with
  | none => exact Run.framed_throw _
  | some md => exact replaceFiles_framed _ _

/-- A run that never fails to return. -/
theorem fileconvert_returns (filename : JsString) (label : Option JsString) (inline : Bool)
    (zip : Zip) : (fileconvert filename label inline zip).1 ≠ .hangs := by
  unfold fileconvert
  cases decodeURIComponent filename <;> simp

theorem replaceFiles_returns : ∀ (t : JsString) (skip : Nat) (zip : Zip),
    (replaceFiles skip t zip).1 ≠ .hangs := by
  intro t
  induction t with
  | nil =>
    intro skip zip
    cases skip <;> simp [replaceFiles, Run.pure_apply]
  | cons c cs ih =>
    intro skip zip
    cases skip with
    | succ k => exact ih k zip
    | zero =>
      unfold replaceFiles
      cases hm : matchFile (c :: cs) with
      | some p =>
        obtain ⟨str, filename⟩ := p
        simp only [Run.bind_apply]
        have h1 : (replaceLinkedFile str filename zip).1 ≠ .hangs := by
          unfold replaceLinkedFile
          split
          · simp [Run.pure_apply]
          · exact fileconvert_returns _ _ _ _
        rcases hr : replaceLinkedFile str filename zip with ⟨o, z1⟩
        rw [hr] at h1
        cases o with
        | ok link =>
          simp only
          have h2 := ih (str.length - 1) z1
          rcases hr2 : replaceFiles (str.length - 1) cs z1 with ⟨o2, z2⟩
          rw [hr2] at h2
          cases o2 with
          | ok rest => simp [Run.pure_apply]
          | throws e => simp
          | hangs => exact absurd rfl h2
        | throws e => simp
        | hangs => exact absurd rfl h1
      | none =>
        simp only [Run.bind_apply]
        have h2 := ih 0 zip
        rcases hr2 : replaceFiles 0 cs zip with ⟨o2, z2⟩
        rw [hr2] at h2
        cases o2 with
        | ok rest => simp [Run.pure_apply]
        | throws e => simp
        | hangs => exact absurd rfl h2

theorem convertLinks_returns (s : Settings) (host : Host) (markdown : Option JsString)
    (rel : Document) (zip : Zip) : (convertLinks s host markdown rel zip).1 ≠ .hangs := by
  unfold convertLinks
  cases markdown with
  | none => simp [Run.throw]
  | some md => exact replaceFiles_returns _ _ _

/-! ### File references -/

/-- C12 (the code at the failing input). The image reference
`![](https://example.com/a.png)` is not left as it is: `replaceLinkedFile`
hands the URL to `fileconvert`, which schedules an asset for it and returns an
embed link; so does every path that starts with `http://` or `https://`. Only
a path that starts with `data:image` or with `:` is left unchanged. -/
theorem replaceLinkedFile_remote_url :
    convertLinks nameSettings sampleHost (some (js "![](https://example.com/a.png)")) worldDoc
        [] =
      (.ok (js "![[https:--example.com-a.png]]"),
        [(js "zz_asset-files/https:--example.com-a.png",
          .asset (js "https://example.com/a.png"))]) ∧
    (∀ str rest, replaceLinkedFile str (js "http://" ++ rest) =
      fileconvert (js "http://" ++ rest) none true) ∧
    (∀ str rest, replaceLinkedFile str (js "https://" ++ rest) =
      fileconvert (js "https://" ++ rest) none true) ∧
    (∀ str rest, replaceLinkedFile str (js "data:image" ++ rest) = pure str) ∧
    convertLinks nameSettings sampleHost (some (js "![](data:image/png;base64,AAAA)")) worldDoc
        [] =
      (.ok (js "![](data:image/png;base64,AAAA)"), []) := by
  have h1 : js "http://" = [104, 116, 116, 112, 58, 47, 47] := by decide
  have h2 : js "https://" = [104, 116, 116, 112, 115, 58, 47, 47] := by decide
  have h3 : js "data:image" = [100, 97, 116, 97, 58, 105, 109, 97, 103, 101] := by decide
  have h4 : js ":" = [58] := by decide
  refine ⟨by decide, ?_, ?_, ?_, by decide⟩
  · intro str rest
    unfold replaceLinkedFile
    rw [h1, h3, h4]
    simp [startsWith, List.isPrefixOf]
  · intro str rest
    unfold replaceLinkedFile
    rw [h2, h3, h4]
    simp [startsWith, List.isPrefixOf]
  · intro str rest
    unfold replaceLinkedFile
    rw [h3]
    simp [startsWith, List.isPrefixOf]

/-! ### Roll tables -/

theorem unescapedPipe_escaped (r : JsString) :
    ∀ prev, unescapedPipe prev (replaceAllUnit 124 (js "\\|") r) = false := by
  have h : js "\\|" = [92, 124] := by decide
  rw [h]
  unfold replaceAllUnit
  simp only [List.flatMap]
  induction r with
  | nil => intro prev; rfl
  | cons c cs ih =>
    intro prev
    by_cases hc : c = 124
    · subst hc
      simp only [List.map_cons, List.flatten_cons, if_true, List.cons_append, List.append_eq, List.nil_append,
        unescapedPipe]
      rw [ih (some 124)]
      simp
    · simp only [List.map_cons, List.flatten_cons, hc, if_false, List.cons_append, List.append_eq,
        List.nil_append, unescapedPipe]
      rw [ih (some c)]
      simp [hc]

theorem convertLinks_rewritten (s : Settings) (host : Host) (rel : Document)
    (text t : JsString) (zip : Zip)
    (h : (convertLinks s host (some text) rel []).1 = .ok t) :
    convertLinks s host (some text) rel zip =
      (.ok (rewrittenText s host rel text),
        zip ++ (convertLinks s host (some text) rel []).2) := by
  rw [convertLinks_framed s host (some text) rel zip]
  unfold rewrittenText
  rw [h]

theorem rollTableRows_eq (s : Settings) (host : Host) (table : RollTable) :
    ∀ (results : List TableResult) (markdown : JsString) (zip : Zip),
    (∀ r ∈ results, ∃ t, (convertLinks s host (some r.chatText) table.doc []).1 = .ok t) →
    ∃ assets, rollTableRows s host table results markdown zip =
      (.ok (markdown ++ results.flatMap fun r =>
        tableRow r.range.1 r.range.2 (rewrittenText s host table.doc r.chatText)),
       zip ++ assets) := by
  intro results
  induction results with
  | nil =>
    intro markdown zip _
    exact ⟨[], by simp [rollTableRows, Run.pure_apply]⟩
  | cons r rest ih =>
    intro markdown zip h
    obtain ⟨t, ht⟩ := h r (List.mem_cons_self _ _)
    have hc := convertLinks_rewritten s host table.doc r.chatText t zip ht
    obtain ⟨assets, ha⟩ := ih
      (markdown ++ js "| " ++
        (if r.range.1 = r.range.2 then numberToString r.range.1
         else numberToString r.range.1 ++ js "-" ++ numberToString r.range.2) ++
        js " | " ++ replaceAllUnit 124 (js "\\|") (rewrittenText s host table.doc r.chatText) ++
        js " |\n")
      (zip ++ (convertLinks s host (some r.chatText) table.doc []).2)
      (fun r' hr' => h r' (List.mem_cons_of_mem _ hr'))
    refine ⟨(convertLinks s host (some r.chatText) table.doc []).2 ++ assets, ?_⟩
    unfold rollTableRows
    simp only [Run.bind_apply, hc, ha]
    simp [tableRow, List.append_assoc]

/-- C13. For a roll table all of whose result texts `convertLinks` rewrites,
`oneRollTable` returns after writing, as its last write, the file of the table,
whose text is the head of the table followed by one line `| R | r' |` per
result, in order: `R` is `lo` when `lo = hi` and `lo-hi` otherwise, and `r'`
is the rewritten text `r` with every `|` replaced by `\|`, so that no `|` of
the cell lacks a backslash right before it. -/
theorem oneRollTable_rows (s : Settings) (host : Host) (path : JsString) (table : RollTable)
    (sort : Nat) (zip : Zip)
    (h : ∀ r ∈ table.results,
      ∃ t, (convertLinks s host (some r.chatText) table.doc []).1 = .ok t) :
    (∃ assets, oneRollTable s host path table sort zip =
      (.ok (), zip ++ assets ++
        [(entryPath path (zipfilename s table.doc),
          .text (tableHead table sort ++ table.results.flatMap fun r =>
            tableRow r.range.1 r.range.2 (rewrittenText s host table.doc r.chatText)))])) ∧
    (∀ lo hi r, tableRow lo hi r =
      js "| " ++ (if lo = hi then numberToString lo
        else numberToString lo ++ js "-" ++ numberToString hi) ++
      js " | " ++ replaceAllUnit 124 (js "\\|") r ++ js " |\n") ∧
    (∀ r, replaceAllUnit 124 (js "\\|") r = r.flatMap fun c => if c = 124 then [92, 124] else [c]) ∧
    (∀ r prev, unescapedPipe prev (replaceAllUnit 124 (js "\\|") r) = false) ∧
    tableRow 3 3 (js "x") = js "| 3 | x |\n" ∧
    tableRow 1 5 (js "a|b") = js "| 1-5 | a\\|b |\n" := by
  refine ⟨?_, fun _ _ _ => rfl, ?_, fun r prev => unescapedPipe_escaped r prev, by decide,
    by decide⟩
  · obtain ⟨assets, ha⟩ := rollTableRows_eq s host table table.results (tableHead table sort) zip h
    refine ⟨assets, ?_⟩
    unfold oneRollTable
    simp only [Run.bind_apply]
    have e : (if truthy table.description = true then
          frontmatter table.doc sort true false ++ toStr table.description ++ js "\n\n"
        else frontmatter table.doc sort true false) ++
        js "| " ++ (if truthy table.formula = true then toStr table.formula else js "Roll") ++
        js " | result |\n" ++ js "|------|--------|\n" = tableHead table sort := rfl
    rw [e, ha]
    simp [putFile, Zip.file]
  · intro r
    have h : js "\\|" = [92, 124] := by decide
    rw [h]
    rfl

theorem oneRollTable_rows_witness :
    ∃ assets, oneRollTable nameSettings sampleHost (js "F") sampleTable 1011 [] =
      (.ok (), [] ++ assets ++
        [(entryPath (js "F") (zipfilename nameSettings sampleTable.doc),
          .text (tableHead sampleTable 1011 ++ sampleTable.results.flatMap fun r =>
            tableRow r.range.1 r.range.2
              (rewrittenText nameSettings sampleHost sampleTable.doc r.chatText)))]) :=
  (oneRollTable_rows nameSettings sampleHost (js "F") sampleTable 1011 []
    (by
      intro r hr
      simp only [sampleTable, List.mem_cons, List.mem_singleton, List.not_mem_nil, or_false] at hr
      rcases hr with rfl | rfl <;> exact ⟨_, rfl⟩)).1

/-! ### Generic documents -/

/-- The function `convertHtml` always returns: what is thrown inside it is caught. -/
theorem convertHtml_ok (s : Settings) (host : Host) (doc : Document) (html : Option JsString)
    (zip : Zip) :
    convertHtml s host doc html zip =
      (.ok (htmlText s host doc html), zip ++ (convertHtml s host doc html []).2) := by
  have hf := convertLinks_framed s host html doc zip
  have hr := convertLinks_returns s host html doc []
  have key : ∀ z, convertHtml s host doc html z =
      ((convertHtml s host doc html []).1, z ++ (convertHtml s host doc html []).2) ∧
      ∃ o, (convertHtml s host doc html []).1 = .ok o := by
    intro z
    unfold convertHtml
    rw [convertLinks_framed s host html doc z]
    rcases hc : convertLinks s host html doc [] with ⟨o, w⟩
    rw [hc] at hr
    cases o with
    | hangs => exact absurd rfl hr
    | throws e => simp
    | ok linked =>
      simp only
      cases host.turndown linked with
      | none => simp
      | some turned =>
        simp only
        rw [replaceFiles_framed _ 0 (z ++ w), replaceFiles_framed _ 0 w]
        have hr2 := replaceFiles_returns
          (replaceAllStr (js "\\]\\]") (js "]]") 0 (replaceAllStr (js "\\[\\[") (js "[[") 0 turned))
          0 []
        rcases hc2 : replaceFiles 0
          (replaceAllStr (js "\\]\\]") (js "]]") 0 (replaceAllStr (js "\\[\\[") (js "[[") 0 turned))
          [] with ⟨o2, w2⟩
        rw [hc2] at hr2
        cases o2 with
        | hangs => exact absurd rfl hr2
        | throws e => simp [List.append_assoc]
        | ok t => simp [List.append_assoc]
  obtain ⟨h1, o, h2⟩ := key zip
  rw [h1]
  unfold htmlText
  rw [h2]

theorem descriptionFields_eq (s : Settings) (host : Host) (g : GenericDoc) :
    ∀ (fields : List JsString) (markdown : JsString) (zip : Zip),
    ∃ assets, descriptionFields s host g fields markdown zip =
      (.ok (markdown ++ fields.flatMap fun field =>
        if truthy (g.getProperty field) then
          toStr (htmlText s host g.doc (g.getProperty field)) ++ EOL ++ EOL
        else []),
       zip ++ assets) := by
  intro fields
  induction fields with
  | nil =>
    intro markdown zip
    exact ⟨[], by simp [descriptionFields, Run.pure_apply]⟩
  | cons field rest ih =>
    intro markdown zip
    unfold descriptionFields
    by_cases ht : truthy (g.getProperty field) = true
    · obtain ⟨assets, ha⟩ := ih
        (markdown ++ toStr (htmlText s host g.doc (g.getProperty field)) ++ EOL ++ EOL)
        (zip ++ (convertHtml s host g.doc (g.getProperty field) []).2)
      refine ⟨(convertHtml s host g.doc (g.getProperty field) []).2 ++ assets, ?_⟩
      simp only [ht, if_true, Run.bind_apply, convertHtml_ok s host g.doc _ zip, ha]
      simp [ht, List.append_assoc]
    · obtain ⟨assets, ha⟩ := ih markdown zip
      refine ⟨assets, ?_⟩
      simp only [ht, Bool.false_eq_true, if_false]
      rw [ha]
      simp [ht]

set_option maxRecDepth 100000 in
/-- C14 (as stated, refuted). For an actor whose biography and description
are both non-empty, `documentToJSON` appends the converted text of both
fields to the body, not of the first alone. -/
theorem documentToJSON_two_descriptions :
    sampleActor.getProperty (js "system.details.biography.value") = some (js "Bio") ∧
    sampleActor.getProperty (js "system.description.value") = some (js "Desc") ∧
    documentToJSON nameSettings sampleHost (js "F") sampleActor 1011 [] =
      (.ok (), [(js "F/Bob.md",
        .text (js "---\ntitle: \"Bob\"\nicon: \":user:\"\naliases: \"Bob\"\nfoundryId: Actor.b\nsortOrder: \"0000001011\"\ntags:\n  - Actor\n---\n\n# Bob\nBio\n\nDesc\n\n\x60\x60\x60Actor\nname: Bob\n\x60\x60\x60\n"))]) := by
  refine ⟨rfl, rfl, ?_⟩
  decide

/-- C14 (amended). The loop of `documentToJSON` over the known description
paths, taken in their fixed order (`system.details.biography.value`,
`system.details.publicNotes`, `system.description.value`), appends to the body
the converted text of every non-empty field, each followed by two line ends;
an empty field adds nothing. -/
theorem documentToJSON_descriptions (s : Settings) (host : Host) (g : GenericDoc)
    (markdown : JsString) (zip : Zip) :
    DESCRIPTIONS = [js "system.details.biography.value", js "system.details.publicNotes",
      js "system.description.value"] ∧
    ∃ assets, descriptionFields s host g DESCRIPTIONS markdown zip =
      (.ok (markdown ++
        (if truthy (g.getProperty (js "system.details.biography.value")) then
          toStr (htmlText s host g.doc (g.getProperty (js "system.details.biography.value")))
            ++ EOL ++ EOL
         else []) ++
        (if truthy (g.getProperty (js "system.details.publicNotes")) then
          toStr (htmlText s host g.doc (g.getProperty (js "system.details.publicNotes")))
            ++ EOL ++ EOL
         else []) ++
        (if truthy (g.getProperty (js "system.description.value")) then
          toStr (htmlText s host g.doc (g.getProperty (js "system.description.value")))
            ++ EOL ++ EOL
         else [])),
       zip ++ assets) := by
  refine ⟨rfl, ?_⟩
  obtain ⟨assets, ha⟩ := descriptionFields_eq s host g DESCRIPTIONS markdown zip
  refine ⟨assets, ?_⟩
  rw [ha]
  simp [DESCRIPTIONS, List.append_assoc]

theorem fileconvert_outcome (filename : JsString) (label : Option JsString) (inline : Bool)
    (zip : Zip) :
    (∃ link z, fileconvert filename label inline zip = (.ok link, z)) ∨
    (fileconvert filename label inline zip = (.throws .URIError, zip)) := by
  unfold fileconvert
  cases decodeURIComponent filename with
  | none => exact Or.inr rfl
  | some d => exact Or.inl ⟨_, _, rfl⟩

/-- C15 (the code on the claim's inputs). When the dump-format setting is
neither `YAML` nor `JSON`, `documentToJSON` does not return: `datastring`
stays `undefined`, `convertLinks` throws a `TypeError` on it (unless
`fileconvert` has thrown before on the image), and the call that writes the
file of the document is never reached; for the sample actor the archive is
left empty. -/
theorem documentToJSON_unknown_dump (s : Settings) (host : Host) (path : JsString)
    (g : GenericDoc) (sort : Nat) (zip : Zip)
    (h1 : s.dumpoption ≠ js "YAML") (h2 : s.dumpoption ≠ js "JSON") :
    ((documentToJSON s host path g sort zip).1 = .throws .TypeError ∨
      (documentToJSON s host path g sort zip).1 = .throws .URIError) ∧
    documentToJSON ⟨false, false, js "XML"⟩ sampleHost (js "F") sampleActor 1011 [] =
      (.throws .TypeError, []) := by
  constructor
  · unfold documentToJSON
    simp only [h1, h2, if_false, Run.bind_apply]
    by_cases hi : truthy g.img = true
    · simp only [hi, if_true, Run.bind_apply]
      rcases fileconvert_outcome (toStr g.img) (some IMG_SIZE) true zip with ⟨link, z, hf⟩ | hf
      · rw [hf]
        simp only [Run.pure_apply]
        obtain ⟨assets, ha⟩ := descriptionFields_eq s host g DESCRIPTIONS
          (frontmatter g.doc sort true false ++ link ++ EOL ++ EOL) z
        rw [ha]
        left
        rfl
      · rw [hf]
        right
        rfl
    · simp only [hi, Bool.false_eq_true, if_false, Run.pure_apply]
      obtain ⟨assets, ha⟩ := descriptionFields_eq s host g DESCRIPTIONS
        (frontmatter g.doc sort true false) zip
      rw [ha]
      left
      rfl
  · decide

theorem documentToJSON_unknown_dump_witness :
    (documentToJSON ⟨false, false, js "XML"⟩ sampleHost (js "F") sampleActor 1011 []).1 =
      .throws .TypeError :=
  ((documentToJSON_unknown_dump ⟨false, false, js "XML"⟩ sampleHost (js "F") sampleActor 1011 []
    (by decide) (by decide)).1).resolve_right (by decide)

/-! ### Journals -/

theorem validFilename_no_slash (name : JsString) : 47 ∉ validFilename name := by
  unfold validFilename
  intro h
  obtain ⟨c, -, hc⟩ := List.mem_map.1 h
  by_cases hi : invalidFilenameUnit c = true
  · simp [hi] at hc
  · simp only [hi, Bool.false_eq_true, if_false] at hc
    subst hc
    exact hi (by decide)

theorem sortPages_single (page : Page) : sortPages [page] = [page] := rfl

theorem pageName_free (zip : Zip) (subpath base : JsString)
    (h : zip.has (subpath ++ js "/" ++ base ++ js ".md") = false) :
    pageName zip subpath base = some base := by
  simp only [pageName, renameLoop, h, Bool.false_eq_true, if_false]

/-- One step of the second loop of `oneJournal`, for a page that is written. -/
theorem journalPages_step (s : Settings) (host : Host) (subpath : JsString) (journal : Journal)
    (page : Page) (rest : List Page) (subsort : Nat) (zip zip1 : Zip) (md : Option JsString)
    (hw : page.doc.name ≠ journal.doc.name ∨ journal.pages.length = 1)
    (hfree : zip.has (subpath ++ js "/" ++
      notefilename s page.doc (some (journal.doc, journal.pages.length)) ++ js ".md") = false)
    (hc : convertPage s host page zip = (.ok md, zip1)) :
    journalPages s host subpath journal (page :: rest) subsort zip =
      journalPages s host subpath journal rest (numAdd subsort 1)
        (if truthy md then
          zip1 ++ [(entryPath subpath
            (notefilename s page.doc (some (journal.doc, journal.pages.length)) ++ js ".md"),
            .text (frontmatter page.doc subsort page.showTitle false ++ toStr md))]
         else zip1) := by
  conv_lhs => rw [journalPages]
  simp only [hw, if_true, pageName_free zip subpath _ hfree, Run.bind_apply, hc]
  by_cases ht : truthy md = true
  · simp [ht, putFile, Zip.file, Run.bind_apply]
  · simp [ht, Run.pure_apply, Run.bind_apply]

theorem Zip.paths_append (zip : Zip) (e : JsString × FileData) :
    Zip.paths (zip ++ [e]) =
      if e.1 ∈ Zip.paths zip then Zip.paths zip else Zip.paths zip ++ [e.1] := by
  simp [Zip.paths, List.foldl_append]

theorem Zip.mem_paths (path : JsString) : ∀ zip : Zip, path ∈ Zip.paths zip ↔ zip.has path = true := by
  intro zip
  induction zip using List.reverseRecOn with
  | nil => simp [Zip.paths, Zip.has]
  | append_singleton l e ih =>
    rw [Zip.paths_append]
    have hhas : Zip.has (l ++ [e]) path = (Zip.has l path || e.1 == path) := by
      simp [Zip.has, List.any_append]
    rw [hhas, Bool.or_eq_true, ← ih]
    by_cases he : e.1 ∈ Zip.paths l
    · rw [if_pos he]
      constructor
      · intro h; exact Or.inl h
      · rintro (h | h)
        · exact h
        · have : e.1 = path := by simpa using h
          rw [← this]; exact he
    · rw [if_neg he, List.mem_append, List.mem_singleton]
      constructor
      · rintro (h | h)
        · exact Or.inl h
        · exact Or.inr (by simp [h])
      · rintro (h | h)
        · exact Or.inl h
        · exact Or.inr (by have : e.1 = path := by simpa using h
                           exact this.symm)

/-- A write under a path that the archive does not hold adds that path, and
no other, to the paths of the archive. -/
theorem Zip.paths_append_new (zip : Zip) (path : JsString) (data : FileData)
    (h : zip.has path = false) : Zip.paths (zip ++ [(path, data)]) = Zip.paths zip ++ [path] := by
  rw [Zip.paths_append]
  have : path ∉ Zip.paths zip := by
    rw [Zip.mem_paths path zip, h]
    simp
  simp [this]

/-- C6 (as stated, refuted). A journal whose only page is empty adds no file
to the archive; a journal with one page of text, exported when the path
`F/Diary.md` is taken, is written to `F/Diary 1.md`; and the same journal,
exported to the top of an archive that holds `Diary.md`, is written over that
entry, so that no file is added. -/
theorem oneJournal_single_page_no_file :
    emptyJournal.pages.length = 1 ∧
    oneJournal nameSettings sampleHost (js "F") emptyJournal 1011 [] = (.ok (), []) ∧
    writtenPaths [(js "F/Diary.md", .text [])]
      (oneJournal nameSettings sampleHost (js "F") diaryJournal 1011
        [(js "F/Diary.md", .text [])]).2 = [js "F/Diary 1.md"] ∧
    Zip.paths (oneJournal nameSettings sampleHost [] diaryJournal 1011
        [(js "Diary.md", .text [])]).2 = [js "Diary.md"] ∧
    Zip.get (oneJournal nameSettings sampleHost [] diaryJournal 1011
        [(js "Diary.md", .text [])]).2 (js "Diary.md") ≠ some (.text []) := by
  decide

/-- C6 (amended). For a journal with exactly one page, exported when the
archive does not hold the path that the loop probes,
`<dir>/<docfilename(journal)>.md`, and the conversion of the page returns,
`oneJournal` returns. When the converted content is non-empty it makes one
write, `zip.folder(dir).file(docfilename(journal).md, ...)`, directly in the
given directory (the name holds no `/` in name-based naming), whose text is
the frontmatter of the page followed by the converted content; when the
archive holds no entry under the path of that write, the archive gains exactly
that path. The path written is the path probed when `dir` is neither empty nor
ends in `/`; for the empty `dir` the write goes to `docfilename(journal).md`
while the probe tests that name behind a `/`. When the converted content is
empty or undefined, nothing is written. -/
theorem oneJournal_single_page (s : Settings) (host : Host) (path : JsString)
    (journal : Journal) (page : Page) (sort : Nat) (zip zip1 : Zip) (md : Option JsString)
    (hp : journal.pages = [page])
    (hfree : zip.has (path ++ js "/" ++ docfilename s journal.doc ++ js ".md") = false)
    (hc : convertPage s host page zip = (.ok md, zip1)) :
    oneJournal s host path journal sort zip =
      (.ok (),
        if truthy md then
          zip1 ++ [(entryPath path (docfilename s journal.doc ++ js ".md"),
            .text (frontmatter page.doc sort page.showTitle false ++ toStr md))]
        else zip1) ∧
    (truthy md = true →
      zip1.has (entryPath path (docfilename s journal.doc ++ js ".md")) = false →
      Zip.paths (oneJournal s host path journal sort zip).2 =
        Zip.paths zip1 ++ [entryPath path (docfilename s journal.doc ++ js ".md")]) ∧
    (path ≠ [] → slice (-1) path ≠ js "/" →
      entryPath path (docfilename s journal.doc ++ js ".md") =
        path ++ js "/" ++ docfilename s journal.doc ++ js ".md") ∧
    (path = [] →
      entryPath path (docfilename s journal.doc ++ js ".md") =
        docfilename s journal.doc ++ js ".md") ∧
    (s.use_uuid_for_notename = false → journal.doc.collectionTitle = none →
      docfilename s journal.doc = validFilename journal.doc.name ∧
      47 ∉ docfilename s journal.doc) := by
  have hmain : oneJournal s host path journal sort zip =
      (.ok (),
        if truthy md then
          zip1 ++ [(entryPath path (docfilename s journal.doc ++ js ".md"),
            .text (frontmatter page.doc sort page.showTitle false ++ toStr md))]
        else zip1) := by
    have hlen : journal.pages.length = 1 := by rw [hp]; rfl
    have hnf : notefilename s page.doc (some (journal.doc, journal.pages.length)) =
        docfilename s journal.doc := by
      simp [notefilename, hlen]
    have hstep := journalPages_step s host path journal page [] sort zip zip1 md (Or.inr hlen)
      (by rw [hnf]; exact hfree) hc
    unfold oneJournal
    simp only [hlen, gt_iff_lt, Nat.lt_irrefl, if_false, Run.bind_apply, Run.pure_apply]
    have e : sortPages journal.pages = [page] := by rw [hp]; rfl
    rw [e, hstep, hnf]
    rfl
  refine ⟨hmain, ?_, ?_, ?_, ?_⟩
  · intro ht hnew
    rw [hmain]
    simp only [ht, if_true]
    exact Zip.paths_append_new zip1 _ _ hnew
  · intro h1 h2
    simp [entryPath, h1, h2, List.append_assoc]
  · intro h1
    simp [entryPath, h1]
  · intro hn hcol
    have : docfilename s journal.doc = validFilename journal.doc.name := by
      simp [docfilename, hn, hcol]
    exact ⟨this, by rw [this]; exact validFilename_no_slash _⟩

set_option maxRecDepth 100000 in
/-- C6 (amended), at the journal `Diary` with one page of text, exported to the
directory `F` of an archive that holds one asset. -/
theorem oneJournal_single_page_witness :
    oneJournal nameSettings sampleHost (js "F") diaryJournal 1011
        [(js "zz_asset-files/a.png", .asset (js "a.png"))] =
      (.ok (), [(js "zz_asset-files/a.png", .asset (js "a.png")), (js "F/Diary.md",
        .text (js "---\ntitle: \"Day 1\"\nicon: \":sticky-note:\"\naliases: \"Day 1\"\nfoundryId: JournalEntry.d.JournalEntryPage.p\nsortOrder: \"0000001011\"\ntags:\n  - JournalEntryPage\n---\n\n# Day 1\nDear diary"))]) ∧
    Zip.paths (oneJournal nameSettings sampleHost (js "F") diaryJournal 1011
        [(js "zz_asset-files/a.png", .asset (js "a.png"))]).2 =
      [js "zz_asset-files/a.png", js "F/Diary.md"] :=
  ⟨((oneJournal_single_page nameSettings sampleHost (js "F") diaryJournal
      (markdownPage "Day 1" "JournalEntry.d.JournalEntryPage.p" 0 "Dear diary") 1011
      [(js "zz_asset-files/a.png", .asset (js "a.png"))]
      [(js "zz_asset-files/a.png", .asset (js "a.png"))]
      (some (js "Dear diary")) rfl (by decide) (by decide)).1).trans (by decide),
   ((oneJournal_single_page nameSettings sampleHost (js "F") diaryJournal
      (markdownPage "Day 1" "JournalEntry.d.JournalEntryPage.p" 0 "Dear diary") 1011
      [(js "zz_asset-files/a.png", .asset (js "a.png"))]
      [(js "zz_asset-files/a.png", .asset (js "a.png"))]
      (some (js "Dear diary")) rfl (by decide) (by decide)).2.1 (by decide) (by decide)).trans
      (by decide)⟩

theorem journalToc_eq (s : Settings) : ∀ (pages : List Page) (markdown : JsString),
    (∀ p ∈ pages, p.level ≠ 0) →
    journalToc s pages markdown =
      .ok (markdown ++ pages.flatMap fun page =>
        js "\n" ++ List.replicate (2 * (page.level - 1)) 32 ++ js "- " ++
          formatLink (docfilename s page.doc) (some page.doc.name) false) := by
  intro pages
  induction pages with
  | nil => intro markdown _; simp [journalToc]
  | cons p ps ih =>
    intro markdown h
    have hp := h p (List.mem_cons_self _ _)
    unfold journalToc
    simp only [indent, hp, if_false]
    rw [ih _ (fun q hq => h q (List.mem_cons_of_mem _ hq))]
    simp [List.append_assoc]

theorem sortPages_perm (pages : List Page) : (sortPages pages).Perm pages :=
  List.perm_insertionSort _ pages

theorem sortPages_sorted (pages : List Page) :
    (sortPages pages).Sorted fun a b => a.doc.sort ≤ b.doc.sort := by
  haveI : IsTotal Page (fun a b => a.doc.sort ≤ b.doc.sort) := ⟨fun a b => le_total _ _⟩
  haveI : IsTrans Page (fun a b => a.doc.sort ≤ b.doc.sort) := ⟨fun a b c => le_trans⟩
  exact List.sorted_insertionSort _ pages

set_option maxRecDepth 100000 in
/-- C7 (as stated, refuted). For the journal `J` with the pages `J` and `A`,
the page listing of the index file holds a line for the page `J`, whose
content is inlined above it and for which no file is written. -/
theorem oneJournal_landing_listed :
    oneJournal nameSettings sampleHost (js "F") landingJournal 1011 [] =
      (.ok (),
       [(js "F/J/J.md",
         .text (js "---\ntitle: \"J\"\nicon: \":book:\"\naliases: \"J\"\nfoundryId: JournalEntry.j\nsortOrder: \"0000001011\"\ntags:\n  - JournalEntry\n---\n\n# J\n\nlanding\n\n---\n\n## Table of Contents\n\n- [[J]]\n- [[A]]")),
        (js "F/J/A.md",
         .text (js "---\ntitle: \"A\"\nicon: \":sticky-note:\"\naliases: \"A\"\nfoundryId: JournalEntry.j.JournalEntryPage.a\nsortOrder: \"0000010110\"\ntags:\n  - JournalEntryPage\n---\n\n# A\nabout A"))]) := by
  decide

/-- C7 (amended). For a journal with more than one page, one of which has the
name of the journal, `oneJournal` first writes, into the sub-directory of the
journal, the index file `zipfilename(journal)`: the frontmatter of the
journal, the converted content of the same-named page, a rule, and a page
listing that holds a line for every page of the journal, the same-named page
included, in ascending page order. It then goes through the pages in that
order: a page with the name of the journal is passed over (no file is written
for it); any other page whose path is free is written to
`<sub-directory>/<docfilename(page)>.md` when its converted content is
non-empty. -/
theorem oneJournal_index (s : Settings) (host : Host) (path : JsString) (journal : Journal)
    (sort : Nat) (zip zip1 : Zip) (landing : Page) (converted : Option JsString)
    (hn : journal.pages.length > 1)
    (hl : journal.pages.find? (fun page => page.doc.name = journal.doc.name) = some landing)
    (hlev : ∀ p ∈ journal.pages, p.level ≠ 0)
    (hc : convertPage s host landing zip = (.ok converted, zip1)) :
    oneJournal s host path journal sort zip =
      journalPages s host (journalDirectory s path journal) journal (sortPages journal.pages)
        (numMul sort 10)
        (zip1 ++ [(entryPath (journalDirectory s path journal) (zipfilename s journal.doc),
          .text (journalIndex s journal sort (some converted)))]) ∧
    (sortPages journal.pages).Perm journal.pages ∧
    (sortPages journal.pages).Sorted (fun a b => a.doc.sort ≤ b.doc.sort) ∧
    landing ∈ sortPages journal.pages ∧ landing.doc.name = journal.doc.name ∧
    (∀ page rest subsort z, page.doc.name = journal.doc.name →
      journalPages s host (journalDirectory s path journal) journal (page :: rest) subsort z =
        journalPages s host (journalDirectory s path journal) journal rest subsort z) ∧
    (∀ page rest subsort z z1 md, page.doc.name ≠ journal.doc.name →
      z.has (journalDirectory s path journal ++ js "/" ++ docfilename s page.doc ++ js ".md")
        = false →
      convertPage s host page z = (.ok md, z1) →
      journalPages s host (journalDirectory s path journal) journal (page :: rest) subsort z =
        journalPages s host (journalDirectory s path journal) journal rest (numAdd subsort 1)
          (if truthy md then
            z1 ++ [(entryPath (journalDirectory s path journal) (docfilename s page.doc ++ js ".md"),
              .text (frontmatter page.doc subsort page.showTitle false ++ toStr md))]
           else z1)) := by
  have hne : journal.pages.length ≠ 1 := by omega
  have hnf : ∀ page : Page, notefilename s page.doc (some (journal.doc, journal.pages.length)) =
      docfilename s page.doc := by
    intro page
    simp [notefilename, hne]
  have hlev' : ∀ p ∈ sortPages journal.pages, p.level ≠ 0 :=
    fun p hp => hlev p ((sortPages_perm journal.pages).mem_iff.1 hp)
  refine ⟨?_, sortPages_perm _, sortPages_sorted _, ?_, ?_, ?_, ?_⟩
  · unfold oneJournal
    simp only [hn, if_true, Run.bind_apply, hl, hc, Run.pure_apply, Run.ofOutcome,
      journalToc_eq s _ _ hlev', putFile, Zip.file]
    simp [journalDirectory, journalIndex, List.append_assoc]
  · exact (sortPages_perm journal.pages).mem_iff.2 (List.mem_of_find?_eq_some hl)
  · simpa using List.find?_some hl
  · intro page rest subsort z hname
    conv_lhs => rw [journalPages]
    simp [hname, hne]
  · intro page rest subsort z z1 md hname hfree hcv
    have := journalPages_step s host (journalDirectory s path journal) journal page rest subsort
      z z1 md (Or.inl hname) (by rw [hnf]; exact hfree) hcv
    rw [this, hnf]

theorem oneJournal_index_witness :
    oneJournal nameSettings sampleHost (js "F") landingJournal 1011 [] =
      journalPages nameSettings sampleHost (journalDirectory nameSettings (js "F") landingJournal)
        landingJournal (sortPages landingJournal.pages) (numMul 1011 10)
        ([] ++ [(entryPath (journalDirectory nameSettings (js "F") landingJournal)
            (zipfilename nameSettings landingJournal.doc),
          .text (journalIndex nameSettings landingJournal 1011 (some (some (js "landing")))))]) :=
  (oneJournal_index nameSettings sampleHost (js "F") landingJournal 1011 [] []
    (markdownPage "J" "JournalEntry.j.JournalEntryPage.l" 1 "landing") (some (js "landing"))
    (by decide) rfl (by decide) (by decide)).1

theorem renameLoop_occupied (zip : Zip) (subpath base : JsString)
    (h0 : zip.has (subpath ++ js "/" ++ base ++ js ".md") = true)
    (h1 : zip.has (subpath ++ js "/" ++ (base ++ js " " ++ numberToString 1) ++ js ".md") = true) :
    ∀ (fuel : Nat) (name : JsString), name = base ∨ name = base ++ js " " ++ numberToString 1 →
      renameLoop zip subpath base 1 fuel name = none := by
  intro fuel
  induction fuel with
  | zero => intro name _; rfl
  | succ fuel ih =>
    intro name hname
    unfold renameLoop
    rcases hname with rfl | rfl
    · rw [h0]
      simp only [if_true]
      exact ih _ (Or.inr rfl)
    · rw [h1]
      simp only [if_true]
      exact ih _ (Or.inr rfl)

/-- More fuel does not change what the loop yields once two tests of its
condition are allowed. -/
theorem renameLoop_stable (zip : Zip) (subpath base : JsString) (fuel : Nat) :
    renameLoop zip subpath base 1 (fuel + 2) base = renameLoop zip subpath base 1 2 base := by
  by_cases h0 : zip.has (subpath ++ js "/" ++ base ++ js ".md") = true
  · by_cases h1 :
      zip.has (subpath ++ js "/" ++ (base ++ js " " ++ numberToString 1) ++ js ".md") = true
    · rw [renameLoop_occupied zip subpath base h0 h1 _ _ (Or.inl rfl),
        renameLoop_occupied zip subpath base h0 h1 _ _ (Or.inl rfl)]
    · simp only [renameLoop, h0, h1, if_true, Bool.false_eq_true, if_false]
  · simp only [renameLoop, h0, Bool.false_eq_true, if_false]

set_option maxRecDepth 100000 in
/-- C17 (the code at the failing input). The probe appends the suffix ` 1`
on every pass and never a later one: when both `<dir>/<name>.md` and
`<dir>/<name> 1.md` are in the archive, the loop yields no name however many
tests of its condition it is allowed, so it never ends. The journal `J` with
three pages named `A` is such a case in name-based naming: `oneJournal`
writes `F/J/A.md` and `F/J/A 1.md` and then hangs on the third page. -/
theorem oneJournal_rename_never_ends :
    (∀ (zip : Zip) (subpath base : JsString) (fuel : Nat),
      zip.has (subpath ++ js "/" ++ base ++ js ".md") = true →
      zip.has (subpath ++ js "/" ++ (base ++ js " 1") ++ js ".md") = true →
      renameLoop zip subpath base 1 fuel base = none) ∧
    (∀ (zip : Zip) (subpath base : JsString) (fuel : Nat),
      renameLoop zip subpath base 1 (fuel + 2) base = pageName zip subpath base) ∧
    (oneJournal nameSettings sampleHost (js "F") tripleJournal 1011 []).1 = .hangs ∧
    writtenPaths [] (oneJournal nameSettings sampleHost (js "F") tripleJournal 1011 []).2 =
      [js "F/J/J.md", js "F/J/A.md", js "F/J/A 1.md"] := by
  have e1 : numberToString 1 = js "1" := by decide
  have e2 : ∀ base : JsString, base ++ js " " ++ numberToString 1 = base ++ js " 1" := by
    intro base
    rw [e1, List.append_assoc]
    rfl
  refine ⟨?_, ?_, by decide, by decide⟩
  · intro zip subpath base fuel h0 h1
    exact renameLoop_occupied zip subpath base h0 (by rw [e2]; exact h1) fuel base (Or.inl rfl)
  · intro zip subpath base fuel
    exact renameLoop_stable zip subpath base fuel

theorem tocLink_journal (s : Settings) (j : Journal) (h : j.pages.length > 1) :
    tocLink s (.journal j) =
      formatLink (js "./" ++ validFilename j.doc.name ++ js "/" ++
        (if s.use_uuid_for_journal_folder then docfilename s j.doc
         else validFilename j.doc.name)) (some j.doc.name) false := by
  have e : js "." ≠ [] := by decide
  have e2 : js "." ++ js "/" = js "./" := by decide
  have e3 : js "./" ++ validFilename j.doc.name ≠ [] := by
    intro hh
    have := (List.append_eq_nil.1 hh).1
    exact absurd this (by decide)
  unfold tocLink
  simp only [h, if_true, formpath, e, ne_eq, not_false_eq_true, e2, Doc.doc, e3]

set_option maxRecDepth 100000 in
/-- C18 (the code at the failing input). For a journal of several pages,
`tocLink` builds the path `./<validFilename(name)>/<f>`, with `f` the
`docfilename` when folders are named by identifier and the sanitized name
otherwise, whereas `oneJournal` writes the index file to
`<dir>/<d>/<docfilename>.md`, with `d` the `docfilename` when folders are
named by identifier and the sanitized name otherwise. With both flags set the
link is `./J/JournalEntry.j` and the file `F/JournalEntry.j/JournalEntry.j.md`;
with only the note-name flag set the link is `./J/J` and the file
`F/J/JournalEntry.j.md`; the two agree when the note-name flag is off. -/
theorem tocLink_index_mismatch :
    (∀ (s : Settings) (j : Journal), j.pages.length > 1 →
      tocLink s (.journal j) =
        formatLink (js "./" ++ validFilename j.doc.name ++ js "/" ++
          (if s.use_uuid_for_journal_folder then docfilename s j.doc
           else validFilename j.doc.name)) (some j.doc.name) false) ∧
    tocLink uuidSettings (.journal landingJournal) = js "[[./J/JournalEntry.j|J]]" ∧
    (writtenPaths [] (oneJournal uuidSettings sampleHost (js "F") landingJournal 1011 []).2).head?
      = some (js "F/JournalEntry.j/JournalEntry.j.md") ∧
    tocLink ⟨false, true, js "YAML"⟩ (.journal landingJournal) = js "[[./J/J|J]]" ∧
    (writtenPaths [] (oneJournal ⟨false, true, js "YAML"⟩ sampleHost (js "F") landingJournal
      1011 []).2).head? = some (js "F/J/JournalEntry.j.md") ∧
    tocLink nameSettings (.journal landingJournal) = js "[[./J/J|J]]" ∧
    (writtenPaths [] (oneJournal nameSettings sampleHost (js "F") landingJournal 1011 []).2).head?
      = some (js "F/J/J.md") ∧
    tocLink ⟨true, false, js "YAML"⟩ (.journal landingJournal) = js "[[./J/J|J]]" ∧
    (writtenPaths [] (oneJournal ⟨true, false, js "YAML"⟩ sampleHost (js "F") landingJournal
      1011 []).2).head? = some (js "F/J/J.md") := by
  refine ⟨fun s j h => tocLink_journal s j h, by decide, by decide, by decide, by decide,
    by decide, by decide, by decide, by decide⟩

/-! ### Folders -/

theorem Run.bind_ok_inv {α β : Type} (m : Run α) (f : α → Run β) (zip zip2 : Zip) (b : β)
    (h : (m >>= f) zip = (.ok b, zip2)) :
    ∃ a zip1, m zip = (.ok a, zip1) ∧ f a zip1 = (.ok b, zip2) := by
  rw [Run.bind_apply] at h
  rcases hm : m zip with ⟨o, z1⟩
  rw [hm] at h
  cases o with
  | ok a => exact ⟨a, z1, rfl, h⟩
  | throws e => simp at h
  | hangs => simp at h

theorem oneRollTable_writes (s : Settings) (host : Host) (path : JsString) (table : RollTable)
    (sort : Nat) (zip : Zip)
    (h : ∀ r ∈ table.results,
      ∃ t, (convertLinks s host (some r.chatText) table.doc []).1 = .ok t) :
    ∃ assets, oneRollTable s host path table sort zip =
      (.ok (), zip ++ assets ++
        [(entryPath path (zipfilename s table.doc),
          .text (tableHead table sort ++ table.results.flatMap fun r =>
            tableRow r.range.1 r.range.2 (rewrittenText s host table.doc r.chatText)))]) := by
  obtain ⟨assets, ha⟩ := rollTableRows_eq s host table table.results (tableHead table sort) zip h
  refine ⟨assets, ?_⟩
  unfold oneRollTable
  simp only [Run.bind_apply]
  have e : (if truthy table.description = true then
        frontmatter table.doc sort true false ++ toStr table.description ++ js "\n\n"
      else frontmatter table.doc sort true false) ++
      js "| " ++ (if truthy table.formula = true then toStr table.formula else js "Roll") ++
      js " | result |\n" ++ js "|------|--------|\n" = tableHead table sort := rfl
  rw [e, ha]
  simp [putFile, Zip.file]

theorem entryPath_injective (dir a b : JsString) (h : entryPath dir a = entryPath dir b) :
    a = b := by
  unfold entryPath at h
  split at h
  · exact h
  · split at h
    · exact List.append_cancel_left h
    · exact List.append_cancel_left h

theorem Zip.get_last (zip : Zip) (path : JsString) (data : FileData) :
    Zip.get (zip ++ [(path, data)]) path = some data := by
  simp [Zip.get]

/-- C3 (as stated, refuted). The folder `F` holds two roll tables named `T`;
in name-based naming `oneFolder` writes both to `F/T.md`: the archive holds
the paths `F/T.md` and `F/F.md` only, no path carries a numeric suffix, and
the entry under `F/T.md` is the file of the second table. -/
theorem oneFolder_same_name_overwrites :
    writtenPaths [] (oneFolder nameSettings sampleHost [] twinFolder 101 []).2 =
      [js "F/T.md", js "F/T.md", js "F/F.md"] ∧
    Zip.paths (oneFolder nameSettings sampleHost [] twinFolder 101 []).2 =
      [js "F/T.md", js "F/F.md"] ∧
    Zip.get (oneFolder nameSettings sampleHost [] twinFolder 101 []).2 (js "F/T.md") =
      some (.text (js "---\ntitle: \"T\"\nicon: \":list:\"\naliases: \"T\"\nfoundryId: RollTable.b\nsortOrder: \"0000001012\"\ntags:\n  - RollTable\n---\n\n# T\n| Roll | result |\n|------|--------|\n")) := by
  decide!

/-- C3 (amended). `oneRollTable` writes the file of a roll table to
`<dir>/<docfilename>.md` without probing the archive. Two roll tables of one
directory whose result texts `convertLinks` rewrites are written to distinct
paths when their `docfilename`s differ; when these are equal (two tables of
the same name in name-based naming) both are written to the same path, no
numeric suffix is added, and the archive keeps the file of the second. -/
theorem oneRollTable_no_probe (s : Settings) (host : Host) (path : JsString)
    (t1 t2 : RollTable) (sort1 sort2 : Nat) (zip : Zip)
    (h1 : ∀ r ∈ t1.results, ∃ t, (convertLinks s host (some r.chatText) t1.doc []).1 = .ok t)
    (h2 : ∀ r ∈ t2.results, ∃ t, (convertLinks s host (some r.chatText) t2.doc []).1 = .ok t) :
    ∃ a1 a2 c1 c2,
      oneRollTable s host path t1 sort1 zip =
        (.ok (), zip ++ a1 ++ [(entryPath path (zipfilename s t1.doc), .text c1)]) ∧
      oneRollTable s host path t2 sort2
          (zip ++ a1 ++ [(entryPath path (zipfilename s t1.doc), .text c1)]) =
        (.ok (), zip ++ a1 ++ [(entryPath path (zipfilename s t1.doc), .text c1)] ++ a2 ++
          [(entryPath path (zipfilename s t2.doc), .text c2)]) ∧
      c2 = tableHead t2 sort2 ++ t2.results.flatMap (fun r =>
        tableRow r.range.1 r.range.2 (rewrittenText s host t2.doc r.chatText)) ∧
      (docfilename s t1.doc ≠ docfilename s t2.doc →
        entryPath path (zipfilename s t1.doc) ≠ entryPath path (zipfilename s t2.doc)) ∧
      (docfilename s t1.doc = docfilename s t2.doc →
        entryPath path (zipfilename s t1.doc) = entryPath path (zipfilename s t2.doc) ∧
        Zip.get (zip ++ a1 ++ [(entryPath path (zipfilename s t1.doc), .text c1)] ++ a2 ++
          [(entryPath path (zipfilename s t2.doc), .text c2)])
          (entryPath path (zipfilename s t1.doc)) = some (.text c2)) := by
  obtain ⟨a1, e1⟩ := oneRollTable_writes s host path t1 sort1 zip h1
  obtain ⟨a2, e2⟩ := oneRollTable_writes s host path t2 sort2
    (zip ++ a1 ++ [(entryPath path (zipfilename s t1.doc), .text
      (tableHead t1 sort1 ++ t1.results.flatMap (fun r =>
        tableRow r.range.1 r.range.2 (rewrittenText s host t1.doc r.chatText))))]) h2
  refine ⟨a1, a2, _, _, e1, e2, rfl, ?_, ?_⟩
  · intro hne heq
    have := entryPath_injective _ _ _ heq
    unfold zipfilename at this
    exact hne (List.append_cancel_right this)
  · intro heq
    have hz : zipfilename s t1.doc = zipfilename s t2.doc := by
      unfold zipfilename
      rw [heq]
    refine ⟨by rw [hz], ?_⟩
    rw [hz]
    exact Zip.get_last _ _ _

theorem oneRollTable_no_probe_witness :
    ∃ a1 a2 c1 c2,
      oneRollTable nameSettings sampleHost (js "F") sampleTable 1011 [] =
        (.ok (), [] ++ a1 ++ [(entryPath (js "F") (zipfilename nameSettings sampleTable.doc),
          .text c1)]) ∧
      oneRollTable nameSettings sampleHost (js "F") sampleTable 1012
          ([] ++ a1 ++ [(entryPath (js "F") (zipfilename nameSettings sampleTable.doc),
            .text c1)]) =
        (.ok (), [] ++ a1 ++ [(entryPath (js "F") (zipfilename nameSettings sampleTable.doc),
            .text c1)] ++ a2 ++
          [(entryPath (js "F") (zipfilename nameSettings sampleTable.doc), .text c2)]) ∧
      Zip.get ([] ++ a1 ++ [(entryPath (js "F") (zipfilename nameSettings sampleTable.doc),
            .text c1)] ++ a2 ++
          [(entryPath (js "F") (zipfilename nameSettings sampleTable.doc), .text c2)])
          (entryPath (js "F") (zipfilename nameSettings sampleTable.doc)) = some (.text c2) := by
  have hrows : ∀ r ∈ sampleTable.results,
      ∃ t, (convertLinks nameSettings sampleHost (some r.chatText) sampleTable.doc []).1 =
        .ok t := by
    intro r hr
    simp only [sampleTable, List.mem_cons, List.mem_singleton, List.not_mem_nil, or_false] at hr
    rcases hr with rfl | rfl <;> exact ⟨_, rfl⟩
  obtain ⟨a1, a2, c1, c2, e1, e2, -, -, e5⟩ :=
    oneRollTable_no_probe nameSettings sampleHost (js "F") sampleTable sampleTable 1011 1012 []
      hrows hrows
  exact ⟨a1, a2, c1, c2, e1, e2, (e5 rfl).2⟩

/-! ### Folders: the counters -/

theorem sortDocs_perm (docs : List Doc) : (sortDocs docs).Perm docs :=
  List.perm_insertionSort _ docs

theorem sortDocs_sorted (docs : List Doc) :
    (sortDocs docs).Sorted fun a b => a.doc.sort ≤ b.doc.sort := by
  haveI : IsTotal Doc (fun a b => a.doc.sort ≤ b.doc.sort) := ⟨fun a b => le_total _ _⟩
  haveI : IsTrans Doc (fun a b => a.doc.sort ≤ b.doc.sort) := ⟨fun a b c => le_trans⟩
  exact List.sorted_insertionSort _ docs

theorem SortTree.sort_mem_counters (t : SortTree) : t.sort ∈ t.counters := by
  cases t with
  | node sort owner children => simp [SortTree.sort, SortTree.counters]

theorem SortTree.counters_of_mem (t : SortTree) (ts : List SortTree) (h : t ∈ ts) :
    ∀ c ∈ t.counters, c ∈ SortTree.countersList ts := by
  induction ts with
  | nil => cases h
  | cons u us ih =>
    intro c hc
    simp only [SortTree.countersList, List.mem_append]
    rcases List.mem_cons.1 h with rfl | h
    · exact Or.inl hc
    · exact Or.inr (ih h c hc)

theorem SortTree.mem_countersList (ts : List SortTree) (c : Nat)
    (h : c ∈ SortTree.countersList ts) : ∃ t ∈ ts, c ∈ t.counters := by
  induction ts with
  | nil => simp [SortTree.countersList] at h
  | cons u us ih =>
    simp only [SortTree.countersList, List.mem_append] at h
    rcases h with h | h
    · exact ⟨u, List.mem_cons_self _ _, h⟩
    · obtain ⟨t, ht, hc⟩ := ih h
      exact ⟨t, List.mem_cons_of_mem _ ht, hc⟩

theorem laidOutFrom_append (slim : Bool) : ∀ (a b : List SortTree) (first : Nat),
    SortTree.laidOutFrom slim first (a ++ b) ↔
      SortTree.laidOutFrom slim first a ∧
        SortTree.laidOutFrom slim ((fun c => numAdd c 1)^[a.length] first) b := by
  intro a
  induction a with
  | nil => intro b first; simp [SortTree.laidOutFrom]
  | cons t ts ih =>
    intro b first
    simp only [List.cons_append, SortTree.laidOutFrom, List.append_eq, ih, List.length_cons,
      Function.iterate_succ_apply]
    tauto

theorem iterate_numAdd (n x : Nat) :
    numAdd ((fun c => numAdd c 1)^[n] x) 1 = (fun c => numAdd c 1)^[n] (numAdd x 1) := by
  rw [← Function.iterate_succ_apply' (fun c => numAdd c 1) n x, Function.iterate_succ_apply]

theorem numberedFrom_mem : ∀ (ts : List SortTree) (first : Nat),
    SortTree.numberedFrom first ts →
      ∀ t ∈ ts, t.numbered ∧ first ≤ t.sort ∧ t.sort < first + ts.length := by
  intro ts
  induction ts with
  | nil => intro first _ t ht; cases ht
  | cons u us ih =>
    intro first h t ht
    obtain ⟨h1, h2, h3⟩ := h
    rcases List.mem_cons.1 ht with rfl | ht
    · exact ⟨h2, by omega, by simp only [List.length_cons]; omega⟩
    · obtain ⟨a, b, c⟩ := ih (first + 1) h3 t ht
      exact ⟨a, by omega, by simp only [List.length_cons]; omega⟩

theorem numberedFrom_sorts : ∀ (ts : List SortTree) (first : Nat),
    SortTree.numberedFrom first ts → ts.map SortTree.sort = List.range' first ts.length := by
  intro ts
  induction ts with
  | nil => intro first _; rfl
  | cons t ts ih =>
    intro first h
    obtain ⟨h1, -, h3⟩ := h
    simp only [List.map_cons, List.length_cons, List.range'_succ, h1, ih (first + 1) h3]

theorem narrowList_mem : ∀ ts : List SortTree,
    SortTree.narrowList ts ↔ ∀ t ∈ ts, t.narrow := by
  intro ts
  induction ts with
  | nil => simp [SortTree.narrowList]
  | cons t ts ih => simp [SortTree.narrowList, ih]

/-- Where every counter of a tree is below `2^53`, the arithmetic of numbers is
exact: a tree laid out by the loops is numbered, and narrow when it is slim. -/
theorem laidOut_numbered (slim : Bool) (tree : SortTree) :
    tree.laidOut slim → (∀ c ∈ tree.counters, c < 2 ^ 53) →
      tree.numbered ∧ (slim = true → tree.narrow) := by
  refine SortTree.rec
    (motive_1 := fun tree => tree.laidOut slim → (∀ c ∈ tree.counters, c < 2 ^ 53) →
      tree.numbered ∧ (slim = true → tree.narrow))
    (motive_2 := fun ts => ∀ g f, SortTree.laidOutFrom slim g ts →
      (∀ c ∈ SortTree.countersList ts, c < 2 ^ 53) → (g < 2 ^ 53 → g = f) →
      SortTree.numberedFrom f ts ∧ (slim = true → SortTree.narrowList ts))
    ?_ ?_ ?_ tree
  · intro sort owner children ih h hb
    have hb' : ∀ c ∈ SortTree.countersList children, c < 2 ^ 53 := by
      intro c hc
      exact hb c (by simp [SortTree.counters, hc])
    rcases h with ⟨h1, h2⟩ | ⟨h0, h1, h2⟩
    · have hg : numAdd (numMul sort 10) 1 < 2 ^ 53 → numAdd (numMul sort 10) 1 = sort * 10 + 1 := by
        intro hlt
        have e1 := numAdd_exact _ _ hlt
        have e2 := numMul_exact sort 10 (by omega)
        omega
      obtain ⟨a, b⟩ := ih _ (sort * 10 + 1) h1 hb' hg
      refine ⟨Or.inl a, fun hs => ⟨?_, b hs⟩⟩
      intro t ht
      have := (numberedFrom_mem children _ a t ht).2.2
      have := h2 hs
      omega
    · have hg : numMul sort 10 < 2 ^ 53 → numMul sort 10 = sort * 10 := numMul_exact sort 10
      obtain ⟨a, b⟩ := ih _ (sort * 10) h1 hb' hg
      refine ⟨Or.inr ⟨h0, a⟩, fun hs => ⟨?_, b hs⟩⟩
      intro t ht
      have := (numberedFrom_mem children _ a t ht).2.2
      have := h2 hs
      omega
  · intro g f _ _ _
    exact ⟨trivial, fun _ => trivial⟩
  · intro head tail ihh iht g f h hb hg
    obtain ⟨h1, h2, h3⟩ := h
    have hbh : ∀ c ∈ head.counters, c < 2 ^ 53 := by
      intro c hc
      exact hb c (by simp [SortTree.countersList, hc])
    have hbt : ∀ c ∈ SortTree.countersList tail, c < 2 ^ 53 := by
      intro c hc
      exact hb c (by simp [SortTree.countersList, hc])
    have hglt : g < 2 ^ 53 := by
      rw [← h1]
      exact hbh _ head.sort_mem_counters
    have hgf := hg hglt
    obtain ⟨a, b⟩ := ihh h2 hbh
    have hg2 : numAdd g 1 < 2 ^ 53 → numAdd g 1 = f + 1 := by
      intro hlt
      rw [numAdd_exact _ _ hlt, hgf]
    obtain ⟨c, d⟩ := iht _ (f + 1) h3 hbt hg2
    exact ⟨⟨by rw [h1, hgf], a, c⟩, fun hs => ⟨b hs, d hs⟩⟩

theorem laidOutFrom_numbered (slim : Bool) (ts : List SortTree) (g f : Nat)
    (h : SortTree.laidOutFrom slim g ts) (hb : ∀ c ∈ SortTree.countersList ts, c < 2 ^ 53)
    (hg : g < 2 ^ 53 → g = f) : SortTree.numberedFrom f ts := by
  induction ts generalizing g f with
  | nil => trivial
  | cons head tail ih =>
    obtain ⟨h1, h2, h3⟩ := h
    have hbh : ∀ c ∈ head.counters, c < 2 ^ 53 := by
      intro c hc
      exact hb c (by simp [SortTree.countersList, hc])
    have hbt : ∀ c ∈ SortTree.countersList tail, c < 2 ^ 53 := by
      intro c hc
      exact hb c (by simp [SortTree.countersList, hc])
    have hglt : g < 2 ^ 53 := by
      rw [← h1]
      exact hbh _ head.sort_mem_counters
    have hgf := hg hglt
    refine ⟨by rw [h1, hgf], (laidOut_numbered slim head h2 hbh).1, ih _ _ h3 hbt ?_⟩
    intro hlt
    rw [numAdd_exact _ _ hlt, hgf]

theorem div_pow_succ (c d : Nat) : c / 10 ^ (d + 1) = c / 10 ^ d / 10 := by
  rw [pow_succ, Nat.div_div_eq_div_mul]

theorem div_pow_add (c d k : Nat) : c / 10 ^ (d + k) = c / 10 ^ d / 10 ^ k := by
  rw [pow_add, Nat.div_div_eq_div_mul]

theorem digit_clash_lt (a b p c d k : Nat) (ha : a / 10 = p) (hb : p < b)
    (h1 : c / 10 ^ d = a) (h2 : c / 10 ^ (d + (k + 1)) = b) : False := by
  rw [div_pow_add, h1] at h2
  have h3 : a / 10 ^ (k + 1) ≤ a / 10 := by
    apply Nat.div_le_div_left
    · calc 10 = 10 ^ 1 := by norm_num
        _ ≤ 10 ^ (k + 1) := Nat.pow_le_pow_right (by norm_num) (by omega)
    · norm_num
  omega

/-- Two numbers with the same quotient by 10, both above that quotient, that
are decimal beginnings of one number, are equal. -/
theorem digit_clash (a b p c d e : Nat) (ha : a / 10 = p) (hb : b / 10 = p)
    (hpa : p < a) (hpb : p < b) (h1 : c / 10 ^ d = a) (h2 : c / 10 ^ e = b) : a = b := by
  rcases Nat.lt_trichotomy d e with h | h | h
  · obtain ⟨k, rfl⟩ : ∃ k, e = d + (k + 1) := ⟨e - d - 1, by omega⟩
    exact (digit_clash_lt a b p c d k ha hpb h1 h2).elim
  · subst h; omega
  · obtain ⟨k, rfl⟩ : ∃ k, d = e + (k + 1) := ⟨d - e - 1, by omega⟩
    exact (digit_clash_lt b a p c e k hb hpa h2 h1).elim

/-- What numbering and narrowness say of the children of a node. -/
theorem children_digits (sort : Nat) (owner : JsString) (children : List SortTree)
    (hn : (SortTree.node sort owner children).numbered)
    (hw : (SortTree.node sort owner children).narrow) :
    (∀ t ∈ children, t.numbered ∧ t.narrow ∧ t.sort / 10 = sort ∧ sort < t.sort) ∧
    (children.map SortTree.sort).Nodup := by
  obtain ⟨hw1, hw2⟩ := hw
  have hw3 := (narrowList_mem children).1 hw2
  rcases hn with hn | ⟨h0, hn⟩
  · refine ⟨?_, ?_⟩
    · intro t ht
      obtain ⟨a, b, -⟩ := numberedFrom_mem children _ hn t ht
      have := hw1 t ht
      exact ⟨a, hw3 t ht, by omega, by omega⟩
    · rw [numberedFrom_sorts children _ hn]
      exact List.nodup_range' _ _
  · refine ⟨?_, ?_⟩
    · intro t ht
      obtain ⟨a, b, -⟩ := numberedFrom_mem children _ hn t ht
      have := hw1 t ht
      exact ⟨a, hw3 t ht, by omega, by omega⟩
    · rw [numberedFrom_sorts children _ hn]
      exact List.nodup_range' _ _

/-- In a numbered and narrow tree, the counter of the root is a decimal
beginning of every counter of the tree. -/
theorem counters_beginning (tree : SortTree) :
    tree.numbered → tree.narrow → ∀ c ∈ tree.counters, ∃ d, c / 10 ^ d = tree.sort := by
  refine SortTree.rec
    (motive_1 := fun tree => tree.numbered → tree.narrow →
      ∀ c ∈ tree.counters, ∃ d, c / 10 ^ d = tree.sort)
    (motive_2 := fun ts => (∀ t ∈ ts, t.numbered ∧ t.narrow) →
      ∀ c ∈ SortTree.countersList ts, ∃ t ∈ ts, ∃ d, c / 10 ^ d = t.sort)
    ?_ ?_ ?_ tree
  · intro sort owner children ih hn hw c hc
    simp only [SortTree.counters, List.mem_cons] at hc
    rcases hc with rfl | hc
    · exact ⟨0, by simp [SortTree.sort]⟩
    · obtain ⟨hd, -⟩ := children_digits sort owner children hn hw
      obtain ⟨t, ht, d, e⟩ := ih (fun t ht => ⟨(hd t ht).1, (hd t ht).2.1⟩) c hc
      refine ⟨d + 1, ?_⟩
      rw [div_pow_succ, e]
      exact (hd t ht).2.2.1
  · intro _ c hc
    simp [SortTree.countersList] at hc
  · intro head tail ihh iht h c hc
    simp only [SortTree.countersList, List.mem_append] at hc
    rcases hc with hc | hc
    · obtain ⟨d, e⟩ := ihh (h head (List.mem_cons_self _ _)).1 (h head (List.mem_cons_self _ _)).2
        c hc
      exact ⟨head, List.mem_cons_self _ _, d, e⟩
    · obtain ⟨t, ht, d, e⟩ := iht (fun t ht => h t (List.mem_cons_of_mem _ ht)) c hc
      exact ⟨t, List.mem_cons_of_mem _ ht, d, e⟩

theorem countersList_beginning (ts : List SortTree) (h : ∀ t ∈ ts, t.numbered ∧ t.narrow) :
    ∀ c ∈ SortTree.countersList ts, ∃ t ∈ ts, ∃ d, c / 10 ^ d = t.sort := by
  intro c hc
  obtain ⟨t, ht, hct⟩ := SortTree.mem_countersList ts c hc
  obtain ⟨d, e⟩ := counters_beginning t (h t ht).1 (h t ht).2 c hct
  exact ⟨t, ht, d, e⟩

/-- In a numbered and narrow tree no two nodes have the same counter. -/
theorem counters_nodup (tree : SortTree) :
    tree.numbered → tree.narrow → tree.counters.Nodup := by
  refine SortTree.rec
    (motive_1 := fun tree => tree.numbered → tree.narrow → tree.counters.Nodup)
    (motive_2 := fun ts => ∀ p, (∀ t ∈ ts, t.numbered ∧ t.narrow ∧ t.sort / 10 = p ∧ p < t.sort) →
      (ts.map SortTree.sort).Nodup → (SortTree.countersList ts).Nodup)
    ?_ ?_ ?_ tree
  · intro sort owner children ih hn hw
    obtain ⟨hd, hnd⟩ := children_digits sort owner children hn hw
    simp only [SortTree.counters, List.nodup_cons]
    refine ⟨?_, ih sort hd hnd⟩
    intro hc
    obtain ⟨t, ht, d, e⟩ := countersList_beginning children
      (fun t ht => ⟨(hd t ht).1, (hd t ht).2.1⟩) sort hc
    have h1 : sort / 10 ^ d ≤ sort := Nat.div_le_self _ _
    have h2 := (hd t ht).2.2.2
    omega
  · intro _ _ _
    simp [SortTree.countersList]
  · intro head tail ihh iht p h hnd
    have hh := h head (List.mem_cons_self _ _)
    have ht : ∀ t ∈ tail, t.numbered ∧ t.narrow ∧ t.sort / 10 = p ∧ p < t.sort :=
      fun t ht => h t (List.mem_cons_of_mem _ ht)
    simp only [List.map_cons, List.nodup_cons] at hnd
    simp only [SortTree.countersList]
    rw [List.nodup_append]
    refine ⟨ihh hh.1 hh.2.1, iht p ht hnd.2, ?_⟩
    intro c hc1 hc2
    obtain ⟨d, e1⟩ := counters_beginning head hh.1 hh.2.1 c hc1
    obtain ⟨t, htm, e, e2⟩ := countersList_beginning tail
      (fun t ht' => ⟨(ht t ht').1, (ht t ht').2.1⟩) c hc2
    have := digit_clash head.sort t.sort p c d e hh.2.2.1 (ht t htm).2.2.1 hh.2.2.2
      (ht t htm).2.2.2 e1 e2
    exact hnd.1 (List.mem_map.2 ⟨t, htm, this.symm⟩)


theorem pageCounters_laidOut (slim : Bool) (journal : Journal) :
    ∀ (pages : List Page) (subsort : Nat),
      SortTree.laidOutFrom slim subsort (pageCounters journal pages subsort) := by
  intro pages
  induction pages with
  | nil => intro _; trivial
  | cons page rest ih =>
    intro subsort
    unfold pageCounters
    split_ifs with h
    · exact ⟨rfl, Or.inl ⟨trivial, fun _ => Nat.zero_le _⟩, ih _⟩
    · exact ih _

theorem pageCounters_length (journal : Journal) (hn : journal.pages.length ≠ 1) :
    ∀ (pages : List Page) (subsort : Nat),
      (pageCounters journal pages subsort).length =
        (pages.filter fun p => p.doc.name ≠ journal.doc.name).length := by
  intro pages
  induction pages with
  | nil => intro _; rfl
  | cons page rest ih =>
    intro subsort
    unfold pageCounters
    by_cases h : page.doc.name = journal.doc.name
    · simp [h, hn, ih]
    · simp [h, ih]

theorem documentCounters_laidOut (slim : Bool) (doc : Doc) (sort : Nat) (h0 : 0 < sort)
    (hw : slim = true → doc.countedPages ≤ 10) :
    (documentCounters doc sort).sort = sort ∧ (documentCounters doc sort).owner = doc.doc.uuid ∧
    (documentCounters doc sort).laidOut slim := by
  cases doc with
  | journal j =>
    refine ⟨rfl, rfl, ?_⟩
    by_cases hn : j.pages.length > 1
    · refine Or.inr ⟨h0, ?_, ?_⟩
      · simp only [hn, if_true]
        exact pageCounters_laidOut slim j _ _
      · intro hs
        have := hw hs
        simp only [Doc.countedPages, hn, if_true] at this
        simp only [hn, if_true]
        rw [pageCounters_length j (by omega)]
        have hp : ((sortPages j.pages).filter fun p => p.doc.name ≠ j.doc.name).Perm
            (j.pages.filter fun p => p.doc.name ≠ j.doc.name) :=
          (sortPages_perm j.pages).filter _
        rw [hp.length_eq]
        exact this
    · refine Or.inl ⟨?_, ?_⟩
      · simp only [hn, if_false]
        trivial
      · intro _
        simp [hn]
  | rollTable t => exact ⟨rfl, rfl, Or.inl ⟨trivial, fun _ => Nat.zero_le _⟩⟩
  | scene sc => exact ⟨rfl, rfl, Or.inl ⟨trivial, fun _ => Nat.zero_le _⟩⟩
  | playlist pl => exact ⟨rfl, rfl, Or.inl ⟨trivial, fun _ => Nat.zero_le _⟩⟩
  | generic g => exact ⟨rfl, rfl, Or.inl ⟨trivial, fun _ => Nat.zero_le _⟩⟩

theorem folderDocuments_spec (s : Settings) (host : Host) (subpath : JsString) (slim : Bool) :
    ∀ (docs : List Doc) (st st2 : FolderLoop) (zip zip2 : Zip),
    (slim = true → ∀ d ∈ docs, d.countedPages ≤ 10) →
    folderDocuments s host subpath docs st zip = (.ok st2, zip2) →
    st2.toc = st.toc ++ docs.map (tocLink s) ∧
    st2.subsort = (fun c => numAdd c 1)^[docs.length] st.subsort ∧
    ∃ leaves, st2.handed = st.handed ++ leaves ∧
      SortTree.laidOutFrom slim (numAdd st.subsort 1) leaves ∧
      leaves.length = docs.length ∧
      leaves.map SortTree.owner = docs.map fun d => d.doc.uuid := by
  intro docs
  induction docs with
  | nil =>
    intro st st2 zip zip2 _ h
    simp only [folderDocuments, Run.pure_apply, Prod.mk.injEq, Outcome.ok.injEq] at h
    obtain ⟨rfl, -⟩ := h
    exact ⟨by simp, by simp, [], by simp, trivial, rfl, rfl⟩
  | cons doc rest ih =>
    intro st st2 zip zip2 hw h
    rw [folderDocuments] at h
    obtain ⟨_, z1, -, h2⟩ := Run.bind_ok_inv _ _ _ _ _ h
    obtain ⟨e1, e2, leaves, e3, e4, e5, e6⟩ := ih _ _ _ _
      (fun hs d hd => hw hs d (List.mem_cons_of_mem _ hd)) h2
    obtain ⟨d1, d2, d3⟩ := documentCounters_laidOut slim doc (numAdd st.subsort 1)
      (numAdd_pos _) (fun hs => hw hs doc (List.mem_cons_self _ _))
    refine ⟨?_, ?_, documentCounters doc (numAdd st.subsort 1) :: leaves, ?_, ?_, ?_, ?_⟩
    · rw [e1]; simp
    · rw [e2]; simp only [List.length_cons, Function.iterate_succ_apply]
    · rw [e3]; simp
    · exact ⟨d1, d3, e4⟩
    · simp [e5]
    · simp [e6, d2]

/-- What `oneFolder` returns and writes last, by induction on the folder: the
tree of counters starts at the counter handed in, belongs to the folder, is
laid out by the loops, has one child for each sub-folder and then one for each
document in the order of `sort`; and the index file is the last write when
the list `toc` is not empty. -/
theorem oneFolder_spec (s : Settings) (host : Host) (slim : Bool) (folder : Folder) :
    ∀ (path : JsString) (sort : Nat) (zip zip2 : Zip) (tree : SortTree),
    (slim = true → folder.narrow) →
    oneFolder s host path folder sort zip = (.ok tree, zip2) →
    tree.sort = sort ∧ tree.owner = folder.doc.uuid ∧ tree.laidOut slim ∧
    SortTree.laidOutFrom slim (numAdd (numMul sort 10) 1) tree.children ∧
    tree.children.length = folder.subfolders.length + folder.contents.length ∧
    tree.children.map SortTree.owner =
      folder.subfolders.map (fun f => f.doc.uuid) ++
        (sortDocs folder.contents).map (fun d => d.doc.uuid) ∧
    ∃ z, zip2 =
      if (folderToc s (formpath path (validFilename folder.doc.name)) folder.subfolders
        folder.contents).length > 0 then z ++ [folderIndex s path folder sort]
      else z := by
  refine Folder.rec
    (motive_1 := fun folder => ∀ (path : JsString) (sort : Nat) (zip zip2 : Zip)
      (tree : SortTree), (slim = true → folder.narrow) →
      oneFolder s host path folder sort zip = (.ok tree, zip2) →
      tree.sort = sort ∧ tree.owner = folder.doc.uuid ∧ tree.laidOut slim ∧
      SortTree.laidOutFrom slim (numAdd (numMul sort 10) 1) tree.children ∧
      tree.children.length = folder.subfolders.length + folder.contents.length ∧
      tree.children.map SortTree.owner =
        folder.subfolders.map (fun f => f.doc.uuid) ++
          (sortDocs folder.contents).map (fun d => d.doc.uuid) ∧
      ∃ z, zip2 =
        if (folderToc s (formpath path (validFilename folder.doc.name)) folder.subfolders
          folder.contents).length > 0 then z ++ [folderIndex s path folder sort]
        else z)
    (motive_2 := fun subfolders => ∀ (subpath : JsString) (st st2 : FolderLoop)
      (zip zip2 : Zip), (slim = true → Folder.narrowList subfolders) →
      folderSubfolders s host subpath subfolders st zip = (.ok st2, zip2) →
      st2.toc = st.toc ++ subfolders.map (fun f =>
        tocFolderLink s (formpath subpath (validFilename f.doc.name)) f.doc) ∧
      st2.subsort = (fun c => numAdd c 1)^[subfolders.length] st.subsort ∧
      ∃ kids, st2.handed = st.handed ++ kids ∧
        SortTree.laidOutFrom slim (numAdd st.subsort 1) kids ∧
        kids.length = subfolders.length ∧
        kids.map SortTree.owner = subfolders.map fun f => f.doc.uuid)
    ?_ ?_ ?_ folder
  · intro doc subfolders contents ihs path sort zip zip2 tree hw h
    rw [oneFolder] at h
    obtain ⟨st1, z1, h1, h⟩ := Run.bind_ok_inv _ _ _ _ _ h
    obtain ⟨st2, z2, h2, h⟩ := Run.bind_ok_inv _ _ _ _ _ h
    obtain ⟨a0, a1, kids, a2, a3, a4, a5⟩ := ihs _ _ _ _ _ (fun hs => (hw hs).2.2) h1
    simp only [List.nil_append] at a0 a2
    have hperm : (sortDocs contents).length = contents.length :=
      List.length_insertionSort _ contents
    have hwd : slim = true → ∀ d ∈ sortDocs contents, d.countedPages ≤ 10 := by
      intro hs d hd
      exact (hw hs).2.1 d ((sortDocs_perm contents).mem_iff.1 hd)
    obtain ⟨b0, b1, leaves, b2, b3, b4, b5⟩ :=
      folderDocuments_spec s host _ slim _ _ _ _ _ hwd h2
    have hlen : st1.toc.length = subfolders.length := by rw [a0]; simp
    have htoc : st2.toc = folderToc s (formpath path (validFilename doc.name)) subfolders
        contents := by
      rw [b0]
      unfold folderToc
      by_cases hc : st1.toc.length > 0 ∧ contents.length > 0
      · have hc2 : subfolders.length > 0 ∧ contents.length > 0 := by rw [← hlen]; exact hc
        rw [if_pos hc, if_pos hc2]
        simp only [a0]
      · have hc2 : ¬ (subfolders.length > 0 ∧ contents.length > 0) := by rw [← hlen]; exact hc
        rw [if_neg hc, if_neg hc2, a0, List.append_nil]
    have hhanded : st2.handed = kids ++ leaves ∧
        SortTree.laidOutFrom slim (numAdd (numMul sort 10) 1) (kids ++ leaves) := by
      by_cases hc : st1.toc.length > 0 ∧ contents.length > 0
      · rw [if_pos hc] at b2 b3
        refine ⟨by rw [b2, a2], (laidOutFrom_append slim _ _ _).2 ⟨a3, ?_⟩⟩
        rw [a4, ← iterate_numAdd, ← a1]; exact b3
      · rw [if_neg hc] at b2 b3
        refine ⟨by rw [b2, a2], (laidOutFrom_append slim _ _ _).2 ⟨a3, ?_⟩⟩
        rw [a4, ← iterate_numAdd, ← a1]; exact b3
    have hcount : (kids ++ leaves).length = subfolders.length + contents.length := by
      rw [List.length_append, a4, b4, hperm]
    have hlaid : (SortTree.node sort doc.uuid (kids ++ leaves)).laidOut slim := by
      refine Or.inl ⟨hhanded.2, ?_⟩
      intro hs
      have := (hw hs).1
      omega
    have howner : (kids ++ leaves).map SortTree.owner =
        subfolders.map (fun f => f.doc.uuid) ++ (sortDocs contents).map (fun d => d.doc.uuid) := by
      rw [List.map_append, a5, b5]
    by_cases ht : st2.toc.length > 0
    · simp only [ht, if_true, Run.bind_apply, tableOfContents, putFile, Run.pure_apply,
        Prod.mk.injEq, Outcome.ok.injEq] at h
      obtain ⟨rfl, rfl⟩ := h
      rw [hhanded.1]
      refine ⟨rfl, rfl, hlaid, hhanded.2, hcount, howner, z2, ?_⟩
      rw [htoc] at ht
      simp only [Folder.subfolders, Folder.contents, Folder.doc, ht, if_true, folderIndex,
        Zip.file, htoc]
    · simp only [ht, if_false, Run.bind_apply, Run.pure_apply, Prod.mk.injEq,
        Outcome.ok.injEq] at h
      obtain ⟨rfl, rfl⟩ := h
      rw [hhanded.1]
      refine ⟨rfl, rfl, hlaid, hhanded.2, hcount, howner, z2, ?_⟩
      rw [htoc] at ht
      simp only [Folder.subfolders, Folder.contents, Folder.doc, ht, if_false]
  · intro subpath st st2 zip zip2 _ h
    simp only [folderSubfolders, Run.pure_apply, Prod.mk.injEq, Outcome.ok.injEq] at h
    obtain ⟨rfl, -⟩ := h
    exact ⟨by simp, by simp, [], by simp, trivial, rfl, rfl⟩
  · intro head tail ihh iht subpath st st2 zip zip2 hw h
    rw [folderSubfolders] at h
    obtain ⟨t, z1, h1, h2⟩ := Run.bind_ok_inv _ _ _ _ _ h
    obtain ⟨c1, c2, c3, -, -, -, -⟩ := ihh _ _ _ _ _ (fun hs => (hw hs).1) h1
    obtain ⟨e1, e2, kids, e3, e4, e5, e6⟩ := iht _ _ _ _ _ (fun hs => (hw hs).2) h2
    refine ⟨?_, ?_, t :: kids, ?_, ?_, ?_, ?_⟩
    · rw [e1]; simp
    · rw [e2]; simp only [List.length_cons, Function.iterate_succ_apply]
    · rw [e3]; simp
    · exact ⟨c1, c3, e4⟩
    · simp [e5]
    · simp [e6, c2]


/-! ### Scenes and playlists -/

set_option maxRecDepth 100000 in
/-- The export of a scene and of a playlist. With the setting `OPTION_LEAFLET`
on, `oneScene` schedules the foreground, the tiles and the background, in this
order, and writes the Leaflet block; a tile is labelled with what follows the
last `/` of its source, unless that `/` is the first code unit. With the
setting off the scene is exported like any other document. A playlist whose
playback order names a sound it does not hold throws a `TypeError`. -/
theorem oneDocument_scene_playlist :
    oneDocument nameSettings leafletHost (js "F") (.scene sampleScene) 1011 [] =
      (.ok (),
       [(js "zz_asset-files/maps-fog layer.png", .asset (js "maps/fog layer.png")),
        (js "zz_asset-files/tiles-doors-door.png", .asset (js "tiles/doors/door.png")),
        (js "zz_asset-files/-rug.png", .asset (js "/rug.png")),
        (js "zz_asset-files/lamp.png", .asset (js "lamp.png")),
        (js "zz_asset-files/maps-cave.webp", .asset (js "maps/cave.webp")),
        (js "F/Map.md",
         .text (js "---\ntitle: \"Map\"\nicon: \":map:\"\naliases: \"Map\"\nfoundryId: Scene.m\nsortOrder: \"0000001011\"\ntags:\n  - Scene\n---\n\n# Map\n\n\x60\x60\x60leaflet\nid: Scene.m\nbounds:\n    - [0, 0]\n    - [100, 200]\ndefaultZoom: 2\nlat: 50\nlong: 100\nheight: 100%\ndraw: false\nunit: ft\nshowAllMarkers: true\npreserveAspect: true\nimage: [[maps-cave.webp]]\nimageOverlay:\n    - [ [[maps-fog layer.png|Foreground]] ]\n    - [ [[tiles-doors-door.png|door.png]], [10, 0], [0, 10] ]\n    - [ [[-rug.png|/rug.png]], [4, 2], [2, 4] ]\n    - [ [[lamp.png]], [1, 1], [0, 2] ]\nmarker: default, 5, 5, [[Not Linked|Exit_ north]]\nmarker: default, 7, 8, [[World]]\n\x60\x60\x60"))]) ∧
    oneDocument nameSettings sampleHost (js "F") (.scene sampleScene) 1011 [] =
      (.ok (),
       [(js "F/Map.md",
         .text (js "---\ntitle: \"Map\"\nicon: \":map:\"\naliases: \"Map\"\nfoundryId: Scene.m\nsortOrder: \"0000001011\"\ntags:\n  - Scene\n---\n\n# Map\n\x60\x60\x60Scene\nname: Map\n\x60\x60\x60\n"))]) ∧
    oneDocument nameSettings sampleHost (js "F") (.playlist samplePlaylist) 1012 [] =
      (.ok (),
       [(js "zz_asset-files/music-lute.ogg", .asset (js "music/lute.ogg")),
        (js "zz_asset-files/music-drum.ogg", .asset (js "music/drum.ogg")),
        (js "F/Tavern.md",
         .text (js "---\ntitle: \"Tavern\"\nicon: \":music:\"\naliases: \"Tavern\"\nfoundryId: Playlist.t\nsortOrder: \"0000001012\"\ntags:\n  - Playlist\n---\n\n# Tavern\nEvening music\n\n#### Lute\nslow\n![[music-lute.ogg]]\n#### Drum\n![[music-drum.ogg]]\n"))]) ∧
    oneDocument nameSettings sampleHost (js "F")
        (.playlist ⟨samplePlaylist.doc, none, [none]⟩) 1012 [] = (.throws .TypeError, []) ∧
    tileName (js "tiles/doors/door.png") = js "door.png" ∧
    tileName (js "/rug.png") = js "/rug.png" ∧
    tileName (js "lamp.png") = js "lamp.png" := by
  decide

/-! ### What an export adds to the archive -/

theorem Run.adds_pure {α : Type} (a : α) (P : FileData → Prop) : Run.Adds (pure a : Run α) P := by
  intro zip
  exact ⟨[], by simp [Run.pure_apply], by simp⟩

theorem Run.adds_throw {α : Type} (e : JsError) (P : FileData → Prop) :
    Run.Adds (Run.throw e : Run α) P := by
  intro zip
  exact ⟨[], by simp [Run.throw], by simp⟩

theorem Run.adds_ofOutcome {α : Type} (o : Outcome α) (P : FileData → Prop) :
    Run.Adds (Run.ofOutcome o) P := by
  intro zip
  exact ⟨[], by simp [Run.ofOutcome], by simp⟩

theorem Run.adds_mono {α : Type} (m : Run α) (P Q : FileData → Prop) (h : ∀ d, P d → Q d)
    (hm : Run.Adds m P) : Run.Adds m Q := by
  intro zip
  obtain ⟨w, e, hw⟩ := hm zip
  exact ⟨w, e, fun x hx => h _ (hw x hx)⟩

theorem Run.adds_bind {α β : Type} (m : Run α) (f : α → Run β) (P : FileData → Prop)
    (hm : Run.Adds m P) (hf : ∀ a, Run.Adds (f a) P) : Run.Adds (m >>= f) P := by
  intro zip
  obtain ⟨w, e, hw⟩ := hm zip
  rw [Run.bind_apply]
  rcases h : m zip with ⟨o, z1⟩
  rw [h] at e
  simp only at e
  subst e
  cases o with
  | ok a =>
    obtain ⟨w2, e2, hw2⟩ := hf a (zip ++ w)
    refine ⟨w ++ w2, by simp only; rw [e2, List.append_assoc], ?_⟩
    intro x hx
    rcases List.mem_append.1 hx with hx | hx
    · exact hw x hx
    · exact hw2 x hx
  | throws err => exact ⟨w, rfl, hw⟩
  | hangs => exact ⟨w, rfl, hw⟩

theorem Run.adds_bind_of {α β : Type} (m : Run α) (f : α → Run β) (P : FileData → Prop)
    (Q : α → Prop) (hm : Run.Adds m P) (hq : ∀ zip a zip1, m zip = (.ok a, zip1) → Q a)
    (hf : ∀ a, Q a → Run.Adds (f a) P) : Run.Adds (m >>= f) P := by
  intro zip
  obtain ⟨w, e, hw⟩ := hm zip
  rw [Run.bind_apply]
  rcases h : m zip with ⟨o, z1⟩
  rw [h] at e
  simp only at e
  subst e
  cases o with
  | ok a =>
    obtain ⟨w2, e2, hw2⟩ := hf a (hq zip a _ h) (zip ++ w)
    refine ⟨w ++ w2, by simp only; rw [e2, List.append_assoc], ?_⟩
    intro x hx
    rcases List.mem_append.1 hx with hx | hx
    · exact hw x hx
    · exact hw2 x hx
  | throws err => exact ⟨w, rfl, hw⟩
  | hangs => exact ⟨w, rfl, hw⟩

theorem Run.ok_pure {α : Type} (a b : α) (zip zip1 : Zip)
    (h : (pure a : Run α) zip = (.ok b, zip1)) : b = a := by
  rw [Run.pure_apply] at h
  simp only [Prod.mk.injEq, Outcome.ok.injEq] at h
  exact h.1.symm

theorem journalToc_extends (s : Settings) : ∀ (pages : List Page) (markdown md : JsString),
    journalToc s pages markdown = .ok md → ∃ rest, md = markdown ++ rest := by
  intro pages
  induction pages with
  | nil =>
    intro markdown md h
    simp only [journalToc, Outcome.ok.injEq] at h
    exact ⟨[], by simp [h]⟩
  | cons p ps ih =>
    intro markdown md h
    unfold journalToc at h
    cases hi : indent p.level with
    | ok spaces =>
      rw [hi] at h
      obtain ⟨rest, e⟩ := ih _ _ h
      exact ⟨js "\n" ++ spaces ++ js "- " ++
        formatLink (docfilename s p.doc) (some p.doc.name) false ++ rest, by
        rw [e]; simp only [List.append_assoc]⟩
    | throws e => rw [hi] at h; cases h
    | hangs => rw [hi] at h; cases h

theorem putFile_adds (dir name : JsString) (data : FileData) (P : FileData → Prop)
    (h : P data) : Run.Adds (putFile dir name data) P := by
  intro zip
  refine ⟨[(entryPath dir name, data)], rfl, ?_⟩
  intro x hx
  rw [List.mem_singleton.1 hx]
  exact h

theorem fileconvert_adds (filename : JsString) (label : Option JsString) (inline : Bool)
    (P : FileData → Prop) (h : ∀ d, FileData.isAsset d → P d) :
    Run.Adds (fileconvert filename label inline) P := by
  intro zip
  unfold fileconvert
  cases decodeURIComponent filename with
  | none => exact ⟨[], by simp, by simp⟩
  | some d =>
    refine ⟨[(entryPath destForImages
      (slice (-250 + (destForImages.length : Int)) (replaceAllUnit 47 (js "-") d)),
      .asset d)], rfl, ?_⟩
    intro x hx
    rw [List.mem_singleton.1 hx]
    exact h _ ⟨d, rfl⟩

theorem replaceLinkedFile_adds (str filename : JsString) (P : FileData → Prop)
    (h : ∀ d, FileData.isAsset d → P d) : Run.Adds (replaceLinkedFile str filename) P := by
  unfold replaceLinkedFile
  split
  · exact Run.adds_pure _ P
  · exact fileconvert_adds _ _ _ P h

theorem replaceFiles_adds (P : FileData → Prop) (h : ∀ d, FileData.isAsset d → P d) :
    ∀ (t : JsString) (skip : Nat), Run.Adds (replaceFiles skip t) P := by
  intro t
  induction t with
  | nil =>
    intro skip
    cases skip <;> (unfold replaceFiles; exact Run.adds_pure _ P)
  | cons c cs ih =>
    intro skip
    cases skip with
    | succ k => unfold replaceFiles; exact ih k
    | zero =>
      unfold replaceFiles
      split
      · exact Run.adds_bind _ _ P (replaceLinkedFile_adds _ _ P h) fun link =>
          Run.adds_bind _ _ P (ih _) fun rest => Run.adds_pure _ P
      · exact Run.adds_bind _ _ P (ih _) fun rest => Run.adds_pure _ P

theorem convertLinks_adds (s : Settings) (host : Host) (markdown : Option JsString)
    (rel : Document) (P : FileData → Prop) (h : ∀ d, FileData.isAsset d → P d) :
    Run.Adds (convertLinks s host markdown rel) P := by
  unfold convertLinks
  cases markdown with
  | none => exact Run.adds_throw _ P
  | some m => exact replaceFiles_adds P h _ _

theorem convertHtml_adds (s : Settings) (host : Host) (doc : Document) (html : Option JsString)
    (P : FileData → Prop) (h : ∀ d, FileData.isAsset d → P d) :
    Run.Adds (convertHtml s host doc html) P := by
  intro zip
  unfold convertHtml
  obtain ⟨w, e, hw⟩ := convertLinks_adds s host html doc P h zip
  rcases h1 : convertLinks s host html doc zip with ⟨o, z1⟩
  rw [h1] at e
  simp only at e
  subst e
  cases o with
  | ok linked =>
    simp only
    cases host.turndown linked with
    | none => exact ⟨w, rfl, hw⟩
    | some turned =>
      simp only
      obtain ⟨w2, e2, hw2⟩ := replaceFiles_adds P h
        (replaceAllStr (js "\\]\\]") (js "]]") 0 (replaceAllStr (js "\\[\\[") (js "[[") 0 turned)) 0
        (zip ++ w)
      rcases h2 : replaceFiles 0
        (replaceAllStr (js "\\]\\]") (js "]]") 0 (replaceAllStr (js "\\[\\[") (js "[[") 0 turned))
        (zip ++ w) with ⟨o2, z2⟩
      rw [h2] at e2
      simp only at e2
      subst e2
      have hall : ∀ x ∈ w ++ w2, P x.2 := by
        intro x hx
        rcases List.mem_append.1 hx with hx | hx
        · exact hw x hx
        · exact hw2 x hx
      cases o2 with
      | ok c => exact ⟨w ++ w2, by simp, hall⟩
      | throws err => exact ⟨w ++ w2, by simp, hall⟩
      | hangs => exact ⟨w ++ w2, by simp, hall⟩
  | throws err => exact ⟨w, rfl, hw⟩
  | hangs => exact ⟨w, rfl, hw⟩

theorem convertPage_adds (s : Settings) (host : Host) (page : Page)
    (P : FileData → Prop) (h : ∀ d, FileData.isAsset d → P d) :
    Run.Adds (convertPage s host page) P := by
  unfold convertPage
  split
  · split
    · exact convertHtml_adds s host _ _ P h
    · split
      · exact Run.adds_pure _ P
      · exact Run.adds_pure _ P
  · split
    · refine Run.adds_bind _ _ P ?_ fun markdown => ?_
      · split
        · exact Run.adds_bind _ _ P (fileconvert_adds _ _ _ P h) fun link => Run.adds_pure _ P
        · exact Run.adds_pure _ P
      · split
        · exact Run.adds_pure _ P
        · exact Run.adds_pure _ P
    · exact Run.adds_pure _ P

theorem Run.adds_probe {α β : Type} (probe : Zip → Option β) (f : β → Run α)
    (P : FileData → Prop) (hf : ∀ b, Run.Adds (f b) P) :
    Run.Adds (fun zip =>
      match probe zip with
      | none => (.hangs, zip)
      | some b => f b zip) P := by
  intro zip
  simp only
  cases probe zip with
  | none => exact ⟨[], by simp, by simp⟩
  | some b => exact hf b zip

theorem journalPages_adds (s : Settings) (host : Host) (subpath : JsString) (journal : Journal) :
    ∀ (pages : List Page) (subsort : Nat) (P : FileData → Prop),
    (∀ d, FileData.isAsset d → P d) →
    (∀ t ∈ pageCounters journal pages subsort, ∀ page ∈ pages, t.owner = page.doc.uuid →
      ∀ rest, P (.text (frontmatter page.doc t.sort page.showTitle false ++ rest))) →
    Run.Adds (journalPages s host subpath journal pages subsort) P := by
  intro pages
  induction pages with
  | nil =>
    intro subsort P _ _
    unfold journalPages
    exact Run.adds_pure _ _
  | cons page rest ih =>
    intro subsort P ha hp
    by_cases hc : page.doc.name ≠ journal.doc.name ∨ journal.pages.length = 1
    · have hpc : pageCounters journal (page :: rest) subsort =
          .node subsort page.doc.uuid [] :: pageCounters journal rest (numAdd subsort 1) := by
        rw [pageCounters, if_pos hc]
      have hrest : Run.Adds (journalPages s host subpath journal rest (numAdd subsort 1)) P :=
        ih (numAdd subsort 1) P ha fun t ht q hq e r =>
          hp t (by rw [hpc]; exact List.mem_cons_of_mem _ ht) q (List.mem_cons_of_mem _ hq) e r
      rw [journalPages, if_pos hc]
      intro zip
      simp only
      cases pageName zip subpath
        (notefilename s page.doc (some (journal.doc, journal.pages.length))) with
      | none => exact ⟨[], by simp, by simp⟩
      | some name =>
        refine Run.adds_bind _ _ P (convertPage_adds s host page P ha) (fun markdown => ?_) zip
        split
        · refine Run.adds_bind _ _ P ?_ fun _ => hrest
          refine putFile_adds _ _ _ P
            (hp (.node subsort page.doc.uuid []) ?_ page (List.mem_cons_self _ _) rfl _)
          rw [hpc]
          exact List.mem_cons_self _ _
        · exact Run.adds_bind _ _ P (Run.adds_pure _ P) fun _ => hrest
    · have hpc : pageCounters journal (page :: rest) subsort =
          pageCounters journal rest subsort := by
        rw [pageCounters, if_neg hc]
      rw [journalPages, if_neg hc]
      exact ih subsort P ha fun t ht q hq e r =>
        hp t (by rw [hpc]; exact ht) q (List.mem_cons_of_mem _ hq) e r

/-- What `oneJournal` adds to the archive: assets, the index file of the
journal with the counter handed in, and the files of the pages with the
counters of `pageCounters`. -/
theorem oneJournal_adds (s : Settings) (host : Host) (path : JsString) (journal : Journal)
    (sort : Nat) (P : FileData → Prop) (ha : ∀ d, FileData.isAsset d → P d)
    (hj : ∀ rest, P (.text (frontmatter journal.doc sort true false ++ rest)))
    (hp : ∀ t ∈ pageCounters journal (sortPages journal.pages)
        (if journal.pages.length > 1 then numMul sort 10 else sort),
      ∀ page ∈ journal.pages, t.owner = page.doc.uuid →
      ∀ rest, P (.text (frontmatter page.doc t.sort page.showTitle false ++ rest))) :
    Run.Adds (oneJournal s host path journal sort) P := by
  have hpages : ∀ subpath, Run.Adds (journalPages s host subpath journal (sortPages journal.pages)
      (if journal.pages.length > 1 then numMul sort 10 else sort)) P := fun subpath =>
    journalPages_adds s host subpath journal _ _ P ha fun t ht q hq e r =>
      hp t ht q ((sortPages_perm _).mem_iff.1 hq) e r
  unfold oneJournal
  by_cases hl : journal.pages.length > 1
  · simp only [hl, if_true] at hpages ⊢
    refine Run.adds_bind_of _ _ P
      (fun markdown => ∃ rest, markdown = frontmatter journal.doc sort true false ++ rest)
      ?_ ?_ fun markdown hm => ?_
    · split
      · exact Run.adds_bind _ _ P (convertPage_adds s host _ P ha) fun _ => Run.adds_pure _ P
      · exact Run.adds_pure _ P
    · intro zip a zip1 h
      cases hf : journal.pages.find? (fun page => page.doc.name = journal.doc.name) with
      | some page =>
        rw [hf] at h
        obtain ⟨c, z, -, h2⟩ := Run.bind_ok_inv _ _ _ _ _ h
        rw [Run.ok_pure _ _ _ _ h2]
        exact ⟨js "\n" ++ toStr c ++ js "\n\n---\n", by simp only [List.append_assoc]⟩
      | none =>
        rw [hf] at h
        rw [Run.ok_pure _ _ _ _ h]
        exact ⟨[], by simp⟩
    · obtain ⟨r0, hr0⟩ := hm
      refine Run.adds_bind_of _ _ P
        (fun md => ∃ rest, md = frontmatter journal.doc sort true false ++ rest)
        (Run.adds_ofOutcome _ P) ?_ fun md hmd => ?_
      · intro zip a zip1 h
        simp only [Run.ofOutcome, Prod.mk.injEq] at h
        obtain ⟨r1, hr1⟩ := journalToc_extends s _ _ _ h.1
        exact ⟨r0 ++ js "\n## Table of Contents\n" ++ r1, by
          rw [hr1, hr0]; simp only [List.append_assoc]⟩
      · obtain ⟨r2, hr2⟩ := hmd
        refine Run.adds_bind _ _ P ?_ fun _ => hpages _
        rw [hr2]
        exact putFile_adds _ _ _ P (hj _)
  · simp only [hl, if_false] at hpages ⊢
    exact Run.adds_bind _ _ P (Run.adds_pure _ P) fun _ => hpages _

theorem rollTableRows_extends (s : Settings) (host : Host) (table : RollTable) :
    ∀ (results : List TableResult) (markdown md : JsString) (zip zip1 : Zip),
    rollTableRows s host table results markdown zip = (.ok md, zip1) →
    ∃ rest, md = markdown ++ rest := by
  intro results
  induction results with
  | nil =>
    intro markdown md zip zip1 h
    rw [rollTableRows] at h
    rw [Run.ok_pure _ _ _ _ h]
    exact ⟨[], by simp⟩
  | cons r rs ih =>
    intro markdown md zip zip1 h
    rw [rollTableRows] at h
    obtain ⟨text, z, -, h2⟩ := Run.bind_ok_inv _ _ _ _ _ h
    obtain ⟨rest, e⟩ := ih _ _ _ _ h2
    exact ⟨_, by rw [e]; simp only [List.append_assoc]; rfl⟩

theorem rollTableRows_adds (s : Settings) (host : Host) (table : RollTable)
    (P : FileData → Prop) (ha : ∀ d, FileData.isAsset d → P d) :
    ∀ (results : List TableResult) (markdown : JsString),
    Run.Adds (rollTableRows s host table results markdown) P := by
  intro results
  induction results with
  | nil =>
    intro markdown
    rw [rollTableRows]
    exact Run.adds_pure _ P
  | cons r rs ih =>
    intro markdown
    rw [rollTableRows]
    exact Run.adds_bind _ _ P (convertLinks_adds s host _ _ P ha) fun text => ih _

theorem oneRollTable_adds (s : Settings) (host : Host) (path : JsString) (table : RollTable)
    (sort : Nat) (P : FileData → Prop) (ha : ∀ d, FileData.isAsset d → P d)
    (hk : ∀ rest, P (.text (frontmatter table.doc sort true false ++ rest))) :
    Run.Adds (oneRollTable s host path table sort) P := by
  unfold oneRollTable
  refine Run.adds_bind_of _ _ P
    (fun md => ∃ rest, md = frontmatter table.doc sort true false ++ rest)
    (rollTableRows_adds s host table P ha _ _) ?_ fun md hmd => ?_
  · intro zip a zip1 h
    obtain ⟨rest, e⟩ := rollTableRows_extends s host table _ _ _ _ _ h
    split at e
    · exact ⟨_, by rw [e]; simp only [List.append_assoc]; rfl⟩
    · exact ⟨_, by rw [e]; simp only [List.append_assoc]; rfl⟩
  · obtain ⟨rest, e⟩ := hmd
    rw [e]
    exact putFile_adds _ _ _ P (hk _)

theorem descriptionFields_extends (s : Settings) (host : Host) (g : GenericDoc) :
    ∀ (fields : List JsString) (markdown md : JsString) (zip zip1 : Zip),
    descriptionFields s host g fields markdown zip = (.ok md, zip1) →
    ∃ rest, md = markdown ++ rest := by
  intro fields
  induction fields with
  | nil =>
    intro markdown md zip zip1 h
    rw [descriptionFields] at h
    rw [Run.ok_pure _ _ _ _ h]
    exact ⟨[], by simp⟩
  | cons f fs ih =>
    intro markdown md zip zip1 h
    rw [descriptionFields] at h
    split at h
    · obtain ⟨c, z, -, h2⟩ := Run.bind_ok_inv _ _ _ _ _ h
      obtain ⟨rest, e⟩ := ih _ _ _ _ h2
      exact ⟨toStr c ++ EOL ++ EOL ++ rest, by rw [e]; simp only [List.append_assoc]⟩
    · exact ih _ _ _ _ h

theorem descriptionFields_adds (s : Settings) (host : Host) (g : GenericDoc)
    (P : FileData → Prop) (ha : ∀ d, FileData.isAsset d → P d) :
    ∀ (fields : List JsString) (markdown : JsString),
    Run.Adds (descriptionFields s host g fields markdown) P := by
  intro fields
  induction fields with
  | nil =>
    intro markdown
    rw [descriptionFields]
    exact Run.adds_pure _ P
  | cons f fs ih =>
    intro markdown
    rw [descriptionFields]
    split
    · exact Run.adds_bind _ _ P (convertHtml_adds s host _ _ P ha) fun c => ih _
    · exact ih _

theorem documentToJSON_adds (s : Settings) (host : Host) (path : JsString) (g : GenericDoc)
    (sort : Nat) (P : FileData → Prop) (ha : ∀ d, FileData.isAsset d → P d)
    (hk : ∀ rest, P (.text (frontmatter g.doc sort true false ++ rest))) :
    Run.Adds (documentToJSON s host path g sort) P := by
  unfold documentToJSON
  refine Run.adds_bind_of _ _ P
    (fun md => ∃ rest, md = frontmatter g.doc sort true false ++ rest) ?_ ?_ fun md hmd => ?_
  · split
    · exact Run.adds_bind _ _ P (fileconvert_adds _ _ _ P ha) fun _ => Run.adds_pure _ P
    · exact Run.adds_pure _ P
  · intro zip a zip1 h
    split at h
    · obtain ⟨c, z, -, h2⟩ := Run.bind_ok_inv _ _ _ _ _ h
      rw [Run.ok_pure _ _ _ _ h2]
      exact ⟨c ++ EOL ++ EOL, by simp only [List.append_assoc]⟩
    · rw [Run.ok_pure _ _ _ _ h]
      exact ⟨[], by simp⟩
  · obtain ⟨r0, hr0⟩ := hmd
    refine Run.adds_bind_of _ _ P
      (fun md => ∃ rest, md = frontmatter g.doc sort true false ++ rest)
      (descriptionFields_adds s host g P ha _ _) ?_ fun md2 hmd2 => ?_
    · intro zip a zip1 h
      obtain ⟨r1, e⟩ := descriptionFields_extends s host g _ _ _ _ _ h
      exact ⟨r0 ++ r1, by rw [e, hr0]; simp only [List.append_assoc]⟩
    · obtain ⟨r2, hr2⟩ := hmd2
      refine Run.adds_bind _ _ P (convertLinks_adds s host _ _ P ha) fun datastring => ?_
      rw [hr2, List.append_assoc]
      exact putFile_adds _ _ _ P (hk _)

theorem maybeTemplate_adds (s : Settings) (host : Host) (path : JsString) (g : GenericDoc)
    (sort : Nat) (P : FileData → Prop) (ha : ∀ d, FileData.isAsset d → P d)
    (hk : ∀ rest, P (.text (frontmatter g.doc sort true false ++ rest)))
    (ht : ∀ render markdown, g.template = some render → render sort = some markdown →
      P (.text markdown)) :
    Run.Adds (maybeTemplate s host path g sort) P := by
  unfold maybeTemplate
  cases hg : g.template with
  | none => exact documentToJSON_adds s host path g sort P ha hk
  | some render =>
    simp only
    have hlast : Run.Adds (match render sort with
        | none => Run.throw .Error
        | some markdown => putFile path (zipfilename s g.doc) (.text markdown) : Run Unit) P := by
      cases hr : render sort with
      | none => exact Run.adds_throw _ P
      | some markdown => exact putFile_adds _ _ _ P (ht render markdown hg hr)
    split
    · exact Run.adds_bind _ _ P (fileconvert_adds _ _ _ P ha) fun _ =>
        Run.adds_bind _ _ P (Run.adds_pure _ P) fun _ => hlast
    · exact Run.adds_bind _ _ P (Run.adds_pure _ P) fun _ => hlast

theorem sceneTiles_adds (P : FileData → Prop) (ha : ∀ d, FileData.isAsset d → P d) :
    ∀ (tiles : List Tile) (overlays : List JsString), Run.Adds (sceneTiles tiles overlays) P := by
  intro tiles
  induction tiles with
  | nil =>
    intro overlays
    rw [sceneTiles]
    exact Run.adds_pure _ P
  | cons tile rest ih =>
    intro overlays
    rw [sceneTiles]
    cases tile.src with
    | none => exact Run.adds_throw _ P
    | some src => exact Run.adds_bind _ _ P (fileconvert_adds _ _ _ P ha) fun link => ih _

theorem sceneNotes_extends (s : Settings) : ∀ (notes : List SceneNote) (markdown : JsString),
    markdown <+: sceneNotes s notes markdown := by
  intro notes
  induction notes with
  | nil => intro markdown; rw [sceneNotes]
  | cons note rest ih =>
    intro markdown
    rw [sceneNotes]
    refine List.IsPrefix.trans ?_ (ih _)
    simp only [List.append_assoc]
    exact List.prefix_append _ _

theorem oneScene_adds (s : Settings) (path : JsString) (scene : Scene)
    (sort : Nat) (P : FileData → Prop) (ha : ∀ d, FileData.isAsset d → P d)
    (hk : ∀ rest, P (.text (frontmatter scene.generic.doc sort true false ++ rest))) :
    Run.Adds (oneScene s path scene sort) P := by
  unfold oneScene
  refine Run.adds_bind _ _ P ?_ fun overlays => ?_
  · split
    · exact Run.adds_bind _ _ P (fileconvert_adds _ _ _ P ha) fun _ => Run.adds_pure _ P
    · exact Run.adds_pure _ P
  · refine Run.adds_bind _ _ P (sceneTiles_adds P ha _ _) fun overlays2 => ?_
    refine Run.adds_bind _ _ P (fileconvert_adds _ _ _ P ha) fun image => ?_
    simp only
    obtain ⟨r, e⟩ := sceneNotes_extends s scene.notes
      (frontmatter scene.generic.doc sort true false ++
    (js "\n" ++ MARKER ++ js "leaflet\n" ++
    js "id: " ++ scene.generic.doc.uuid ++ js "\n" ++
    js "bounds:\n    - [0, 0]\n    - [" ++ scene.height ++ js ", " ++ scene.width ++ js "]\n" ++
    js "defaultZoom: 2\n" ++
    js "lat: " ++ scene.lat ++ js "\n" ++
    js "long: " ++ scene.long ++ js "\n" ++
    js "height: 100%\n" ++
    js "draw: false\n" ++
    js "unit: " ++ scene.units ++ js "\n" ++
    js "showAllMarkers: true\n" ++
    js "preserveAspect: true\n" ++
    js "image: " ++ image ++ js "\n" ++
    (if overlays2.length = 0 then []
    else js "imageOverlay:\n" ++ overlays2.flatMap fun layer => js "    - [ " ++ layer ++ js " ]\n")))
    rw [← e]
    simp only [List.append_assoc]
    exact putFile_adds _ _ _ P (hk _)

theorem playlistSounds_extends :
    ∀ (sounds : List (Option Sound)) (markdown md : JsString) (zip zip1 : Zip),
    playlistSounds sounds markdown zip = (.ok md, zip1) → ∃ rest, md = markdown ++ rest := by
  intro sounds
  induction sounds with
  | nil =>
    intro markdown md zip zip1 h
    rw [playlistSounds] at h
    rw [Run.ok_pure _ _ _ _ h]
    exact ⟨[], by simp⟩
  | cons sound rest ih =>
    intro markdown md zip zip1 h
    cases sound with
    | none => rw [playlistSounds] at h; simp [Run.throw] at h
    | some sound =>
      rw [playlistSounds] at h
      obtain ⟨link, z, -, h2⟩ := Run.bind_ok_inv _ _ _ _ _ h
      obtain ⟨r, e⟩ := ih _ _ _ _ h2
      split at e
      · exact ⟨_, by rw [e]; simp only [List.append_assoc]; rfl⟩
      · exact ⟨_, by rw [e]; simp only [List.append_assoc]; rfl⟩

theorem playlistSounds_adds (P : FileData → Prop) (ha : ∀ d, FileData.isAsset d → P d) :
    ∀ (sounds : List (Option Sound)) (markdown : JsString),
    Run.Adds (playlistSounds sounds markdown) P := by
  intro sounds
  induction sounds with
  | nil =>
    intro markdown
    rw [playlistSounds]
    exact Run.adds_pure _ P
  | cons sound rest ih =>
    intro markdown
    cases sound with
    | none => rw [playlistSounds]; exact Run.adds_throw _ P
    | some sound =>
      rw [playlistSounds]
      exact Run.adds_bind _ _ P (fileconvert_adds _ _ _ P ha) fun link => ih _

theorem onePlaylist_adds (s : Settings) (path : JsString) (playlist : Playlist)
    (sort : Nat) (P : FileData → Prop) (ha : ∀ d, FileData.isAsset d → P d)
    (hk : ∀ rest, P (.text (frontmatter playlist.doc sort true false ++ rest))) :
    Run.Adds (onePlaylist s path playlist sort) P := by
  unfold onePlaylist
  refine Run.adds_bind_of _ _ P
    (fun md => ∃ rest, md = frontmatter playlist.doc sort true false ++ rest)
    (playlistSounds_adds P ha _ _) ?_ fun md hmd => ?_
  · intro zip a zip1 h
    obtain ⟨rest, e⟩ := playlistSounds_extends _ _ _ _ _ h
    split at e
    · exact ⟨_, by rw [e]; simp only [List.append_assoc]; rfl⟩
    · exact ⟨_, e⟩
  · obtain ⟨rest, e⟩ := hmd
    rw [e]
    exact putFile_adds _ _ _ P (hk _)

theorem pageCounters_short (journal : Journal) : ∀ (pages : List Page) (c : Nat),
    pages.length ≤ 1 → ∀ t ∈ pageCounters journal pages c, t.sort = c := by
  intro pages c hl t ht
  match pages, hl with
  | [], _ => simp [pageCounters] at ht
  | [p], _ =>
    rw [pageCounters] at ht
    split at ht
    · simp only [pageCounters, List.mem_singleton] at ht
      rw [ht]
      rfl
    · simp [pageCounters] at ht

theorem FileData.admitted_mono (docs docs2 : List Doc) (cs cs2 : List Nat)
    (hd : ∀ d ∈ docs, d ∈ docs2) (hc : ∀ c ∈ cs, c ∈ cs2) (data : FileData)
    (h : data.admitted docs cs) : data.admitted docs2 cs2 := by
  rcases h with h | ⟨c, hm, hk⟩ | ⟨d, hm, render, e, c, hcm, md, e2, e3⟩
  · exact Or.inl h
  · exact Or.inr (Or.inl ⟨c, hc c hm, hk⟩)
  · exact Or.inr (Or.inr ⟨d, hd d hm, render, e, c, hc c hcm, md, e2, e3⟩)

/-- What `oneDocument` adds to the archive for a document and a counter. -/
theorem oneDocument_adds (s : Settings) (host : Host) (path : JsString) (doc : Doc)
    (sort : Nat) :
    Run.Adds (oneDocument s host path doc sort)
      (FileData.admitted [doc] (documentCounters doc sort).counters) := by
  have ha : ∀ d, FileData.isAsset d →
      FileData.admitted [doc] (documentCounters doc sort).counters d := fun d hd => Or.inl hd
  have hroot : sort ∈ (documentCounters doc sort).counters := by
    have := SortTree.sort_mem_counters (documentCounters doc sort)
    cases doc <;> exact this
  have hk : ∀ (dd : Document) (rest : JsString),
      FileData.admitted [doc] (documentCounters doc sort).counters
        (.text (frontmatter dd sort true false ++ rest)) := fun dd rest =>
    Or.inr (Or.inl ⟨sort, hroot, Or.inl ⟨dd, true, false, rest, rfl⟩⟩)
  cases doc with
  | journal j =>
    refine oneJournal_adds s host path j sort _ ha (hk _) ?_
    intro t ht page hp e rest
    refine Or.inr (Or.inl ⟨t.sort, ?_, Or.inl ⟨page.doc, page.showTitle, false, rest, rfl⟩⟩)
    by_cases hl : j.pages.length > 1
    · simp only [hl, if_true] at ht
      simp only [documentCounters, hl, if_true, SortTree.counters, List.mem_cons]
      exact Or.inr (SortTree.counters_of_mem t _ ht _ (SortTree.sort_mem_counters t))
    · simp only [hl, if_false] at ht
      have hlen : (sortPages j.pages).length ≤ 1 := by
        rw [(sortPages_perm j.pages).length_eq]
        omega
      rw [pageCounters_short j _ _ hlen t ht]
      exact hroot
  | rollTable tb => exact oneRollTable_adds s host path tb sort _ ha (hk _)
  | scene sc =>
    unfold oneDocument
    simp only
    split
    · exact oneScene_adds s path sc sort _ ha (hk _)
    · refine maybeTemplate_adds s host path sc.generic sort _ ha (hk _) ?_
      intro render md e1 e2
      exact Or.inr (Or.inr ⟨.scene sc, List.mem_singleton.2 rfl, render, e1, sort, hroot, md, e2,
        rfl⟩)
  | playlist pl => exact onePlaylist_adds s path pl sort _ ha (hk _)
  | generic g =>
    refine maybeTemplate_adds s host path g sort _ ha (hk _) ?_
    intro render md e1 e2
    exact Or.inr (Or.inr ⟨.generic g, List.mem_singleton.2 rfl, render, e1, sort, hroot, md, e2,
      rfl⟩)

theorem folderDocuments_adds (s : Settings) (host : Host) (subpath : JsString) :
    ∀ (docs : List Doc) (st st2 : FolderLoop) (zip zip2 : Zip),
    folderDocuments s host subpath docs st zip = (.ok st2, zip2) →
    ∃ leaves written, st2.handed = st.handed ++ leaves ∧ zip2 = zip ++ written ∧
      ∀ e ∈ written, FileData.admitted docs (SortTree.countersList leaves) e.2 := by
  intro docs
  induction docs with
  | nil =>
    intro st st2 zip zip2 h
    simp only [folderDocuments, Run.pure_apply, Prod.mk.injEq, Outcome.ok.injEq] at h
    obtain ⟨rfl, rfl⟩ := h
    exact ⟨[], [], by simp, by simp, by simp⟩
  | cons doc rest ih =>
    intro st st2 zip zip2 h
    rw [folderDocuments] at h
    obtain ⟨_, z1, h1, h2⟩ := Run.bind_ok_inv _ _ _ _ _ h
    obtain ⟨leaves, w2, e1, e2, e3⟩ := ih _ _ _ _ h2
    obtain ⟨w1, f1, f2⟩ := oneDocument_adds s host subpath doc (numAdd st.subsort 1) zip
    rw [h1] at f1
    simp only at f1
    refine ⟨documentCounters doc (numAdd st.subsort 1) :: leaves, w1 ++ w2, ?_, ?_, ?_⟩
    · rw [e1]; simp
    · rw [e2, f1, List.append_assoc]
    · intro e he
      rcases List.mem_append.1 he with he | he
      · refine FileData.admitted_mono _ _ _ _ ?_ ?_ _ (f2 e he)
        · intro d hd
          rw [List.mem_singleton.1 hd]
          exact List.mem_cons_self _ _
        · intro c hc
          simp only [SortTree.countersList, List.mem_append]
          exact Or.inl hc
      · refine FileData.admitted_mono _ _ _ _ ?_ ?_ _ (e3 e he)
        · intro d hd
          exact List.mem_cons_of_mem _ hd
        · intro c hc
          simp only [SortTree.countersList, List.mem_append]
          exact Or.inr hc

theorem SortTree.countersList_append (xs ys : List SortTree) :
    SortTree.countersList (xs ++ ys) = SortTree.countersList xs ++ SortTree.countersList ys := by
  induction xs with
  | nil => simp [SortTree.countersList]
  | cons x xs ih => simp [SortTree.countersList, ih]

theorem tocLines_extends : ∀ (links : List JsString) (markdown : JsString),
    markdown <+: tocLines links markdown := by
  intro links
  induction links with
  | nil => intro markdown; rw [tocLines]
  | cons link rest ih =>
    intro markdown
    rw [tocLines]
    exact List.IsPrefix.trans (List.prefix_append _ _) (ih _)

/-- What `oneFolder` adds to the archive, by induction on the folder: assets,
texts that open with the front matter for a counter of the tree returned, and
what the templates of the documents of the folder make of such a counter. -/
theorem oneFolder_adds (s : Settings) (host : Host) (folder : Folder) :
    ∀ (path : JsString) (sort : Nat) (zip zip2 : Zip) (tree : SortTree),
    oneFolder s host path folder sort zip = (.ok tree, zip2) →
    ∃ written, zip2 = zip ++ written ∧
      ∀ e ∈ written, FileData.admitted folder.documents tree.counters e.2 := by
  refine Folder.rec
    (motive_1 := fun folder => ∀ (path : JsString) (sort : Nat) (zip zip2 : Zip)
      (tree : SortTree), oneFolder s host path folder sort zip = (.ok tree, zip2) →
      ∃ written, zip2 = zip ++ written ∧
        ∀ e ∈ written, FileData.admitted folder.documents tree.counters e.2)
    (motive_2 := fun subfolders => ∀ (subpath : JsString) (st st2 : FolderLoop)
      (zip zip2 : Zip), folderSubfolders s host subpath subfolders st zip = (.ok st2, zip2) →
      ∃ kids written, st2.handed = st.handed ++ kids ∧ zip2 = zip ++ written ∧
        ∀ e ∈ written,
          FileData.admitted (Folder.documentsList subfolders) (SortTree.countersList kids) e.2)
    ?_ ?_ ?_ folder
  · intro doc subfolders contents ihs path sort zip zip2 tree h
    rw [oneFolder] at h
    obtain ⟨st1, z1, h1, h⟩ := Run.bind_ok_inv _ _ _ _ _ h
    obtain ⟨st2, z2, h2, h⟩ := Run.bind_ok_inv _ _ _ _ _ h
    obtain ⟨kids, w1, a1, a2, a3⟩ := ihs _ _ _ _ _ h1
    obtain ⟨leaves, w2, b1, b2, b3⟩ := folderDocuments_adds s host _ _ _ _ _ _ h2
    simp only [List.nil_append] at a1
    have hhanded : st2.handed = kids ++ leaves := by
      rw [b1]
      split <;> rw [a1]
    have hboth : ∀ e ∈ w1 ++ w2, FileData.admitted (Folder.mk doc subfolders contents).documents
        (sort :: SortTree.countersList (kids ++ leaves)) e.2 := by
      intro e he
      rw [SortTree.countersList_append]
      rcases List.mem_append.1 he with he | he
      · refine FileData.admitted_mono _ _ _ _ ?_ ?_ _ (a3 e he)
        · intro d hd
          simp only [Folder.documents, List.mem_append]
          exact Or.inl hd
        · intro c hc
          exact List.mem_cons_of_mem _ (List.mem_append_left _ hc)
      · refine FileData.admitted_mono _ _ _ _ ?_ ?_ _ (b3 e he)
        · intro d hd
          simp only [Folder.documents, List.mem_append]
          exact Or.inr ((sortDocs_perm contents).mem_iff.1 hd)
        · intro c hc
          exact List.mem_cons_of_mem _ (List.mem_append_right _ hc)
    by_cases ht : st2.toc.length > 0
    · simp only [ht, if_true, Run.bind_apply, tableOfContents, putFile, Run.pure_apply,
        Prod.mk.injEq, Outcome.ok.injEq] at h
      obtain ⟨rfl, rfl⟩ := h
      refine ⟨w1 ++ w2 ++ [(entryPath (formpath path (validFilename doc.name))
        (zipfilename s doc), .text (tocLines st2.toc
          (frontmatterFolder doc.name sort true false ++ js "\n## Table of Contents\n")))],
        by rw [b2, a2]; simp only [Zip.file, List.append_assoc], ?_⟩
      intro e he
      rw [hhanded]
      simp only [SortTree.counters]
      rcases List.mem_append.1 he with he | he
      · exact hboth e he
      · rw [List.mem_singleton.1 he]
        obtain ⟨r, hr⟩ := tocLines_extends st2.toc
          (frontmatterFolder doc.name sort true false ++ js "\n## Table of Contents\n")
        exact Or.inr (Or.inl ⟨sort, List.mem_cons_self _ _,
          Or.inr ⟨doc.name, true, false, js "\n## Table of Contents\n" ++ r, by
            simp only; rw [← hr, List.append_assoc]⟩⟩)
    · simp only [ht, if_false, Run.bind_apply, Run.pure_apply, Prod.mk.injEq,
        Outcome.ok.injEq] at h
      obtain ⟨rfl, rfl⟩ := h
      refine ⟨w1 ++ w2, by rw [b2, a2]; simp only [List.append_assoc], ?_⟩
      intro e he
      rw [hhanded]
      simp only [SortTree.counters]
      exact hboth e he
  · intro subpath st st2 zip zip2 h
    simp only [folderSubfolders, Run.pure_apply, Prod.mk.injEq, Outcome.ok.injEq] at h
    obtain ⟨rfl, rfl⟩ := h
    exact ⟨[], [], by simp, by simp, by simp⟩
  · intro head tail ihh iht subpath st st2 zip zip2 h
    rw [folderSubfolders] at h
    obtain ⟨t, z1, h1, h2⟩ := Run.bind_ok_inv _ _ _ _ _ h
    obtain ⟨w1, c1, c2⟩ := ihh _ _ _ _ _ h1
    obtain ⟨kids, w2, e1, e2, e3⟩ := iht _ _ _ _ _ h2
    refine ⟨t :: kids, w1 ++ w2, ?_, ?_, ?_⟩
    · rw [e1]; simp
    · rw [e2, c1, List.append_assoc]
    · intro e he
      rcases List.mem_append.1 he with he | he
      · refine FileData.admitted_mono _ _ _ _ ?_ ?_ _ (c2 e he)
        · intro d hd
          simp only [Folder.documentsList, List.mem_append]
          exact Or.inl hd
        · intro c hc
          simp only [SortTree.countersList, List.mem_append]
          exact Or.inl hc
      · refine FileData.admitted_mono _ _ _ _ ?_ ?_ _ (e3 e he)
        · intro d hd
          simp only [Folder.documentsList, List.mem_append]
          exact Or.inr hd
        · intro c hc
          simp only [SortTree.countersList, List.mem_append]
          exact Or.inr hc

set_option maxRecDepth 100000 in
/-- C4 (as stated, refuted). In the folder `F` of the first export the
sub-folder `A` holds eleven roll tables and the sub-folder `B` one. From the
seed 101, `A` is handed 1011 and `B` 1012; the eleventh table of `A` is handed
10110 + 11 = 10121, and so is the table of `B` (10120 + 1): two nodes in
different branches receive equal counters. In the second export the folder
holds the journals `K`, of eleven pages, and `L`, of two: the pages of `K` are
handed 10110, ..., 10120 and those of `L` 10120 and 10121. -/
theorem oneFolder_counters_clash :
    handedCounters (oneFolder nameSettings sampleHost [] wideFolder 101 []).1 =
      [101, 1011, 10111, 10112, 10113, 10114, 10115, 10116, 10117, 10118, 10119, 10120,
        10121, 1012, 10121] ∧
    ¬ (handedCounters (oneFolder nameSettings sampleHost [] wideFolder 101 []).1).Nodup ∧
    handedCounters (oneFolder nameSettings sampleHost [] pagesFolder 101 []).1 =
      [101, 1011, 10110, 10111, 10112, 10113, 10114, 10115, 10116, 10117, 10118, 10119,
        10120, 1012, 10120, 10121] ∧
    Zip.get (oneFolder nameSettings sampleHost [] pagesFolder 101 []).2 (js "F/K/P10.md") =
      some (.text (js "---\ntitle: \"P10\"\nicon: \":sticky-note:\"\naliases: \"P10\"\nfoundryId: JournalEntry.K.JournalEntryPage.10\nsortOrder: \"0000010120\"\ntags:\n  - JournalEntryPage\n---\n\n# P10\nx")) ∧
    Zip.get (oneFolder nameSettings sampleHost [] pagesFolder 101 []).2 (js "F/L/P0.md") =
      some (.text (js "---\ntitle: \"P0\"\nicon: \":sticky-note:\"\naliases: \"P0\"\nfoundryId: JournalEntry.L.JournalEntryPage.0\nsortOrder: \"0000010120\"\ntags:\n  - JournalEntryPage\n---\n\n# P0\nx")) := by
  decide!

/-- C4 (amended). Whenever `oneFolder` returns and every counter it handed out
is below `2^53`, the tree of the counters starts at the seed, which is the
counter of the folder itself, and is numbered: below a folder with counter `c`
the sub-folders, in the order of enumeration, and then the documents, in the
order of their field `sort`, are handed `10 * c + 1`, `10 * c + 2`, ..., and
below a journal of several pages with counter `c` the pages that the second
loop of `oneJournal` does not pass over, in the order of their field `sort`,
are handed `10 * c`, `10 * c + 1`, ...; so the counters of the children of one
container increase strictly. The tree holds the counter of every file the call
writes: what it adds to the archive is an asset, a text that opens with the
front matter for a counter of the tree, or what the template of a document of
the folder makes of such a counter. When moreover no folder of the tree has
more than nine children and no journal in it more than ten pages that are
handed a counter, no two nodes of the tree receive equal counters. -/
theorem oneFolder_counters_distinct (s : Settings) (host : Host) (path : JsString)
    (folder : Folder) (sort : Nat) (zip : Zip) (tree : SortTree)
    (h : (oneFolder s host path folder sort zip).1 = .ok tree)
    (hb : ∀ c ∈ tree.counters, c < 2 ^ 53) :
    tree.sort = sort ∧ tree.owner = folder.doc.uuid ∧ tree.numbered ∧
    tree.children.map SortTree.sort =
      List.range' (sort * 10 + 1) (folder.subfolders.length + folder.contents.length) ∧
    tree.children.map SortTree.owner =
      folder.subfolders.map (fun f => f.doc.uuid) ++
        (sortDocs folder.contents).map (fun d => d.doc.uuid) ∧
    (sortDocs folder.contents).Perm folder.contents ∧
    (sortDocs folder.contents).Sorted (fun a b => a.doc.sort ≤ b.doc.sort) ∧
    (∃ written, (oneFolder s host path folder sort zip).2 = zip ++ written ∧
      ∀ e ∈ written, FileData.admitted folder.documents tree.counters e.2) ∧
    (folder.narrow → tree.counters.Nodup) := by
  have hrun : oneFolder s host path folder sort zip =
      (.ok tree, (oneFolder s host path folder sort zip).2) := Prod.ext h rfl
  obtain ⟨h1, h2, h3, h4, h5, h6, -⟩ :=
    oneFolder_spec s host false folder path sort zip _ tree (fun hs => by cases hs) hrun
  have hbc : ∀ c ∈ SortTree.countersList tree.children, c < 2 ^ 53 := by
    intro c hc
    apply hb c
    cases tree with
    | node a b children => simp [SortTree.counters, SortTree.children] at hc ⊢; exact Or.inr hc
  have hfirst : numAdd (numMul sort 10) 1 < 2 ^ 53 → numAdd (numMul sort 10) 1 = sort * 10 + 1 := by
    intro hlt
    have e1 := numAdd_exact _ _ hlt
    have e2 := numMul_exact sort 10 (by omega)
    omega
  have hnum := laidOutFrom_numbered false tree.children _ (sort * 10 + 1) h4 hbc hfirst
  refine ⟨h1, h2, (laidOut_numbered false tree h3 hb).1, ?_, h6, sortDocs_perm _,
    sortDocs_sorted _, oneFolder_adds s host folder path sort zip _ tree hrun, ?_⟩
  · rw [numberedFrom_sorts _ _ hnum, h5]
  · intro hn
    obtain ⟨-, -, g3, -, -, -, -⟩ :=
      oneFolder_spec s host true folder path sort zip _ tree (fun _ => hn) hrun
    obtain ⟨k1, k2⟩ := laidOut_numbered true tree g3 hb
    exact counters_nodup tree k1 (k2 rfl)

set_option maxRecDepth 100000 in
/-- C4 (amended), at the folder `F` with the sub-folder `A`, of one roll table,
the journal `J`, of which one page is written as a file of its own, and a roll
table: from the seed 101 the counters handed out are 101, 1011, 10111, 1012,
10120 and 1013. -/
theorem oneFolder_counters_distinct_witness :
    (oneFolder nameSettings sampleHost [] pagedFolder 101 []).1 = .ok pagedTree ∧
    pagedFolder.narrow ∧
    pagedTree.counters = [101, 1011, 10111, 1012, 10120, 1013] ∧
    pagedTree.children.map SortTree.sort = [1011, 1012, 1013] ∧
    pagedTree.children.map SortTree.owner =
      [js "Folder.a", js "JournalEntry.j", js "RollTable.b1"] ∧
    pagedTree.counters.Nodup :=
  have hn : pagedFolder.narrow := by
    simp only [pagedFolder, Folder.narrow, Folder.narrowList, Doc.countedPages, tableNamed,
      landingJournal, List.length_cons, List.length_nil, List.mem_cons, List.mem_singleton,
      List.not_mem_nil, or_false, forall_eq_or_imp, forall_eq, and_true]
    refine ⟨by decide, ⟨?_, by decide⟩, by decide, ?_⟩
    · split_ifs
      · exact le_trans (List.length_filter_le _ _) (by decide)
      · decide
    · decide
  have hb : ∀ c ∈ pagedTree.counters, c < 2 ^ 53 := by decide
  have hw := oneFolder_counters_distinct nameSettings sampleHost [] pagedFolder 101 []
    pagedTree rfl hb
  ⟨rfl, hn, rfl, hw.2.2.2.1.trans (by decide), hw.2.2.2.2.1.trans (by decide),
    hw.2.2.2.2.2.2.2.2 hn⟩


/-! ### Folders and packs: the index files -/

theorem tocLines_append : ∀ (a b : List JsString) (md : JsString),
    tocLines (a ++ b) md = tocLines b (tocLines a md) := by
  intro a
  induction a with
  | nil => intro b md; rfl
  | cons x xs ih => intro b md; simp only [List.cons_append, tocLines, List.append_eq, ih]

theorem tocLines_links : ∀ (links : List JsString) (md : JsString),
    (∀ l ∈ links, l ≠ ITEM_BREAK) → tocLines links md = md ++ bullets links := by
  intro links
  induction links with
  | nil => intro md _; simp [tocLines, bullets]
  | cons x xs ih =>
    intro md h
    have hx : x ≠ ITEM_BREAK := h x (List.mem_cons_self _ _)
    rw [tocLines, ih _ (fun l hl => h l (List.mem_cons_of_mem _ hl))]
    simp only [bullets, List.flatMap_cons, hx, ne_eq, not_false_eq_true, if_true,
      List.append_assoc]

theorem tocLines_break (md : JsString) : tocLines [ITEM_BREAK] md = md ++ js "\n---" := by
  simp [tocLines]

theorem formatLink_ne_break (link : JsString) (label : Option JsString) :
    formatLink link label false ≠ ITEM_BREAK := by
  obtain ⟨body, e⟩ := formatLink_brackets link label
  have e1 : js "[[" = [91, 91] := by decide
  have e2 : ITEM_BREAK = [73, 84, 69, 77, 83] := by decide
  rw [e, e1, e2]
  simp

/-- The text that `tableOfContents` renders for the list `toc` of a container
with the links `first` to its sub-containers and `second` to its documents,
where `sep` tells whether the separator was pushed between them. -/
theorem tocLines_groups (first second : List JsString) (sep : Prop) [Decidable sep]
    (md : JsString) (h1 : ∀ l ∈ first, l ≠ ITEM_BREAK) (h2 : ∀ l ∈ second, l ≠ ITEM_BREAK) :
    tocLines (first ++ (if sep then [ITEM_BREAK] else []) ++ second) md =
      md ++ bullets first ++ (if sep then js "\n---" else []) ++ bullets second := by
  rw [tocLines_append, tocLines_append, tocLines_links first md h1, tocLines_links second _ h2]
  by_cases hs : sep
  · rw [if_pos hs, if_pos hs, tocLines_break]
  · rw [if_neg hs, if_neg hs]
    simp [tocLines]

theorem packFolderLinks_spec (s : Settings) (subpath : JsString) (depth : Nat) :
    ∀ (folders : List PackFolder) (subsort : Nat) (toc : List JsString),
    (packFolderLinks s subpath depth folders subsort toc).2 =
      toc ++ (folders.filter fun f => f.depth = depth).map fun f =>
        tocFolderLink s (formpath subpath (validFilename f.doc.name)) f.doc := by
  intro folders
  induction folders with
  | nil => intro subsort toc; simp [packFolderLinks]
  | cons f fs ih =>
    intro subsort toc
    rw [packFolderLinks]
    by_cases hd : f.depth = depth
    · rw [if_pos hd, ih]
      simp [List.filter_cons, hd]
    · rw [if_neg hd, ih]
      simp [List.filter_cons, hd]

theorem packDocuments_spec (s : Settings) (host : Host) (subpath : JsString) :
    ∀ (docs : List PackDoc) (subsort : Nat) (toc toc2 : List JsString) (zip zip2 : Zip),
    packDocuments s host subpath docs subsort toc zip = (.ok toc2, zip2) →
    toc2 = toc ++ (docs.filter fun d => !d.inFolder).map fun d => tocLink s d.doc := by
  intro docs
  induction docs with
  | nil =>
    intro subsort toc toc2 zip zip2 h
    simp only [packDocuments, Run.pure_apply, Prod.mk.injEq, Outcome.ok.injEq] at h
    simp [h.1]
  | cons d ds ih =>
    intro subsort toc toc2 zip zip2 h
    rw [packDocuments] at h
    by_cases hd : d.inFolder = true
    · simp only [hd, not_true_eq_false, if_false] at h
      rw [ih _ _ _ _ _ h]
      simp [List.filter_cons, hd]
    · simp only [hd, not_false_eq_true, if_true] at h
      obtain ⟨_, z1, -, h2⟩ := Run.bind_ok_inv _ _ _ _ _ h
      rw [ih _ _ _ _ _ h2]
      simp [List.filter_cons, hd]

theorem tocFolderLink_ne_break (s : Settings) (path : JsString) (folder : Document) :
    tocFolderLink s path folder ≠ ITEM_BREAK :=
  formatLink_ne_break _ _

theorem tocLink_ne_break (s : Settings) (doc : Doc) : tocLink s doc ≠ ITEM_BREAK :=
  formatLink_ne_break _ _

theorem tocLines_folderToc (s : Settings) (subpath : JsString) (subfolders : List Folder)
    (contents : List Doc) (md : JsString) :
    tocLines (folderToc s subpath subfolders contents) md =
      md ++ bullets (folderLinks s subpath subfolders) ++
        (if subfolders.length > 0 ∧ contents.length > 0 then js "\n---" else []) ++
        bullets ((sortDocs contents).map (tocLink s)) := by
  unfold folderToc folderLinks
  apply tocLines_groups
  · intro l hl
    obtain ⟨f, -, rfl⟩ := List.mem_map.1 hl
    exact tocFolderLink_ne_break _ _ _
  · intro l hl
    obtain ⟨d, -, rfl⟩ := List.mem_map.1 hl
    exact tocLink_ne_break _ _

theorem folderToc_length (s : Settings) (subpath : JsString) (subfolders : List Folder)
    (contents : List Doc) (h : 0 < subfolders.length + contents.length) :
    (folderToc s subpath subfolders contents).length > 0 := by
  have hperm : (sortDocs contents).length = contents.length :=
    List.length_insertionSort _ contents
  unfold folderToc
  simp only [List.length_append, List.length_map, hperm]
  omega

set_option maxRecDepth 100000 in
/-- C16 (divergence of `onePack`). The only document of the pack `P` lies in
its only folder `A`: the group of leaf-document links of `P` is empty, and the
index file `P/P.md` that `onePack` writes ends with the separator line after
the link to `A`. -/
theorem onePack_separator_without_leaves :
    (onePack nameSettings sampleHost [] samplePack 101 []).1 = .ok () ∧
    packLeafGroup nameSettings samplePack = [] ∧
    Zip.get (onePack nameSettings sampleHost [] samplePack 101 []).2 (js "P/P.md") =
      some (.text (js "---\ntitle: \"P\"\nicon: \":folder:\"\naliases: \"P\"\nsortOrder: \"0000000101\"\ntags:\n  - \"toc\"\n---\n\n# P\n\n## Table of Contents\n\n- [[P/A/A|A]]\n---")) := by
  decide!

/-- C16 (what the code does). A folder with a sub-folder or a document, exported by
`oneFolder`: the last file written is its index, whose text is the heading,
one bullet for each sub-folder link, then one bullet for each document link in
the order of `sort`, with the separator line between the two groups exactly
when the folder has both a sub-folder and a document. A pack with a folder of
depth 1 or a document outside the folders, exported by `onePack`: the index is
written before `compendiumFolders` runs, with the same layout, but the
separator line follows the folder links exactly when the pack has a folder of
depth 1 and any document at all, also when every document lies in a folder. -/
theorem index_separator (s : Settings) (host : Host) :
    (∀ (path : JsString) (folder : Folder) (sort : Nat) (zip : Zip) (tree : SortTree),
      (oneFolder s host path folder sort zip).1 = .ok tree →
      0 < folder.subfolders.length + folder.contents.length →
      ∃ z, (oneFolder s host path folder sort zip).2 = z ++
        [(entryPath (formpath path (validFilename folder.doc.name)) (zipfilename s folder.doc),
          .text (indexHead folder.doc.name sort ++
            bullets (folderLinks s (formpath path (validFilename folder.doc.name))
              folder.subfolders) ++
            (if folder.subfolders.length > 0 ∧ folder.contents.length > 0 then js "\n---"
              else []) ++
            bullets ((sortDocs folder.contents).map (tocLink s))))]) ∧
    (∀ (path : JsString) (pack : Pack) (sort : Nat) (zip zip2 : Zip),
      onePack s host path pack sort zip = (.ok (), zip2) →
      0 < (packFolderGroup s (formpath path (validFilename (toStr pack.doc.collectionTitle)))
        pack).length + (packLeafGroup s pack).length →
      ∃ z, compendiumFolders s host
        (formpath path (validFilename (toStr pack.doc.collectionTitle)))
        (sortPackDocs pack.documents) 1 pack.folders (numMul sort 10)
        (z ++ [(entryPath (formpath path (validFilename (toStr pack.doc.collectionTitle)))
            (zipfilename s pack.doc),
          .text (indexHead (toStr pack.doc.collectionTitle) sort ++
            bullets (packFolderGroup s
              (formpath path (validFilename (toStr pack.doc.collectionTitle))) pack) ++
            (if (packFolderGroup s
                (formpath path (validFilename (toStr pack.doc.collectionTitle))) pack).length > 0
                ∧ pack.documents.length > 0 then js "\n---" else []) ++
            bullets (packLeafGroup s pack)))]) = (.ok (), zip2)) := by
  constructor
  · intro path folder sort zip tree h hne
    obtain ⟨-, -, -, -, -, -, z, hz⟩ :=
      oneFolder_spec s host false folder path sort zip (oneFolder s host path folder sort zip).2
        tree (fun hs => by cases hs) (Prod.ext h rfl)
    rw [if_pos (folderToc_length s _ _ _ hne)] at hz
    refine ⟨z, ?_⟩
    rw [hz, folderIndex, tocLines_folderToc, indexHead]
  · intro path pack sort zip zip2 h hne
    rw [onePack] at h
    have hp := packFolderLinks_spec s
      (formpath path (validFilename (toStr pack.doc.collectionTitle))) 1 pack.folders
      (numMul sort 10) []
    cases hq : packFolderLinks s
        (formpath path (validFilename (toStr pack.doc.collectionTitle))) 1 pack.folders
        (numMul sort 10) [] with
    | mk ss t0 =>
      rw [hq] at hp
      simp only [List.nil_append] at hp
      simp only [hq] at h
      obtain ⟨toc2, z1, h1, h⟩ := Run.bind_ok_inv _ _ _ _ _ h
      have e := packDocuments_spec s host _ _ _ _ _ _ _ h1
      have ht0 : t0 = packFolderGroup s
          (formpath path (validFilename (toStr pack.doc.collectionTitle))) pack := hp
      have e2 : toc2 = packFolderGroup s
          (formpath path (validFilename (toStr pack.doc.collectionTitle))) pack ++
          (if (packFolderGroup s
            (formpath path (validFilename (toStr pack.doc.collectionTitle))) pack).length > 0 ∧
            pack.documents.length > 0 then [ITEM_BREAK] else []) ++ packLeafGroup s pack := by
        rw [e, ← ht0]
        unfold packLeafGroup
        by_cases hc : t0.length > 0 ∧ pack.documents.length > 0
        · rw [if_pos hc, if_pos hc]
        · rw [if_neg hc, if_neg hc, List.append_nil]
      have hlen : toc2.length > 0 := by
        rw [e2]
        simp only [List.length_append]
        omega
      rw [if_pos hlen] at h
      simp only [Run.bind_apply, tableOfContents, putFile, Zip.file] at h
      refine ⟨z1, ?_⟩
      rw [← h, e2, indexHead, tocLines_groups]
      · intro l hl
        obtain ⟨f, -, rfl⟩ := List.mem_map.1 hl
        exact tocFolderLink_ne_break _ _ _
      · intro l hl
        obtain ⟨d, -, rfl⟩ := List.mem_map.1 hl
        exact tocLink_ne_break _ _

set_option maxRecDepth 100000 in
/-- C16, at the folder `F` with the sub-folder `A` and the roll table
`U1`, where the separator stands between the two groups, and at the pack `P`
whose only document lies in its folder `A`, where it ends the index. -/
theorem index_separator_witness :
    (∃ z, (oneFolder nameSettings sampleHost [] mixedFolder 101 []).2 = z ++
      [(js "F/F.md", .text (js "---\ntitle: \"F\"\nicon: \":folder:\"\naliases: \"F\"\nsortOrder: \"0000000101\"\ntags:\n  - \"toc\"\n---\n\n# F\n\n## Table of Contents\n\n- [[F/A/A|A]]\n---\n- [[./U1|U1]]"))]) ∧
    (∃ z, compendiumFolders nameSettings sampleHost (js "P")
      (sortPackDocs samplePack.documents) 1 samplePack.folders 1010
      (z ++ [(js "P/P.md", .text (js "---\ntitle: \"P\"\nicon: \":folder:\"\naliases: \"P\"\nsortOrder: \"0000000101\"\ntags:\n  - \"toc\"\n---\n\n# P\n\n## Table of Contents\n\n- [[P/A/A|A]]\n---"))]) =
        (.ok (), (onePack nameSettings sampleHost [] samplePack 101 []).2)) := by
  constructor
  · obtain ⟨z, hz⟩ := (index_separator nameSettings sampleHost).1 [] mixedFolder 101 []
      (.node 101 (js "Folder.f") [.node 1011 (js "Folder.a") [.node 10111 (js "RollTable.a1") []],
        .node 1012 (js "RollTable.b1") []]) rfl (by decide)
    refine ⟨z, ?_⟩
    rw [hz]
    rfl
  · have h1 : (onePack nameSettings sampleHost [] samplePack 101 []).1 = .ok () := by decide!
    obtain ⟨z, hz⟩ := (index_separator nameSettings sampleHost).2 [] samplePack 101 []
      (onePack nameSettings sampleHost [] samplePack 101 []).2 (Prod.ext h1 rfl) (by decide!)
    refine ⟨z, ?_⟩
    rw [← hz]
    rfl

end ExportMarkdown
